import Mathlib

/-!
Model reconciler of the config operator

A shallow embedding of `pkg/controller/config/model/reconciler.go`: the
convergence pass `reconcileCreate`, the deletion pass `reconcileDelete`, the
entry point `Reconcile`, the mapper `Map`, and the data they work on.

The object store and the remote model registry are external.  They are
represented by an `Env`: one response function per operation, each of which
receives the calls issued so far in the pass, so that a response may depend on
everything that happened before it.  A pass returns an `Outcome`: the
`reconcile.Result`, the error, the in-memory Model at return, and the calls it
issued, in order.

Modelling choices:
* a store write (`Update`, `Status().Update`) answers with an error or with
  success and leaves the in-memory Model as it was sent;
* the in-memory Model of a pass is not what the next pass sees: every pass
  starts from the Model read from the store, so successive passes (`run`) are
  chained on the stored Model (`stored`), which changes only through the writes
  of a pass that the store accepted;
* a pod lookup answers with the error and with the pod object as the call
  leaves it (the client used by the controller leaves the object untouched
  when it returns an error, so the object is then the empty pod);
* closing a connection (`defer conn.Close()`) and logging are not represented;
* Go maps (`Annotations`, `Files`) are association lists;
* the types of package `v1beta1`, the constants of package `registry` and the
  helpers of packages `k8s` and `util` are not part of the file that is
  embedded; the phases and state modes are the enumerations the specification
  gives, the constants and `NormalizeFileName` are parameters (`Consts`), and
  the finalizer helpers are modelled from the specification.
-/

namespace ModelReconciler

/-! ## Data model -/

/-- Install phase of a Model in one pod registry (`v1beta1.ModelPhase`). -/
inductive ModelPhase where
  | ModelPending
  | ModelInstalling
  | ModelInstalled
  deriving DecidableEq, Repr

/-- Entry of `model.Status.RegistryStatuses` (`v1beta1.RegistryStatus`). -/
structure RegistryStatus where
  PodName : String
  Phase : ModelPhase
  deriving DecidableEq, Repr

/-- Entry of `pod.Status.ContainerStatuses`. -/
structure ContainerStatus where
  Name : String
  Ready : Bool
  deriving DecidableEq, Repr

/-- The part of `corev1.PodStatus` the reconciler reads. -/
structure PodStatus where
  PodIP : String := ""
  ContainerStatuses : List ContainerStatus := []
  deriving DecidableEq, Repr

/-- The part of `corev1.Pod` the reconciler reads.  `Annotations` is the Go map
as an association list; a key that is absent reads as the empty string. -/
structure Pod where
  Namespace : String := ""
  Name : String := ""
  Annotations : List (String × String) := []
  Status : PodStatus := {}
  deriving DecidableEq, Repr

/-- Spec-level state mode (`v1beta1.GetStateMode`). -/
inductive GetStateMode where
  | GetStateNone
  | GetStateOpState
  | GetStateExplicitRoPaths
  | GetStateExplicitRoPathsExpandWildcards
  deriving DecidableEq, Repr

/-- Plugin descriptor of a Model (`model.Spec.Plugin`). -/
structure Plugin where
  Type_ : String
  Version : String
  GetStateMode : GetStateMode := .GetStateNone
  deriving DecidableEq, Repr

/-- Entry of `model.Spec.Modules`. -/
structure Module where
  Name : String
  Organization : String
  Revision : String
  File : String
  deriving DecidableEq, Repr

/-- The `v1beta1.ModelSpec`.  `Files` is the Go map as an association list. -/
structure ModelSpec where
  Plugin : Option Plugin := none
  Modules : List Module := []
  Files : List (String × String) := []
  deriving DecidableEq, Repr

/-- The `v1beta1.ModelStatus`. -/
structure ModelStatus where
  RegistryStatuses : List RegistryStatus := []
  deriving DecidableEq, Repr

/-- The `v1beta1.Model` resource.  `DeletionTimestamp` is `none` until deletion
is requested. -/
structure Model where
  Namespace : String := ""
  Name : String := ""
  DeletionTimestamp : Option Nat := none
  Finalizers : List String := []
  Spec : ModelSpec := {}
  Status : ModelStatus := {}
  deriving DecidableEq, Repr

/-! ## Errors -/

/-- Errors the collaborators return.  The store's not-found and conflict are
Kubernetes API errors, the remote's already-exists and not-found are gRPC
status errors; everything else is `Other`. -/
inductive Err where
  | StoreNotFound
  | StoreConflict
  | RemoteAlreadyExists
  | RemoteNotFound
  | Other (msg : String)
  deriving DecidableEq, Repr

/-- The `k8serrors.IsNotFound` predicate. -/
def k8sIsNotFound : Err → Bool
  | .StoreNotFound => true
  | _ => false

/-- The `errors.IsAlreadyExists(errors.FromStatus(errStatus))` test on a remote error. -/
def IsAlreadyExists : Err → Bool
  | .RemoteAlreadyExists => true
  | _ => false

/-- The `errors.IsNotFound(errors.FromStatus(errStatus))` test on a remote error. -/
def IsNotFound : Err → Bool
  | .RemoteNotFound => true
  | _ => false

/-! ## Remote protocol messages -/

/-- Remote-level state mode (`configmodel.GetStateMode`). -/
inductive RemoteGetStateMode where
  | NONE
  | OP_STATE
  | EXPLICIT_RO_PATHS
  | EXPLICIT_RO_PATHS_EXPAND_WILDCARDS
  deriving DecidableEq, Repr

/-- The `configmodel.ConfigModule` message. -/
structure ConfigModule where
  Name : String
  Organization : String
  Revision : String
  File : String
  deriving DecidableEq, Repr

/-- The `configmodel.ConfigModel` message carried by a push. -/
structure ConfigModel where
  Name : String
  Version : String
  GetStateMode : RemoteGetStateMode
  Modules : List ConfigModule
  Files : List (String × String)
  deriving DecidableEq, Repr

/-- The `configmodel.PushModelRequest` message. -/
structure PushModelRequest where
  Model : ConfigModel
  deriving DecidableEq, Repr

/-- The `configmodel.DeleteModelRequest` message. -/
structure DeleteModelRequest where
  Name : String
  Version : String
  deriving DecidableEq, Repr

/-! ## Calls, environment, outcome -/

/-- One call to a collaborator.  Remote calls carry the name of the pod they
are made for next to the address that is dialled. -/
inductive Call where
  | Update (model : Model)
  | StatusUpdate (model : Model)
  | ListPods (ns : String)
  | GetPod (ns : String) (name : String)
  | ConnectAddress (pod : String) (address : String)
  | PushModel (pod : String) (address : String) (request : PushModelRequest)
  | DeleteModel (pod : String) (address : String) (request : DeleteModelRequest)
  deriving DecidableEq, Repr

/-- Responses of the object store and of the remote registries.  The first
argument of every field is the list of calls issued before this one.  `GetPod`
returns the pod object as the call leaves it together with the error; the
other store calls return `none` on success. -/
structure Env where
  Update : List Call → Model → Option Err
  StatusUpdate : List Call → Model → Option Err
  ListPods : List Call → String → Except Err (List Pod)
  GetPod : List Call → String → String → Pod × Option Err
  ConnectAddress : List Call → String → String → Option Err
  PushModel : List Call → String → String → PushModelRequest → Option Err
  DeleteModel : List Call → String → String → DeleteModelRequest → Option Err

/-- Constants and helpers of sibling packages that the reconciler imports
(`registry.RegistryInjectStatusAnnotation`, `registry.RegistryInjectStatusInjected`,
`util.NormalizeFileName`); their values are not fixed here. -/
structure Consts where
  RegistryInjectStatusKey : String
  RegistryInjectStatusInjected : String
  NormalizeFileName : String → String

/-- The `reconcile.Result`; `RequeueAfter` is a duration in nanoseconds. -/
structure Result where
  Requeue : Bool := false
  RequeueAfter : Nat := 0
  deriving DecidableEq, Repr

/-- What a pass returns and leaves behind. -/
structure Outcome where
  result : Result
  err : Option Err
  model : Model
  trace : List Call

/-- Either the scan goes on (with the requeue flag and the calls so far) or the
pass has returned. -/
inductive Scan where
  | next (requeue : Bool) (trace : List Call)
  | done (o : Outcome)

/-! ## Constants and helpers -/

def configFinalizer : String := "config"

/-- The `time.Second` duration, in nanoseconds. -/
def retryDuration : Nat := 1000000000

/-- Modelled from the spec: `k8s.HasFinalizer` of the absent package
`pkg/controller/util/k8s`; the finalizer set of the Model contains the name. -/
def HasFinalizer (model : Model) (name : String) : Bool :=
  model.Finalizers.contains name

/-- Modelled from the spec: `k8s.AddFinalizer` of the absent package
`pkg/controller/util/k8s`; the name is added to the finalizer set. -/
def AddFinalizer (model : Model) (name : String) : Model :=
  { model with Finalizers := model.Finalizers ++ [name] }

/-- Modelled from the spec: `k8s.RemoveFinalizer` of the absent package
`pkg/controller/util/k8s`; the name is removed from the finalizer set. -/
def RemoveFinalizer (model : Model) (name : String) : Model :=
  { model with Finalizers := model.Finalizers.filter (fun f => f != name) }

/-- A Go map read `m[key]`: the value of the key, the empty string when absent. -/
def mapGet (m : List (String × String)) (key : String) : String :=
  match m.find? (fun kv => kv.1 == key) with
  | some kv => kv.2
  | none => ""

/-- The test `pod.Annotations[RegistryInjectStatusAnnotation] == RegistryInjectStatusInjected`. -/
def injected (c : Consts) (pod : Pod) : Bool :=
  mapGet pod.Annotations c.RegistryInjectStatusKey == c.RegistryInjectStatusInjected

/-- The search loop of lines 154-161: index and value of the first entry whose
`PodName` is the given name. -/
def findStatus : List RegistryStatus → String → Option (Nat × RegistryStatus)
  | [], _ => none
  | reg :: rest, name =>
    if reg.PodName == name then some (0, reg)
    else match findStatus rest name with
      | some (i, s) => some (i + 1, s)
      | none => none

/-- The readiness loop (lines 180-185 and 202-207): starts `true` and becomes
`false` at every container status named `model-registry` that is not ready. -/
def containersReady (pod : Pod) : Bool :=
  pod.Status.ContainerStatuses.foldl
    (fun ready containerStatus =>
      if containerStatus.Name == "model-registry" && !containerStatus.Ready then false else ready)
    true

/-- The address `fmt.Sprintf("%s:5151", pod.Status.PodIP)`. -/
def address (pod : Pod) : String :=
  pod.Status.PodIP ++ ":5151"

/-- The state-mode switch of lines 233-243. -/
def toRemoteGetStateMode : GetStateMode → RemoteGetStateMode
  | .GetStateNone => .NONE
  | .GetStateOpState => .OP_STATE
  | .GetStateExplicitRoPaths => .EXPLICIT_RO_PATHS
  | .GetStateExplicitRoPathsExpandWildcards => .EXPLICIT_RO_PATHS_EXPAND_WILDCARDS

/-- The push request built at lines 218-253. -/
def pushRequest (c : Consts) (model : Model) (plugin : Plugin) : PushModelRequest :=
  { Model :=
    { Name := plugin.Type_
      Version := plugin.Version
      GetStateMode := toRemoteGetStateMode plugin.GetStateMode
      Modules := model.Spec.Modules.map (fun module =>
        { Name := module.Name
          Organization := module.Organization
          Revision := module.Revision
          File := c.NormalizeFileName module.File })
      Files := model.Spec.Files.map (fun nd => (c.NormalizeFileName nd.1, nd.2)) } }

/-- The delete request built at lines 341-344. -/
def deleteRequest (plugin : Plugin) : DeleteModelRequest :=
  { Name := plugin.Type_, Version := plugin.Version }

/-- The Model with its status list replaced. -/
def setStatuses (model : Model) (statuses : List RegistryStatus) : Model :=
  { model with Status := { model.Status with RegistryStatuses := statuses } }

/-- Persist the status and return: `Status().Update` followed by the two
returns that follow it everywhere in `reconcileCreate`. -/
def updateStatusAndReturn (env : Env) (model : Model) (tr : List Call) : Outcome :=
  match env.StatusUpdate tr model with
  | some err => { result := {}, err := some err, model := model, trace := tr ++ [.StatusUpdate model] }
  | none => { result := {}, err := none, model := model, trace := tr ++ [.StatusUpdate model] }

/-! ## Convergence pass -/

/-- Body of the pod loop of `reconcileCreate` (lines 150-277) for one pod. -/
def reconcilePod (c : Consts) (env : Env) (model : Model) (plugin : Plugin)
    (tr : List Call) (requeue : Bool) (pod : Pod) : Scan :=
  if injected c pod then
    match findStatus model.Status.RegistryStatuses pod.Name with
    | none =>
      .done (updateStatusAndReturn env
        (setStatuses model (model.Status.RegistryStatuses ++
          [{ PodName := pod.Name, Phase := .ModelPending }])) tr)
    | some (podIndex, podStatus) =>
      match podStatus.Phase with
      | .ModelPending =>
        if pod.Status.PodIP != "" then
          if !containersReady pod then .next true tr
          else
            .done (updateStatusAndReturn env
              (setStatuses model (model.Status.RegistryStatuses.set podIndex
                { PodName := pod.Name, Phase := .ModelInstalling })) tr)
        else .next requeue tr
      | .ModelInstalling =>
        if !containersReady pod then .next true tr
        else
          match env.ConnectAddress tr pod.Name (address pod) with
          | some err =>
            .done { result := {}, err := some err, model := model,
                    trace := tr ++ [.ConnectAddress pod.Name (address pod)] }
          | none =>
            let tr1 := tr ++ [.ConnectAddress pod.Name (address pod)]
            let request := pushRequest c model plugin
            let tr2 := tr1 ++ [.PushModel pod.Name (address pod) request]
            match env.PushModel tr1 pod.Name (address pod) request with
            | some err =>
              if !IsAlreadyExists err then
                .done { result := {}, err := some err, model := model, trace := tr2 }
              else
                .done (updateStatusAndReturn env
                  (setStatuses model (model.Status.RegistryStatuses.set podIndex
                    { PodName := pod.Name, Phase := .ModelInstalled })) tr2)
            | none =>
              .done (updateStatusAndReturn env
                (setStatuses model (model.Status.RegistryStatuses.set podIndex
                  { PodName := pod.Name, Phase := .ModelInstalled })) tr2)
      | .ModelInstalled => .next requeue tr
  else .next requeue tr

/-- The pod loop of `reconcileCreate` (line 149). -/
def scanPods (c : Consts) (env : Env) (model : Model) (plugin : Plugin)
    (tr : List Call) : Bool → List Pod → Scan
  | requeue, [] => .next requeue tr
  | requeue, pod :: rest =>
    match reconcilePod c env model plugin tr requeue pod with
    | .next requeue1 _ => scanPods c env model plugin tr requeue1 rest
    | .done o => .done o

/-- The loop over the status entries of `reconcileCreate` (lines 281-302): each
entry's pod is looked up; at the first lookup that fails with not-found the
entries named like the pod object are dropped, the status is persisted and the
pass returns. -/
def forgetPods (env : Env) (model : Model) (requeue : Bool) :
    List Call → List RegistryStatus → Scan
  | tr, [] => .next requeue tr
  | tr, podStatus :: rest =>
    let r := env.GetPod tr model.Namespace podStatus.PodName
    let pod := r.1
    let tr1 := tr ++ [.GetPod model.Namespace podStatus.PodName]
    match r.2 with
    | some err =>
      if k8sIsNotFound err then
        .done (updateStatusAndReturn env
          (setStatuses model
            (model.Status.RegistryStatuses.filter (fun s => s.PodName != pod.Name))) tr1)
      else forgetPods env model requeue tr1 rest
    | none => forgetPods env model requeue tr1 rest

/-- The convergence pass `Reconciler.reconcileCreate`. -/
def reconcileCreate (c : Consts) (env : Env) (model : Model) : Outcome :=
  match model.Spec.Plugin with
  | none => { result := {}, err := none, model := model, trace := [] }
  | some plugin =>
    let withFinalizer : Model × List Call × Option Err :=
      if !HasFinalizer model configFinalizer then
        let model1 := AddFinalizer model configFinalizer
        (model1, [.Update model1], env.Update [] model1)
      else (model, [], none)
    let model1 := withFinalizer.1
    let tr1 := withFinalizer.2.1
    match withFinalizer.2.2 with
    | some err => { result := {}, err := some err, model := model1, trace := tr1 }
    | none =>
      let tr2 := tr1 ++ [.ListPods model1.Namespace]
      match env.ListPods tr1 model1.Namespace with
      | .error err => { result := {}, err := some err, model := model1, trace := tr2 }
      | .ok pods =>
        match scanPods c env model1 plugin tr2 false pods with
        | .done o => o
        | .next requeue tr3 =>
          match forgetPods env model1 requeue tr3 model1.Status.RegistryStatuses with
          | .done o => o
          | .next _ tr4 =>
            if requeue then
              { result := { RequeueAfter := retryDuration }, err := none, model := model1, trace := tr4 }
            else { result := {}, err := none, model := model1, trace := tr4 }

/-! ## Deletion pass -/

/-- The pod loop of `reconcileDelete` (lines 332-354). -/
def deletePods (c : Consts) (env : Env) (model : Model) (plugin : Plugin) :
    List Call → List Pod → Scan
  | tr, [] => .next false tr
  | tr, pod :: rest =>
    if injected c pod then
      match env.ConnectAddress tr pod.Name (address pod) with
      | some err =>
        .done { result := {}, err := some err, model := model,
                trace := tr ++ [.ConnectAddress pod.Name (address pod)] }
      | none =>
        let tr1 := tr ++ [.ConnectAddress pod.Name (address pod)]
        let request := deleteRequest plugin
        let tr2 := tr1 ++ [.DeleteModel pod.Name (address pod) request]
        match env.DeleteModel tr1 pod.Name (address pod) request with
        | some err =>
          if !IsNotFound err then
            .done { result := {}, err := some err, model := model, trace := tr2 }
          else deletePods c env model plugin tr2 rest
        | none => deletePods c env model plugin tr2 rest
    else deletePods c env model plugin tr rest

/-- The deletion pass `Reconciler.reconcileDelete`. -/
def reconcileDelete (c : Consts) (env : Env) (model : Model) : Outcome :=
  match model.Spec.Plugin with
  | none => { result := {}, err := none, model := model, trace := [] }
  | some plugin =>
    if !HasFinalizer model configFinalizer then
      { result := {}, err := none, model := model, trace := [] }
    else
      let tr1 := [Call.ListPods model.Namespace]
      match env.ListPods [] model.Namespace with
      | .error err => { result := {}, err := some err, model := model, trace := tr1 }
      | .ok pods =>
        match deletePods c env model plugin tr1 pods with
        | .done o => o
        | .next _ tr2 =>
          let model1 := RemoveFinalizer model configFinalizer
          match env.Update tr2 model1 with
          | some err => { result := {}, err := some err, model := model1, trace := tr2 ++ [.Update model1] }
          | none => { result := {}, err := none, model := model1, trace := tr2 ++ [.Update model1] }

/-! ## Entry point and mapper -/

/-- The `reconcile.Request`: the identity of the Model to reconcile. -/
structure Request where
  Namespace : String
  Name : String
  deriving DecidableEq, Repr

/-- Responses of the object store to the calls on Model objects: the fetch of
one Model (the object as the call leaves it, and the error) and the listing of
the Models of a namespace. -/
structure ModelStore where
  GetModel : String → String → Model × Option Err
  ListModels : String → Except Err (List Model)

/-- The entry point `Reconciler.Reconcile` (lines 99-120).  `env` answers the
calls that follow the fetch; the trace of the outcome lists those calls. -/
def Reconcile (c : Consts) (store : ModelStore) (env : Env) (request : Request) : Outcome :=
  let r := store.GetModel request.Namespace request.Name
  let model := r.1
  match r.2 with
  | some err =>
    if k8sIsNotFound err then
      { result := {}, err := none, model := model, trace := [] }
    else { result := {}, err := some err, model := model, trace := [] }
  | none =>
    match model.DeletionTimestamp with
    | none => reconcileCreate c env model
    | some _ => reconcileDelete c env model

/-- The object of a change notification (`handler.MapObject.Object`): the
controller watches Pods and Models. -/
inductive RuntimeObject where
  | Pod (pod : Pod)
  | Model (model : Model)
  deriving DecidableEq, Repr

/-- The `handler.MapObject`: the namespace read through `Meta` and the object. -/
structure MapObject where
  MetaNamespace : String
  Object : RuntimeObject
  deriving DecidableEq, Repr

/-- The mapper `modelMapper.Map` (lines 369-394). -/
def Map (c : Consts) (store : ModelStore) (object : MapObject) : List Request :=
  let discard : Bool :=
    match object.Object with
    | .Pod pod => !injected c pod
    | .Model _ => false
  if discard then []
  else
    match store.ListModels object.MetaNamespace with
    | .error _ => []
    | .ok models => models.map (fun model => { Namespace := model.Namespace, Name := model.Name })

/-! ## Specification vocabulary -/

/-- The target names of a status list. -/
def podNames (statuses : List RegistryStatus) : List String :=
  statuses.map (fun s => s.PodName)

/-- The two lists differ in at most one entry: nothing changed, one entry was
appended, one entry had its phase changed, or one entry was removed. -/
def SingleMutation (before after : List RegistryStatus) : Prop :=
  after = before ∨
  (∃ e, after = before ++ [e]) ∨
  (∃ i e ph, before[i]? = some e ∧ after = before.set i { PodName := e.PodName, Phase := ph }) ∨
  (∃ i, i < before.length ∧ after = before.eraseIdx i)

/-- The lookups the pass issues for a list of status entries. -/
def lookups (ns : String) (statuses : List RegistryStatus) : List Call :=
  statuses.map (fun s => Call.GetPod ns s.PodName)

/-- The lookup fails with not-found. -/
def lookupNotFound (r : Pod × Option Err) : Bool :=
  match r.2 with
  | some err => k8sIsNotFound err
  | none => false

/-- The Model after the finalizer step of `reconcileCreate`. -/
def ensured (model : Model) : Model :=
  if HasFinalizer model configFinalizer then model else AddFinalizer model configFinalizer

/-- The calls of the finalizer step of `reconcileCreate`. -/
def ensuredTrace (model : Model) : List Call :=
  if HasFinalizer model configFinalizer then [] else [.Update (AddFinalizer model configFinalizer)]

/-- The Models carried by the status writes of a trace, in order. -/
def statusWrites (tr : List Call) : List Model :=
  tr.filterMap (fun call => match call with
    | .StatusUpdate m => some m
    | _ => none)

/-- The Models carried by the Model updates of a trace, in order. -/
def modelWrites (tr : List Call) : List Model :=
  tr.filterMap (fun call => match call with
    | .Update m => some m
    | _ => none)

/-- The pods the pushes of a trace are issued to, in order. -/
def pushTargets (tr : List Call) : List String :=
  tr.filterMap (fun call => match call with
    | .PushModel pod _ _ => some pod
    | _ => none)

/-- The remote calls (connect, push, delete) of a trace, in order. -/
def remoteCalls (tr : List Call) : List Call :=
  tr.filter (fun call => match call with
    | .ConnectAddress _ _ => true
    | .PushModel _ _ _ => true
    | .DeleteModel _ _ _ => true
    | _ => false)

/-- The phase recorded for a target name: the phase of the first entry of that
name, if there is one. -/
def phaseOf (statuses : List RegistryStatus) (name : String) : Option ModelPhase :=
  (findStatus statuses name).map (fun r => r.2.Phase)

/-- Some container status named `model-registry` reports not ready. -/
def RegistryNotReady (pod : Pod) : Prop :=
  ∃ cs ∈ pod.Status.ContainerStatuses, cs.Name = "model-registry" ∧ cs.Ready = false

instance (pod : Pod) : Decidable (RegistryNotReady pod) := by
  unfold RegistryNotReady
  infer_instance

/-- The pod makes the scan ask for a requeue: it is eligible, its
`model-registry` container is reported not ready, and its entry is Installing,
or Pending with an address assigned. -/
def Requeues (c : Consts) (statuses : List RegistryStatus) (pod : Pod) : Prop :=
  injected c pod = true ∧ RegistryNotReady pod ∧
    (phaseOf statuses pod.Name = some .ModelInstalling ∨
      (phaseOf statuses pod.Name = some .ModelPending ∧ pod.Status.PodIP ≠ ""))

/-- The environment with the push responses replaced. -/
def withPush (env : Env)
    (push : List Call → String → String → PushModelRequest → Option Err) : Env :=
  { env with PushModel := push }

/-- The answer of a push is success or an already-exists error. -/
def PushAccepted (r : Option Err) : Prop :=
  r = none ∨ ∃ e, r = some e ∧ IsAlreadyExists e = true

/-- The answers the environment gives to the pushes of a trace that is issued
after the calls `pre`, in order. -/
def pushAnswers (env : Env) : List Call → List Call → List (Option Err)
  | _, [] => []
  | pre, call :: rest =>
    (match call with
      | .PushModel pod addr req => [env.PushModel pre pod addr req]
      | _ => []) ++ pushAnswers env (pre ++ [call]) rest

/-- The delete calls of a trace, in order: pod, address, request. -/
def deleteCalls (tr : List Call) : List (String × String × DeleteModelRequest) :=
  tr.filterMap (fun call => match call with
    | .DeleteModel pod addr req => some (pod, addr, req)
    | _ => none)

/-- The answers the environment gives to the delete calls of a trace that is
issued after the calls `pre`, in order. -/
def deleteAnswers (env : Env) : List Call → List Call → List (Option Err)
  | _, [] => []
  | pre, call :: rest =>
    (match call with
      | .DeleteModel pod addr req => [env.DeleteModel pre pod addr req]
      | _ => []) ++ deleteAnswers env (pre ++ [call]) rest

/-- The answer of a delete is success or a not-found error. -/
def DeleteAccepted (r : Option Err) : Prop :=
  r = none ∨ ∃ e, r = some e ∧ IsNotFound e = true

/-- The delete calls due to the eligible pods of a listing, in list order. -/
def deleteTargets (c : Consts) (plugin : Plugin) (pods : List Pod) :
    List (String × String × DeleteModelRequest) :=
  (pods.filter (fun p => injected c p)).map (fun p => (p.Name, address p, deleteRequest plugin))

/-- The phase `b` is the phase `a` or the phase one step after it
(Pending to Installing, Installing to Installed). -/
def PhaseStep (a b : ModelPhase) : Prop :=
  b = a ∨ (a = .ModelPending ∧ b = .ModelInstalling) ∨
    (a = .ModelInstalling ∧ b = .ModelInstalled)

/-- The position of a phase in the order Pending, Installing, Installed. -/
def phaseRank : ModelPhase → Nat
  | .ModelPending => 0
  | .ModelInstalling => 1
  | .ModelInstalled => 2

/-- No container status of the pod is named `model-registry`. -/
def NoRegistryStatus (pod : Pod) : Prop :=
  ∀ cs ∈ pod.Status.ContainerStatuses, cs.Name ≠ "model-registry"

instance (pod : Pod) : Decidable (NoRegistryStatus pod) := by
  unfold NoRegistryStatus
  infer_instance

/-- The environment whose listing is the listing of `env` without the pods that
lack the eligibility annotation value. -/
def filteredListing (c : Consts) (env : Env) : Env :=
  { env with
    ListPods := fun tr ns =>
      match env.ListPods tr ns with
      | .ok pods => .ok (pods.filter (fun p => injected c p))
      | .error err => .error err }

/-- The calls issued when a loop ends, whether it goes on or returns. -/
def Scan.calls : Scan → List Call
  | .next _ tr => tr
  | .done o => o.trace

/-- Modelled from the spec: the object store, which is external.  The Model the
store holds after the calls `tr`, issued after the calls `pre`, when it held
`st` before them: a Model update the store accepted replaces the stored object
but for its status, a status update the store accepted replaces the stored
status, and a write the store refused, like every call that is not a write,
leaves the stored Model as it is.  The answer to each write is the answer `env`
gives to that call after the calls before it. -/
def stored (env : Env) : List Call → List Call → Model → Model
  | _, [], st => st
  | pre, .Update m :: rest, st =>
    stored env (pre ++ [.Update m]) rest
      (match env.Update pre m with
        | none => { m with Status := st.Status }
        | some _ => st)
  | pre, .StatusUpdate m :: rest, st =>
    stored env (pre ++ [.StatusUpdate m]) rest
      (match env.StatusUpdate pre m with
        | none => { st with Status := m.Status }
        | some _ => st)
  | pre, .ListPods ns :: rest, st => stored env (pre ++ [.ListPods ns]) rest st
  | pre, .GetPod ns name :: rest, st => stored env (pre ++ [.GetPod ns name]) rest st
  | pre, .ConnectAddress pod addr :: rest, st =>
    stored env (pre ++ [.ConnectAddress pod addr]) rest st
  | pre, .PushModel pod addr req :: rest, st =>
    stored env (pre ++ [.PushModel pod addr req]) rest st
  | pre, .DeleteModel pod addr req :: rest, st =>
    stored env (pre ++ [.DeleteModel pod addr req]) rest st

/-- The Model the store holds after `k` successive convergence passes when it
held `model` before the first.  Each pass works on the Model read from the store
(`Reconcile`, lines 103-104), not on the object the pass before it had in
memory: what a pass hands to the next one is what the store accepted of its
writes.  Every pass meets the same `env`, with no call issued before it. -/
def run (c : Consts) (env : Env) : Nat → Model → Model
  | 0, model => model
  | k + 1, model => run c env k (stored env [] (reconcileCreate c env model).trace model)

/-- One Installed entry per pod, in list order. -/
def installedOf (pods : List Pod) : List RegistryStatus :=
  pods.map (fun p => { PodName := p.Name, Phase := .ModelInstalled })

/-- Every store operation and every remote call succeeds, whatever was called
before, the listing of the namespace is always `pods`, and the lookup of every
listed pod succeeds. -/
def AllSucceed (env : Env) (ns : String) (pods : List Pod) : Prop :=
  (∀ tr m, env.Update tr m = none) ∧
  (∀ tr m, env.StatusUpdate tr m = none) ∧
  (∀ tr, env.ListPods tr ns = .ok pods) ∧
  (∀ tr, ∀ p ∈ pods, (env.GetPod tr ns p.Name).2 = none) ∧
  (∀ tr pod addr, env.ConnectAddress tr pod addr = none) ∧
  (∀ tr pod addr req, env.PushModel tr pod addr req = none)

/-- The pods have distinct names and each is eligible and ready: it carries the
annotation value, has an address, and no `model-registry` container status of
it reports not ready. -/
def ReadyFleet (c : Consts) (pods : List Pod) : Prop :=
  (pods.map (fun p => p.Name)).Nodup ∧
  ∀ p ∈ pods, injected c p = true ∧ p.Status.PodIP ≠ "" ∧ ¬ RegistryNotReady p

/-! ## Concrete inputs -/

/-- Constants used in the concrete inputs. -/
def exConsts : Consts :=
  { RegistryInjectStatusKey := "inject-status"
    RegistryInjectStatusInjected := "injected"
    NormalizeFileName := fun s => s }

/-- A store and remote where every call succeeds, the listing is `pods`, and a
lookup finds the pod exactly when it is listed; a failed lookup leaves the pod
object empty. -/
def exEnv (pods : List Pod) : Env :=
  { Update := fun _ _ => none
    StatusUpdate := fun _ _ => none
    ListPods := fun _ _ => .ok pods
    GetPod := fun _ _ name =>
      match pods.find? (fun p => p.Name == name) with
      | some p => (p, none)
      | none => ({}, some .StoreNotFound)
    ConnectAddress := fun _ _ _ => none
    PushModel := fun _ _ _ _ => none
    DeleteModel := fun _ _ _ _ => none }

/-- A plugin descriptor. -/
def exPlugin : Plugin := { Type_ := "t", Version := "v1" }

/-- A Model with a Plugin spec, the finalizer, and the given status list. -/
def exModel (statuses : List RegistryStatus) : Model :=
  { Namespace := "ns", Name := "m", Finalizers := ["config"],
    Spec := { Plugin := some exPlugin }, Status := { RegistryStatuses := statuses } }

/-- An eligible pod. -/
def exPod (name ip : String) (ready : Bool) : Pod :=
  { Namespace := "ns", Name := name, Annotations := [("inject-status", "injected")],
    Status := { PodIP := ip, ContainerStatuses := [{ Name := "model-registry", Ready := ready }] } }

/-- A Model with a Plugin spec, without the finalizer and without status. -/
def exModelNew : Model :=
  { Namespace := "ns", Name := "m", Spec := { Plugin := some exPlugin } }

/-- A Model marked for deletion that carries the finalizer and has no Plugin spec. -/
def exModelDeletedNoPlugin : Model :=
  { Namespace := "ns", Name := "m", DeletionTimestamp := some 1, Finalizers := ["config"] }

/-- An eligible pod that has just been created: no address, no container status. -/
def exPodNew (name : String) : Pod :=
  { Namespace := "ns", Name := name, Annotations := [("inject-status", "injected")] }

/-- The environment `exEnv` with every push failing with the given error. -/
def exEnvPushFails (pods : List Pod) (err : Err) : Env :=
  withPush (exEnv pods) (fun _ _ _ _ => some err)

/-- The environment `exEnv` where the delete for the named pod fails with the
given error and every other delete succeeds. -/
def exEnvDeleteFails (pods : List Pod) (name : String) (err : Err) : Env :=
  { exEnv pods with DeleteModel := fun _ pod _ _ => if pod == name then some err else none }

/-- Three eligible pods. -/
def exPods3 : List Pod :=
  [exPod "p1" "10.0.0.1" true, exPod "p2" "10.0.0.2" true, exPod "p3" "10.0.0.3" true]

/-- The three pods are listed and the delete for `p2` fails. -/
def exEnvDelete : Env := exEnvDeleteFails exPods3 "p2" (.Other "unavailable")

/-- The environment `exEnv` where every push is answered with already-exists and
every status update fails with a conflict. -/
def exEnvExistsConflict (pods : List Pod) : Env :=
  { exEnv pods with
    PushModel := fun _ _ _ _ => some .RemoteAlreadyExists
    StatusUpdate := fun _ _ => some .StoreConflict }

/-- A store of Models that holds the given Models: the fetch finds a Model by
namespace and name and leaves the object empty when there is none; the listing
returns the Models of the namespace. -/
def exStore (models : List Model) : ModelStore :=
  { GetModel := fun ns name =>
      match models.find? (fun m => m.Namespace == ns && m.Name == name) with
      | some m => (m, none)
      | none => ({}, some .StoreNotFound)
    ListModels := fun ns => .ok (models.filter (fun m => m.Namespace == ns)) }

/-- The environment `exEnv` where every pod lookup fails with the given error
and leaves the pod object empty. -/
def exEnvLookupFails (pods : List Pod) (err : Err) : Env :=
  { exEnv pods with GetPod := fun _ _ _ => ({}, some err) }

/-- An eligible pod with an address and without container status. -/
def exPodBare (name ip : String) : Pod :=
  { Namespace := "ns", Name := name, Annotations := [("inject-status", "injected")],
    Status := { PodIP := ip } }

/-- A pod without the eligibility annotation. -/
def exPodPlain (name ip : String) : Pod :=
  { Namespace := "ns", Name := name, Status := { PodIP := ip } }

/-- Two eligible, ready pods. -/
def exPods2 : List Pod :=
  [exPod "p1" "10.0.0.1" true, exPod "p2" "10.0.0.2" true]

/-- The worked example: `p1` is ready, `p2` has an address and a
`model-registry` container that is not ready. -/
def exPodsExample : List Pod :=
  [exPod "p1" "10.0.0.1" true, exPod "p2" "10.0.0.2" false]

/-- The environment `exEnv` where the store refuses every status update with a
conflict. -/
def exEnvStatusRefused (pods : List Pod) : Env :=
  { exEnv pods with StatusUpdate := fun _ _ => some .StoreConflict }

/-! ## Structure of the loops -/

theorem findStatus_some {l : List RegistryStatus} {name : String} {i : Nat} {s : RegistryStatus}
    (h : findStatus l name = some (i, s)) : l[i]? = some s ∧ s.PodName = name := by
  induction l generalizing i s with
  | nil => simp [findStatus] at h
  | cons reg rest ih =>
    simp only [findStatus] at h
    split at h
    · rename_i hreg
      simp only [Option.some.injEq, Prod.mk.injEq] at h
      obtain ⟨rfl, rfl⟩ := h
      exact ⟨by simp, by simpa using hreg⟩
    · split at h
      · rename_i j t hj
        simp only [Option.some.injEq, Prod.mk.injEq] at h
        obtain ⟨rfl, rfl⟩ := h
        have := ih hj
        exact ⟨by simpa using this.1, this.2⟩
      · simp at h

theorem findStatus_none {l : List RegistryStatus} {name : String}
    (h : findStatus l name = none) : name ∉ podNames l := by
  induction l with
  | nil => simp [podNames]
  | cons reg rest ih =>
    simp only [findStatus] at h
    split at h
    · simp at h
    · rename_i hreg
      split at h
      · simp at h
      · rename_i hnone
        have := ih hnone
        simp only [podNames, List.map_cons, List.mem_cons, not_or] at this ⊢
        refine ⟨?_, this⟩
        intro heq
        exact hreg (by simp [heq])

theorem updateStatusAndReturn_model (env : Env) (model : Model) (tr : List Call) :
    (updateStatusAndReturn env model tr).model = model := by
  unfold updateStatusAndReturn
  split <;> rfl

theorem updateStatusAndReturn_trace (env : Env) (model : Model) (tr : List Call) :
    (updateStatusAndReturn env model tr).trace = tr ++ [.StatusUpdate model] := by
  unfold updateStatusAndReturn
  split <;> rfl

theorem updateStatusAndReturn_err (env : Env) (model : Model) (tr : List Call) :
    (updateStatusAndReturn env model tr).err = env.StatusUpdate tr model := by
  unfold updateStatusAndReturn
  split <;> simp [*]

theorem updateStatusAndReturn_result (env : Env) (model : Model) (tr : List Call) :
    (updateStatusAndReturn env model tr).result = {} := by
  unfold updateStatusAndReturn
  split <;> rfl

/-- Inversion of one pod step that returns: the four ways the pod loop stops. -/
theorem reconcilePod_done {c : Consts} {env : Env} {model : Model} {plugin : Plugin}
    {tr : List Call} {rq : Bool} {pod : Pod} {o : Outcome}
    (h : reconcilePod c env model plugin tr rq pod = .done o) :
    injected c pod = true ∧
    ((findStatus model.Status.RegistryStatuses pod.Name = none ∧
        o = updateStatusAndReturn env (setStatuses model (model.Status.RegistryStatuses ++
          [{ PodName := pod.Name, Phase := .ModelPending }])) tr) ∨
     (∃ i s, findStatus model.Status.RegistryStatuses pod.Name = some (i, s) ∧
        s.Phase = .ModelPending ∧ pod.Status.PodIP ≠ "" ∧ containersReady pod = true ∧
        o = updateStatusAndReturn env (setStatuses model (model.Status.RegistryStatuses.set i
          { PodName := pod.Name, Phase := .ModelInstalling })) tr) ∨
     (∃ i s, findStatus model.Status.RegistryStatuses pod.Name = some (i, s) ∧
        s.Phase = .ModelInstalling ∧ containersReady pod = true ∧
        ((∃ e, env.ConnectAddress tr pod.Name (address pod) = some e ∧
            o = { result := {}, err := some e, model := model,
                  trace := tr ++ [.ConnectAddress pod.Name (address pod)] }) ∨
         (env.ConnectAddress tr pod.Name (address pod) = none ∧
          ∃ e, env.PushModel (tr ++ [.ConnectAddress pod.Name (address pod)]) pod.Name (address pod)
                (pushRequest c model plugin) = some e ∧ IsAlreadyExists e = false ∧
            o = { result := {}, err := some e, model := model,
                  trace := tr ++ [.ConnectAddress pod.Name (address pod)] ++
                    [.PushModel pod.Name (address pod) (pushRequest c model plugin)] }) ∨
         (env.ConnectAddress tr pod.Name (address pod) = none ∧
          (env.PushModel (tr ++ [.ConnectAddress pod.Name (address pod)]) pod.Name (address pod)
                (pushRequest c model plugin) = none ∨
           ∃ e, env.PushModel (tr ++ [.ConnectAddress pod.Name (address pod)]) pod.Name (address pod)
                (pushRequest c model plugin) = some e ∧ IsAlreadyExists e = true) ∧
          o = updateStatusAndReturn env (setStatuses model (model.Status.RegistryStatuses.set i
                { PodName := pod.Name, Phase := .ModelInstalled }))
              (tr ++ [.ConnectAddress pod.Name (address pod)] ++
                [.PushModel pod.Name (address pod) (pushRequest c model plugin)]))))) := by
  unfold reconcilePod at h
  split at h
  · rename_i hinj
    refine ⟨hinj, ?_⟩
    split at h
    · rename_i hfind
      left
      simp only [Scan.done.injEq] at h
      exact ⟨hfind, h.symm⟩
    · rename_i i s hfind
      right
      split at h
      · rename_i hph
        left
        split at h
        · rename_i hip
          split at h
          · simp at h
          · rename_i hready
            simp only [Scan.done.injEq] at h
            exact ⟨i, s, hfind, hph, by simpa using hip, by simpa using hready, h.symm⟩
        · simp at h
      · rename_i hph
        right
        split at h
        · simp at h
        · rename_i hready
          refine ⟨i, s, hfind, hph, by simpa using hready, ?_⟩
          split at h
          · rename_i e he
            left
            simp only [Scan.done.injEq] at h
            exact ⟨e, he, h.symm⟩
          · rename_i hconn
            right
            simp only at h
            split at h
            · rename_i e he
              split at h
              · rename_i hae
                left
                simp only [Scan.done.injEq] at h
                exact ⟨hconn, e, he, by simpa using hae, h.symm⟩
              · rename_i hae
                right
                simp only [Scan.done.injEq] at h
                exact ⟨hconn, Or.inr ⟨e, he, by simpa using hae⟩, h.symm⟩
            · rename_i hpush
              right
              simp only [Scan.done.injEq] at h
              exact ⟨hconn, Or.inl hpush, h.symm⟩
      · simp at h
  · simp at h

theorem reconcilePod_next_trace {c : Consts} {env : Env} {model : Model} {plugin : Plugin}
    {tr tr1 : List Call} {rq rq1 : Bool} {pod : Pod}
    (h : reconcilePod c env model plugin tr rq pod = .next rq1 tr1) : tr1 = tr := by
  unfold reconcilePod at h
  dsimp only at h
  repeat' split at h
  all_goals simp_all

theorem scanPods_done {c : Consts} {env : Env} {model : Model} {plugin : Plugin}
    {tr : List Call} {rq : Bool} {pods : List Pod} {o : Outcome}
    (h : scanPods c env model plugin tr rq pods = .done o) :
    ∃ rq1 pod, pod ∈ pods ∧ reconcilePod c env model plugin tr rq1 pod = .done o := by
  induction pods generalizing rq with
  | nil => simp [scanPods] at h
  | cons pod rest ih =>
    simp only [scanPods] at h
    split at h
    · obtain ⟨rq1, p, hp, hstep⟩ := ih h
      exact ⟨rq1, p, List.mem_cons_of_mem _ hp, hstep⟩
    · rename_i o1 hstep
      simp only [Scan.done.injEq] at h
      subst h
      exact ⟨rq, pod, List.mem_cons_self _ _, hstep⟩

theorem scanPods_next_trace {c : Consts} {env : Env} {model : Model} {plugin : Plugin}
    {tr tr1 : List Call} {rq rq1 : Bool} {pods : List Pod}
    (h : scanPods c env model plugin tr rq pods = .next rq1 tr1) : tr1 = tr := by
  induction pods generalizing rq with
  | nil =>
    simp only [scanPods, Scan.next.injEq] at h
    exact h.2.symm
  | cons pod rest ih =>
    simp only [scanPods] at h
    split at h
    · exact ih h
    · simp at h

theorem forgetPods_next {env : Env} {model : Model} {rq rq1 : Bool} {tr tr1 : List Call}
    {sts : List RegistryStatus}
    (h : forgetPods env model rq tr sts = .next rq1 tr1) :
    rq1 = rq ∧ tr1 = tr ++ lookups model.Namespace sts ∧
    ∀ pre s post, sts = pre ++ s :: post →
      lookupNotFound (env.GetPod (tr ++ lookups model.Namespace pre) model.Namespace s.PodName)
        = false := by
  induction sts generalizing tr with
  | nil =>
    simp only [forgetPods, Scan.next.injEq] at h
    refine ⟨h.1.symm, by simp [lookups, h.2], ?_⟩
    intro pre s post hsplit
    simp at hsplit
  | cons st rest ih =>
    simp only [forgetPods] at h
    have key : lookupNotFound (env.GetPod tr model.Namespace st.PodName) = false ∧
        forgetPods env model rq (tr ++ [.GetPod model.Namespace st.PodName]) rest = .next rq1 tr1 := by
      cases hr : (env.GetPod tr model.Namespace st.PodName).2 with
      | none =>
        simp only [hr] at h
        exact ⟨by simp [lookupNotFound, hr], h⟩
      | some e =>
        simp only [hr] at h
        split at h
        · simp at h
        · rename_i hnf
          exact ⟨by simpa [lookupNotFound, hr] using hnf, h⟩
    obtain ⟨h1, h2, h3⟩ := ih key.2
    refine ⟨h1, by simp [h2, lookups], ?_⟩
    intro pre s post hsplit
    cases pre with
    | nil =>
      simp only [List.nil_append, List.cons.injEq] at hsplit
      obtain ⟨rfl, -⟩ := hsplit
      simpa [lookups] using key.1
    | cons p pre1 =>
      simp only [List.cons_append, List.cons.injEq] at hsplit
      obtain ⟨rfl, hrest⟩ := hsplit
      have := h3 pre1 s post hrest
      simpa [lookups] using this

theorem forgetPods_done {env : Env} {model : Model} {rq : Bool} {tr : List Call}
    {sts : List RegistryStatus} {o : Outcome}
    (h : forgetPods env model rq tr sts = .done o) :
    ∃ pre s post, sts = pre ++ s :: post ∧
      (∀ pre1 s1 post1, pre = pre1 ++ s1 :: post1 →
        lookupNotFound (env.GetPod (tr ++ lookups model.Namespace pre1) model.Namespace s1.PodName)
          = false) ∧
      lookupNotFound (env.GetPod (tr ++ lookups model.Namespace pre) model.Namespace s.PodName)
        = true ∧
      o = updateStatusAndReturn env
        (setStatuses model (model.Status.RegistryStatuses.filter (fun t => t.PodName !=
          (env.GetPod (tr ++ lookups model.Namespace pre) model.Namespace s.PodName).1.Name)))
        (tr ++ lookups model.Namespace (pre ++ [s])) := by
  induction sts generalizing tr with
  | nil => simp [forgetPods] at h
  | cons st rest ih =>
    simp only [forgetPods] at h
    by_cases hnf : lookupNotFound (env.GetPod tr model.Namespace st.PodName) = true
    · refine ⟨[], st, rest, rfl, ?_, by simpa [lookups] using hnf, ?_⟩
      · intro pre1 s1 post1 hsplit
        simp at hsplit
      · unfold lookupNotFound at hnf
        split at h
        · rename_i e he
          simp only [he] at hnf
          simp only [hnf, if_true, Scan.done.injEq] at h
          simpa [lookups] using h.symm
        · rename_i he
          simp [he] at hnf
    · have hrest : forgetPods env model rq (tr ++ [.GetPod model.Namespace st.PodName]) rest
          = .done o := by
        unfold lookupNotFound at hnf
        split at h
        · rename_i e he
          simp only [he] at hnf
          simpa [hnf] using h
        · exact h
      obtain ⟨pre, s, post, hsplit, hfirst, hhit, ho⟩ := ih hrest
      refine ⟨st :: pre, s, post, by simp [hsplit], ?_, by simpa [lookups] using hhit, ?_⟩
      · intro pre1 s1 post1 hs
        cases pre1 with
        | nil =>
          simp only [List.nil_append, List.cons.injEq] at hs
          obtain ⟨rfl, -⟩ := hs
          simpa [lookups] using hnf
        | cons p pre2 =>
          simp only [List.cons_append, List.cons.injEq] at hs
          obtain ⟨rfl, hs2⟩ := hs
          simpa [lookups] using hfirst pre2 s1 post1 hs2
      · simpa [lookups] using ho

theorem ensured_statuses (model : Model) :
    (ensured model).Status.RegistryStatuses = model.Status.RegistryStatuses := by
  unfold ensured AddFinalizer
  split <;> rfl

theorem ensured_plugin (model : Model) : (ensured model).Spec.Plugin = model.Spec.Plugin := by
  unfold ensured AddFinalizer
  split <;> rfl

theorem ensured_namespace (model : Model) : (ensured model).Namespace = model.Namespace := by
  unfold ensured AddFinalizer
  split <;> rfl

/-- Inversion of the convergence pass on a Model with a Plugin spec: the five
places where it returns. -/
theorem reconcileCreate_cases (c : Consts) (env : Env) (model : Model) (plugin : Plugin)
    (hp : model.Spec.Plugin = some plugin) :
    (HasFinalizer model configFinalizer = false ∧
      ∃ e, env.Update [] (ensured model) = some e ∧
        reconcileCreate c env model =
          { result := {}, err := some e, model := ensured model, trace := ensuredTrace model }) ∨
    ((HasFinalizer model configFinalizer = false → env.Update [] (ensured model) = none) ∧
      ((∃ e, env.ListPods (ensuredTrace model) model.Namespace = .error e ∧
          reconcileCreate c env model =
            { result := {}, err := some e, model := ensured model,
              trace := ensuredTrace model ++ [.ListPods model.Namespace] }) ∨
       (∃ pods, env.ListPods (ensuredTrace model) model.Namespace = .ok pods ∧
          (scanPods c env (ensured model) plugin
              (ensuredTrace model ++ [.ListPods model.Namespace]) false pods
              = .done (reconcileCreate c env model) ∨
           ∃ rq, scanPods c env (ensured model) plugin
              (ensuredTrace model ++ [.ListPods model.Namespace]) false pods
              = .next rq (ensuredTrace model ++ [.ListPods model.Namespace]) ∧
             (forgetPods env (ensured model) rq (ensuredTrace model ++ [.ListPods model.Namespace])
                model.Status.RegistryStatuses = .done (reconcileCreate c env model) ∨
              (forgetPods env (ensured model) rq (ensuredTrace model ++ [.ListPods model.Namespace])
                model.Status.RegistryStatuses = .next rq (ensuredTrace model ++
                  [.ListPods model.Namespace] ++ lookups model.Namespace model.Status.RegistryStatuses) ∧
               reconcileCreate c env model =
                { result := if rq then { RequeueAfter := retryDuration } else {},
                  err := none, model := ensured model,
                  trace := ensuredTrace model ++ [.ListPods model.Namespace] ++
                    lookups model.Namespace model.Status.RegistryStatuses })))))) := by
  unfold reconcileCreate
  simp only [hp]
  by_cases hf : HasFinalizer model configFinalizer = true
  · have hm : ensured model = model := by simp [ensured, hf]
    have ht : ensuredTrace model = [] := by simp [ensuredTrace, hf]
    simp only [hf, hm, ht, Bool.not_true, Bool.false_eq_true, if_false, List.nil_append]
    right
    refine ⟨by simp, ?_⟩
    split
    · rename_i e he
      left
      exact ⟨e, he, rfl⟩
    · rename_i pods hl
      right
      refine ⟨pods, hl, ?_⟩
      split
      · rename_i o hs
        left
        exact hs
      · rename_i rq tr3 hs
        right
        have htr := scanPods_next_trace hs
        subst htr
        refine ⟨rq, hs, ?_⟩
        split
        · rename_i o hg
          left
          exact hg
        · rename_i rq1 tr4 hg
          right
          obtain ⟨h1, h2, -⟩ := forgetPods_next hg
          subst h1
          subst h2
          refine ⟨hg, ?_⟩
          split <;> simp [*]
  · have hf2 : HasFinalizer model configFinalizer = false := by simpa using hf
    have hm : ensured model = AddFinalizer model configFinalizer := by simp [ensured, hf2]
    have ht : ensuredTrace model = [.Update (AddFinalizer model configFinalizer)] := by
      simp [ensuredTrace, hf2]
    have hns : (AddFinalizer model configFinalizer).Namespace = model.Namespace := rfl
    have hst : (AddFinalizer model configFinalizer).Status = model.Status := rfl
    simp only [hf2, hm, ht, Bool.not_false, if_true, hns, hst]
    split
    · rename_i e he
      left
      exact ⟨trivial, e, he, rfl⟩
    · rename_i he
      right
      refine ⟨fun _ => he, ?_⟩
      split
      · rename_i e hl
        left
        exact ⟨e, hl, rfl⟩
      · rename_i pods hl
        right
        refine ⟨pods, hl, ?_⟩
        split
        · rename_i o hs
          left
          exact hs
        · rename_i rq tr3 hs
          right
          have htr := scanPods_next_trace hs
          subst htr
          refine ⟨rq, hs, ?_⟩
          split
          · rename_i o hg
            left
            exact hg
          · rename_i rq1 tr4 hg
            right
            obtain ⟨h1, h2, -⟩ := forgetPods_next hg
            subst h1
            subst h2
            refine ⟨by simpa using hg, ?_⟩
            split <;> simp [*]

/-! ## Calls of a pass -/

@[simp] theorem statusWrites_append (a b : List Call) :
    statusWrites (a ++ b) = statusWrites a ++ statusWrites b := by
  simp [statusWrites]

@[simp] theorem modelWrites_append (a b : List Call) :
    modelWrites (a ++ b) = modelWrites a ++ modelWrites b := by
  simp [modelWrites]

@[simp] theorem pushTargets_append (a b : List Call) :
    pushTargets (a ++ b) = pushTargets a ++ pushTargets b := by
  simp [pushTargets]

@[simp] theorem remoteCalls_append (a b : List Call) :
    remoteCalls (a ++ b) = remoteCalls a ++ remoteCalls b := by
  simp [remoteCalls]

@[simp] theorem statusWrites_lookups (ns : String) (sts : List RegistryStatus) :
    statusWrites (lookups ns sts) = [] := by
  induction sts with
  | nil => rfl
  | cons s rest ih => simp [statusWrites, lookups]

@[simp] theorem modelWrites_lookups (ns : String) (sts : List RegistryStatus) :
    modelWrites (lookups ns sts) = [] := by
  induction sts with
  | nil => rfl
  | cons s rest ih => simp [modelWrites, lookups]

@[simp] theorem pushTargets_lookups (ns : String) (sts : List RegistryStatus) :
    pushTargets (lookups ns sts) = [] := by
  induction sts with
  | nil => rfl
  | cons s rest ih => simp [pushTargets, lookups]

@[simp] theorem remoteCalls_lookups (ns : String) (sts : List RegistryStatus) :
    remoteCalls (lookups ns sts) = [] := by
  induction sts with
  | nil => rfl
  | cons s rest ih => simp [remoteCalls, lookups]

@[simp] theorem statusWrites_ensuredTrace (model : Model) :
    statusWrites (ensuredTrace model) = [] := by
  unfold ensuredTrace
  split <;> rfl

@[simp] theorem pushTargets_ensuredTrace (model : Model) :
    pushTargets (ensuredTrace model) = [] := by
  unfold ensuredTrace
  split <;> rfl

@[simp] theorem remoteCalls_ensuredTrace (model : Model) :
    remoteCalls (ensuredTrace model) = [] := by
  unfold ensuredTrace
  split <;> rfl

@[simp] theorem statusWrites_nil : statusWrites [] = [] := rfl

@[simp] theorem modelWrites_nil : modelWrites [] = [] := rfl

@[simp] theorem pushTargets_nil : pushTargets [] = [] := rfl

@[simp] theorem remoteCalls_nil : remoteCalls [] = [] := rfl

@[simp] theorem statusWrites_cons (call : Call) (tr : List Call) :
    statusWrites (call :: tr) =
      (match call with
        | .StatusUpdate m => [m]
        | _ => []) ++ statusWrites tr := by
  cases call <;> rfl

@[simp] theorem modelWrites_cons (call : Call) (tr : List Call) :
    modelWrites (call :: tr) =
      (match call with
        | .Update m => [m]
        | _ => []) ++ modelWrites tr := by
  cases call <;> rfl

@[simp] theorem pushTargets_cons (call : Call) (tr : List Call) :
    pushTargets (call :: tr) =
      (match call with
        | .PushModel pod _ _ => [pod]
        | _ => []) ++ pushTargets tr := by
  cases call <;> rfl

@[simp] theorem remoteCalls_cons (call : Call) (tr : List Call) :
    remoteCalls (call :: tr) =
      (match call with
        | .ConnectAddress _ _ => [call]
        | .PushModel _ _ _ => [call]
        | .DeleteModel _ _ _ => [call]
        | _ => []) ++ remoteCalls tr := by
  cases call <;> rfl

/-- The status writes of one pod step that returns: none, or one that carries
the Model the step returns. -/
theorem reconcilePod_done_statusWrites {c : Consts} {env : Env} {model : Model} {plugin : Plugin}
    {tr : List Call} {rq : Bool} {pod : Pod} {o : Outcome}
    (h : reconcilePod c env model plugin tr rq pod = .done o) :
    statusWrites o.trace = statusWrites tr ∨ statusWrites o.trace = statusWrites tr ++ [o.model] := by
  obtain ⟨-, h1 | ⟨i, s, -, -, -, -, ho⟩ | ⟨i, s, -, -, -, h3⟩⟩ := reconcilePod_done h
  · right
    rw [h1.2, updateStatusAndReturn_trace, updateStatusAndReturn_model]
    simp
  · right
    rw [ho, updateStatusAndReturn_trace, updateStatusAndReturn_model]
    simp
  · rcases h3 with ⟨e, -, ho⟩ | ⟨-, e, -, -, ho⟩ | ⟨-, -, ho⟩
    · left
      rw [ho]
      simp
    · left
      rw [ho]
      simp
    · right
      rw [ho, updateStatusAndReturn_trace, updateStatusAndReturn_model]
      simp

/-- The status writes of a convergence pass: none, or one that carries the
Model the pass returns. -/
theorem reconcileCreate_statusWrites (c : Consts) (env : Env) (model : Model) :
    statusWrites (reconcileCreate c env model).trace = [] ∨
    statusWrites (reconcileCreate c env model).trace = [(reconcileCreate c env model).model] := by
  cases hp : model.Spec.Plugin with
  | none =>
    left
    simp [reconcileCreate, hp]
  | some plugin =>
    rcases reconcileCreate_cases c env model plugin hp with
      ⟨-, e, -, ho⟩ | ⟨-, ⟨e, -, ho⟩ | ⟨pods, -, hs | ⟨rq, -, hg | ⟨-, ho⟩⟩⟩⟩
    · left
      rw [ho]
      simp
    · left
      rw [ho]
      simp
    · obtain ⟨rq1, pod, -, hstep⟩ := scanPods_done hs
      have := reconcilePod_done_statusWrites hstep
      simpa using this
    · obtain ⟨pre, s, post, -, -, -, ho⟩ := forgetPods_done hg
      right
      rw [ho, updateStatusAndReturn_model, updateStatusAndReturn_trace]
      simp
    · left
      rw [ho]
      simp

/-! ## C1: single mutation per pass -/

theorem filter_name_not_mem (l : List RegistryStatus) (n : String) (h : n ∉ podNames l) :
    l.filter (fun t => t.PodName != n) = l := by
  rw [List.filter_eq_self]
  intro t ht
  have : t.PodName ≠ n := by
    intro heq
    exact h (by simpa [podNames] using ⟨t, ht, heq⟩)
  simpa using this

theorem filter_name_single (l : List RegistryStatus) (n : String) (h : (podNames l).Nodup) :
    l.filter (fun t => t.PodName != n) = l ∨
    ∃ i, i < l.length ∧ l.filter (fun t => t.PodName != n) = l.eraseIdx i := by
  induction l with
  | nil => left; rfl
  | cons a l ih =>
    simp only [podNames, List.map_cons, List.nodup_cons] at h
    by_cases ha : a.PodName = n
    · right
      refine ⟨0, by simp, ?_⟩
      have hn : n ∉ podNames l := by
        rw [← ha]
        exact h.1
      simp [List.filter_cons, ha, filter_name_not_mem l n hn]
    · rcases ih h.2 with h1 | ⟨i, hi, h1⟩
      · left
        simp [List.filter_cons, ha, h1]
      · right
        refine ⟨i + 1, by simpa using hi, ?_⟩
        simp [List.filter_cons, ha, h1]

theorem reconcilePod_done_single {c : Consts} {env : Env} {model : Model} {plugin : Plugin}
    {tr : List Call} {rq : Bool} {pod : Pod} {o : Outcome}
    (h : reconcilePod c env model plugin tr rq pod = .done o) :
    SingleMutation model.Status.RegistryStatuses o.model.Status.RegistryStatuses := by
  obtain ⟨-, h1 | ⟨i, s, hfind, -, -, -, ho⟩ | ⟨i, s, hfind, -, -, h3⟩⟩ := reconcilePod_done h
  · obtain ⟨-, rfl⟩ := h1
    rw [updateStatusAndReturn_model]
    right; left
    exact ⟨_, rfl⟩
  · subst ho
    rw [updateStatusAndReturn_model]
    obtain ⟨hget, hname⟩ := findStatus_some hfind
    right; right; left
    exact ⟨i, s, .ModelInstalling, hget, by simp [setStatuses, hname]⟩
  · rcases h3 with ⟨e, -, rfl⟩ | ⟨-, e, -, -, rfl⟩ | ⟨-, -, rfl⟩
    · left; rfl
    · left; rfl
    · rw [updateStatusAndReturn_model]
      obtain ⟨hget, hname⟩ := findStatus_some hfind
      right; right; left
      exact ⟨i, s, .ModelInstalled, hget, by simp [setStatuses, hname]⟩

/-- C1: for every convergence pass over a Model whose status list holds at most
one entry per target name (the uniqueness the data model requires of the list,
which every pass preserves), whatever the listing, the store and the remote
answer: the status list after the pass differs from the list before it in at
most one entry (unchanged, one appended, one phase changed, or one removed, all
others kept in order), and every status write of the pass carries exactly that
list. -/
theorem reconcileCreate_single_mutation (c : Consts) (env : Env) (model : Model)
    (hnodup : (podNames model.Status.RegistryStatuses).Nodup) :
    SingleMutation model.Status.RegistryStatuses
      (reconcileCreate c env model).model.Status.RegistryStatuses ∧
    ∀ m ∈ statusWrites (reconcileCreate c env model).trace,
      m.Status.RegistryStatuses = (reconcileCreate c env model).model.Status.RegistryStatuses := by
  refine ⟨?_, ?_⟩
  · cases hp : model.Spec.Plugin with
    | none =>
      left
      simp [reconcileCreate, hp]
    | some plugin =>
      rcases reconcileCreate_cases c env model plugin hp with
        ⟨-, e, -, ho⟩ | ⟨-, ⟨e, -, ho⟩ | ⟨pods, -, hs | ⟨rq, -, hg | ⟨-, ho⟩⟩⟩⟩
      · rw [ho]
        exact Or.inl (ensured_statuses model)
      · rw [ho]
        exact Or.inl (ensured_statuses model)
      · obtain ⟨rq1, pod, -, hstep⟩ := scanPods_done hs
        have := reconcilePod_done_single hstep
        rwa [ensured_statuses] at this
      · obtain ⟨pre, s, post, -, -, -, ho⟩ := forgetPods_done hg
        rw [ho, updateStatusAndReturn_model]
        simp only [setStatuses, ensured_statuses]
        rcases filter_name_single model.Status.RegistryStatuses _ hnodup with h1 | h1
        · exact Or.inl h1
        · exact Or.inr (Or.inr (Or.inr h1))
      · rw [ho]
        exact Or.inl (ensured_statuses model)
  · intro m hm
    rcases reconcileCreate_statusWrites c env model with h | h
    · rw [h] at hm
      simp at hm
    · rw [h] at hm
      simp only [List.mem_singleton] at hm
      rw [hm]

/-- C1, witness: a Model with one Pending entry whose pod is ready. -/
theorem reconcileCreate_single_mutation_witness :
    (podNames (exModel [⟨"p1", .ModelPending⟩]).Status.RegistryStatuses).Nodup ∧
    (SingleMutation (exModel [⟨"p1", .ModelPending⟩]).Status.RegistryStatuses
      (reconcileCreate exConsts (exEnv [exPod "p1" "10.0.0.1" true])
        (exModel [⟨"p1", .ModelPending⟩])).model.Status.RegistryStatuses ∧
    ∀ m ∈ statusWrites (reconcileCreate exConsts (exEnv [exPod "p1" "10.0.0.1" true])
        (exModel [⟨"p1", .ModelPending⟩])).trace,
      m.Status.RegistryStatuses = (reconcileCreate exConsts (exEnv [exPod "p1" "10.0.0.1" true])
        (exModel [⟨"p1", .ModelPending⟩])).model.Status.RegistryStatuses) :=
  ⟨by decide, reconcileCreate_single_mutation exConsts (exEnv [exPod "p1" "10.0.0.1" true])
    (exModel [⟨"p1", .ModelPending⟩]) (by decide)⟩

/-! ## C2: readiness gating, no advance -/

theorem foldl_ready_false (l : List ContainerStatus) :
    l.foldl (fun ready containerStatus =>
      if containerStatus.Name == "model-registry" && !containerStatus.Ready then false else ready)
      false = false := by
  induction l with
  | nil => rfl
  | cons a l ih =>
    simp only [List.foldl_cons]
    split <;> exact ih

theorem foldl_ready_true (l : List ContainerStatus) :
    l.foldl (fun ready containerStatus =>
      if containerStatus.Name == "model-registry" && !containerStatus.Ready then false else ready)
      true = false ↔ ∃ cs ∈ l, cs.Name = "model-registry" ∧ cs.Ready = false := by
  induction l with
  | nil => simp
  | cons a l ih =>
    simp only [List.foldl_cons, List.mem_cons, exists_eq_or_imp]
    by_cases ha : (a.Name == "model-registry" && !a.Ready) = true
    · simp only [ha, if_true, foldl_ready_false, true_iff]
      left
      simpa using ha
    · simp only [ha, if_false, Bool.false_eq_true]
      rw [ih]
      constructor
      · intro h
        exact Or.inr h
      · rintro (h | h)
        · exact absurd (by simpa using h) ha
        · exact h

theorem containersReady_eq_false (pod : Pod) :
    containersReady pod = false ↔ RegistryNotReady pod := by
  unfold containersReady RegistryNotReady
  exact foldl_ready_true _

theorem phaseOf_cons (a : RegistryStatus) (l : List RegistryStatus) (n : String) :
    phaseOf (a :: l) n = if a.PodName = n then some a.Phase else phaseOf l n := by
  unfold phaseOf
  simp only [findStatus]
  by_cases h : a.PodName = n
  · simp [h]
  · simp only [beq_iff_eq, h, if_false]
    cases findStatus l n with
    | none => rfl
    | some r => rfl

theorem phaseOf_append_other (l : List RegistryStatus) (e : RegistryStatus) (n : String)
    (h : e.PodName ≠ n) : phaseOf (l ++ [e]) n = phaseOf l n := by
  induction l with
  | nil => simp [phaseOf_cons, h, phaseOf, findStatus]
  | cons a l ih => simp [phaseOf_cons, ih]

theorem phaseOf_set_other (l : List RegistryStatus) (i : Nat) (s : RegistryStatus)
    (ph : ModelPhase) (n : String) (hget : l[i]? = some s) (h : s.PodName ≠ n) :
    phaseOf (l.set i { PodName := s.PodName, Phase := ph }) n = phaseOf l n := by
  induction l generalizing i with
  | nil => simp at hget
  | cons a l ih =>
    cases i with
    | zero =>
      simp only [List.getElem?_cons_zero, Option.some.injEq] at hget
      subst hget
      simp [phaseOf_cons, h]
    | succ j =>
      simp only [List.getElem?_cons_succ] at hget
      simp [phaseOf_cons, ih j hget]

theorem phaseOf_filter (l : List RegistryStatus) (m n : String) :
    phaseOf (l.filter (fun t => t.PodName != m)) n = if m = n then none else phaseOf l n := by
  induction l with
  | nil => simp [phaseOf, findStatus]
  | cons a l ih =>
    by_cases ha : a.PodName = m
    · simp only [List.filter_cons, ha, bne_self_eq_false, Bool.false_eq_true, if_false, ih,
        phaseOf_cons]
      by_cases hmn : m = n <;> simp [hmn]
    · have : (a.PodName != m) = true := by simpa using ha
      simp only [List.filter_cons, this, if_true, phaseOf_cons, ih]
      by_cases hmn : m = n
      · subst hmn
        simp [ha]
      · simp [hmn]

/-- A pod that is gated (container not ready, or Pending without address) does
not stop the scan. -/
theorem reconcilePod_gated {c : Consts} {env : Env} {model : Model} {plugin : Plugin}
    {tr : List Call} {rq : Bool} {pod : Pod} {ph : ModelPhase}
    (hentry : phaseOf model.Status.RegistryStatuses pod.Name = some ph)
    (hgate : containersReady pod = false ∨ (ph = .ModelPending ∧ pod.Status.PodIP = "")) :
    ∀ o, reconcilePod c env model plugin tr rq pod ≠ .done o := by
  intro o ho
  obtain ⟨-, h1 | ⟨i, s, hfind, hph, hip, hready, -⟩ | ⟨i, s, hfind, hph, hready, -⟩⟩ :=
    reconcilePod_done ho
  · simp [phaseOf, h1.1] at hentry
  · simp only [phaseOf, hfind, Option.map_some', Option.some.injEq] at hentry
    rcases hgate with hg | ⟨-, hg⟩
    · simp [hg] at hready
    · exact hip hg
  · simp only [phaseOf, hfind, Option.map_some', Option.some.injEq] at hentry
    rcases hgate with hg | ⟨hg, -⟩
    · simp [hg] at hready
    · rw [← hentry, hph] at hg
      cases hg

/-- A pod step that returns leaves the phase recorded for every other name as
it was and pushes to no other name. -/
theorem reconcilePod_done_other {c : Consts} {env : Env} {model : Model} {plugin : Plugin}
    {tr : List Call} {rq : Bool} {pod : Pod} {o : Outcome} {n : String}
    (h : reconcilePod c env model plugin tr rq pod = .done o) (hn : pod.Name ≠ n) :
    phaseOf o.model.Status.RegistryStatuses n = phaseOf model.Status.RegistryStatuses n ∧
    (n ∈ pushTargets o.trace → n ∈ pushTargets tr) := by
  obtain ⟨-, h1 | ⟨i, s, hfind, -, -, -, ho⟩ | ⟨i, s, hfind, -, -, h3⟩⟩ := reconcilePod_done h
  · rw [h1.2, updateStatusAndReturn_model, updateStatusAndReturn_trace]
    refine ⟨phaseOf_append_other _ _ _ hn, ?_⟩
    simp
  · rw [ho, updateStatusAndReturn_model, updateStatusAndReturn_trace]
    obtain ⟨hget, hname⟩ := findStatus_some hfind
    refine ⟨?_, by simp⟩
    have := phaseOf_set_other _ i s .ModelInstalling n hget (by rw [hname]; exact hn)
    simpa [setStatuses, hname] using this
  · obtain ⟨hget, hname⟩ := findStatus_some hfind
    rcases h3 with ⟨e, -, ho⟩ | ⟨-, e, -, -, ho⟩ | ⟨-, -, ho⟩
    · rw [ho]
      exact ⟨rfl, by simp⟩
    · rw [ho]
      refine ⟨rfl, ?_⟩
      simp [Ne.symm hn]
    · rw [ho, updateStatusAndReturn_model, updateStatusAndReturn_trace]
      refine ⟨?_, ?_⟩
      · have := phaseOf_set_other _ i s .ModelInstalled n hget (by rw [hname]; exact hn)
        simpa [setStatuses, hname] using this
      · simp only [pushTargets_append]
        simp [Ne.symm hn]

/-- Gating outside the failing case of C2: in a convergence pass whose listing is `pods`, for every
listed eligible target that has a status entry and shares its name with no
other listed target: if its `model-registry` container is reported not ready,
or its entry is Pending and it has no assigned address, then the pass does not
advance it (the phase recorded for it after the pass is the phase recorded
before, unless the entry was removed) and issues no push to it. -/
theorem reconcileCreate_gated_no_advance (c : Consts) (env : Env) (model : Model)
    (pods : List Pod) (p : Pod) (ph : ModelPhase)
    (hlist : env.ListPods (ensuredTrace model) model.Namespace = .ok pods)
    (hp : p ∈ pods) (hinj : injected c p = true)
    (huniq : ∀ q ∈ pods, q.Name = p.Name → q = p)
    (hentry : phaseOf model.Status.RegistryStatuses p.Name = some ph)
    (hgate : RegistryNotReady p ∨ (ph = .ModelPending ∧ p.Status.PodIP = "")) :
    (phaseOf (reconcileCreate c env model).model.Status.RegistryStatuses p.Name = some ph ∨
      phaseOf (reconcileCreate c env model).model.Status.RegistryStatuses p.Name = none) ∧
    p.Name ∉ pushTargets (reconcileCreate c env model).trace := by
  have hgate1 : containersReady p = false ∨ (ph = .ModelPending ∧ p.Status.PodIP = "") := by
    rcases hgate with hg | hg
    · exact Or.inl ((containersReady_eq_false p).2 hg)
    · exact Or.inr hg
  cases hpl : model.Spec.Plugin with
  | none =>
    have ho : reconcileCreate c env model =
        { result := {}, err := none, model := model, trace := [] } := by
      simp [reconcileCreate, hpl]
    rw [ho]
    exact ⟨Or.inl hentry, by simp⟩
  | some plugin =>
    rcases reconcileCreate_cases c env model plugin hpl with
      ⟨-, e, -, ho⟩ | ⟨-, ⟨e, -, ho⟩ | ⟨pods1, hl, hs | ⟨rq, -, hg | ⟨-, ho⟩⟩⟩⟩
    · rw [ho]
      exact ⟨Or.inl (by rw [ensured_statuses]; exact hentry), by simp⟩
    · rw [ho]
      exact ⟨Or.inl (by rw [ensured_statuses]; exact hentry), by simp⟩
    · rw [hlist] at hl
      cases hl
      obtain ⟨rq1, q, hq, hstep⟩ := scanPods_done hs
      have hne : q.Name ≠ p.Name := by
        intro heq
        have hqp := huniq q hq heq
        subst hqp
        exact reconcilePod_gated (by rw [ensured_statuses]; exact hentry) hgate1 _ hstep
      obtain ⟨h1, h2⟩ := reconcilePod_done_other hstep hne
      rw [ensured_statuses] at h1
      refine ⟨Or.inl (by rw [h1]; exact hentry), ?_⟩
      intro hmem
      have := h2 hmem
      simp at this
    · obtain ⟨pre, s, post, -, -, -, ho⟩ := forgetPods_done hg
      rw [ho, updateStatusAndReturn_model, updateStatusAndReturn_trace]
      refine ⟨?_, by simp⟩
      simp only [setStatuses, ensured_statuses, phaseOf_filter]
      split
      · exact Or.inr rfl
      · exact Or.inl hentry
    · rw [ho]
      exact ⟨Or.inl (by rw [ensured_statuses]; exact hentry), by simp⟩

/-- The gating theorem at a Pending target without address. -/
theorem reconcileCreate_gated_no_advance_witness :
    (phaseOf (reconcileCreate exConsts (exEnv [exPod "p1" "" true])
        (exModel [⟨"p1", .ModelPending⟩])).model.Status.RegistryStatuses
        (exPod "p1" "" true).Name = some .ModelPending ∨
      phaseOf (reconcileCreate exConsts (exEnv [exPod "p1" "" true])
        (exModel [⟨"p1", .ModelPending⟩])).model.Status.RegistryStatuses
        (exPod "p1" "" true).Name = none) ∧
    (exPod "p1" "" true).Name ∉ pushTargets (reconcileCreate exConsts (exEnv [exPod "p1" "" true])
        (exModel [⟨"p1", .ModelPending⟩])).trace :=
  reconcileCreate_gated_no_advance exConsts (exEnv [exPod "p1" "" true])
    (exModel [⟨"p1", .ModelPending⟩]) [exPod "p1" "" true] (exPod "p1" "" true) .ModelPending
    rfl (by decide) (by decide) (by intro q hq _; simpa using hq) (by decide)
    (Or.inr (by decide))

/-- C2, the code at the failing input: an eligible target without address and
without container status whose entry is Installing is pushed to (at address
`:5151`) and moved to Installed. -/
theorem reconcileCreate_pushes_without_address :
    injected exConsts (exPodNew "p1") = true ∧
    (exPodNew "p1").Status.PodIP = "" ∧
    phaseOf (exModel [⟨"p1", .ModelInstalling⟩]).Status.RegistryStatuses "p1"
      = some .ModelInstalling ∧
    phaseOf (reconcileCreate exConsts (exEnv [exPodNew "p1"])
      (exModel [⟨"p1", .ModelInstalling⟩])).model.Status.RegistryStatuses "p1"
      = some .ModelInstalled ∧
    remoteCalls (reconcileCreate exConsts (exEnv [exPodNew "p1"])
      (exModel [⟨"p1", .ModelInstalling⟩])).trace
      = [.ConnectAddress "p1" ":5151",
         .PushModel "p1" ":5151" (pushRequest exConsts (exModel []) exPlugin)] := by
  decide

/-! ## C3: readiness gating, requeue -/

/-- The requeue flag after a pod step that goes on. -/
theorem reconcilePod_next {c : Consts} {env : Env} {model : Model} {plugin : Plugin}
    {tr tr1 : List Call} {rq rq1 : Bool} {pod : Pod}
    (h : reconcilePod c env model plugin tr rq pod = .next rq1 tr1) :
    (rq1 = true ↔ rq = true ∨ Requeues c model.Status.RegistryStatuses pod) := by
  unfold reconcilePod at h
  dsimp only at h
  split at h
  · rename_i hinj
    split at h
    · simp at h
    · rename_i i s hfind
      have hphase : phaseOf model.Status.RegistryStatuses pod.Name = some s.Phase := by
        simp [phaseOf, hfind]
      split at h
      · rename_i hph
        split at h
        · rename_i hip
          split at h
          · rename_i hready
            simp only [Scan.next.injEq] at h
            have hnr : RegistryNotReady pod :=
              (containersReady_eq_false pod).1 (by simpa using hready)
            constructor
            · intro _
              exact Or.inr ⟨hinj, hnr, Or.inr ⟨by rw [hphase, hph], by simpa using hip⟩⟩
            · intro _
              exact h.1.symm
          · simp at h
        · rename_i hip
          simp only [Scan.next.injEq] at h
          rw [← h.1]
          constructor
          · intro hrq
            exact Or.inl hrq
          · rintro (hrq | ⟨-, -, hI | ⟨-, hne⟩⟩)
            · exact hrq
            · rw [hphase, hph] at hI
              cases hI
            · exact absurd (by simpa using hip) hne
      · rename_i hph
        split at h
        · rename_i hready
          simp only [Scan.next.injEq] at h
          have hnr : RegistryNotReady pod :=
            (containersReady_eq_false pod).1 (by simpa using hready)
          constructor
          · intro _
            exact Or.inr ⟨hinj, hnr, Or.inl (by rw [hphase, hph])⟩
          · intro _
            exact h.1.symm
        · repeat' split at h
          all_goals simp at h
      · rename_i hph
        simp only [Scan.next.injEq] at h
        rw [← h.1]
        constructor
        · intro hrq
          exact Or.inl hrq
        · rintro (hrq | ⟨-, -, hI | ⟨hP, -⟩⟩)
          · exact hrq
          · rw [hphase, hph] at hI
            cases hI
          · rw [hphase, hph] at hP
            cases hP
  · rename_i hinj
    simp only [Scan.next.injEq] at h
    rw [← h.1]
    constructor
    · intro hrq
      exact Or.inl hrq
    · rintro (hrq | ⟨hi, -⟩)
      · exact hrq
      · exact absurd hi hinj

/-- The requeue flag after a scan that goes through every listed pod. -/
theorem scanPods_next {c : Consts} {env : Env} {model : Model} {plugin : Plugin}
    {tr tr1 : List Call} {rq rq1 : Bool} {pods : List Pod}
    (h : scanPods c env model plugin tr rq pods = .next rq1 tr1) :
    (rq1 = true ↔ rq = true ∨ ∃ p ∈ pods, Requeues c model.Status.RegistryStatuses p) := by
  induction pods generalizing rq with
  | nil =>
    simp only [scanPods, Scan.next.injEq] at h
    simp [h.1]
  | cons pod rest ih =>
    simp only [scanPods] at h
    split at h
    · rename_i rq2 tr2 hstep
      rw [ih h, reconcilePod_next hstep]
      simp only [List.mem_cons, exists_eq_or_imp]
      tauto
    · simp at h

/-- C3 (amended): a convergence pass on a Model with a Plugin spec whose
listing succeeds, that returns without error and issues no status write,
returns a requeue after exactly one second when some listed eligible target
whose `model-registry` container is reported not ready has an Installing entry,
or a Pending entry and an assigned address; otherwise it returns idle. -/
theorem reconcileCreate_requeue (c : Consts) (env : Env) (model : Model) (plugin : Plugin)
    (pods : List Pod)
    (hpl : model.Spec.Plugin = some plugin)
    (hlist : env.ListPods (ensuredTrace model) model.Namespace = .ok pods)
    (herr : (reconcileCreate c env model).err = none)
    (hwrite : statusWrites (reconcileCreate c env model).trace = []) :
    ((∃ p ∈ pods, Requeues c model.Status.RegistryStatuses p) →
      (reconcileCreate c env model).result = { Requeue := false, RequeueAfter := 1000000000 }) ∧
    ((¬ ∃ p ∈ pods, Requeues c model.Status.RegistryStatuses p) →
      (reconcileCreate c env model).result = { Requeue := false, RequeueAfter := 0 }) := by
  rcases reconcileCreate_cases c env model plugin hpl with
    ⟨-, e, -, ho⟩ | ⟨-, ⟨e, -, ho⟩ | ⟨pods1, hl, hs | ⟨rq, hs, hg | ⟨-, ho⟩⟩⟩⟩
  · rw [ho] at herr
    simp at herr
  · rw [ho] at herr
    simp at herr
  · exfalso
    obtain ⟨rq1, q, -, hstep⟩ := scanPods_done hs
    obtain ⟨-, h1 | ⟨i, s, -, -, -, -, ho⟩ | ⟨i, s, -, -, -, h3⟩⟩ := reconcilePod_done hstep
    · rw [h1.2, updateStatusAndReturn_trace] at hwrite
      simp at hwrite
    · rw [ho, updateStatusAndReturn_trace] at hwrite
      simp at hwrite
    · rcases h3 with ⟨e, -, ho⟩ | ⟨-, e, -, -, ho⟩ | ⟨-, -, ho⟩
      · rw [ho] at herr
        simp at herr
      · rw [ho] at herr
        simp at herr
      · rw [ho, updateStatusAndReturn_trace] at hwrite
        simp at hwrite
  · exfalso
    obtain ⟨pre, s, post, -, -, -, ho⟩ := forgetPods_done hg
    rw [ho, updateStatusAndReturn_trace] at hwrite
    simp at hwrite
  · rw [hlist] at hl
    cases hl
    have hrq := scanPods_next hs
    rw [ensured_statuses] at hrq
    rw [ho]
    constructor
    · intro hex
      have : rq = true := hrq.2 (Or.inr hex)
      simp [this, retryDuration]
    · intro hnex
      have : rq = false := by
        cases hq : rq with
        | false => rfl
        | true =>
          rcases hrq.1 hq with h | h
          · simp at h
          · exact absurd h hnex
      simp [this]

/-- C3, witness: the amended claim at a Pending target with an address whose
`model-registry` container is not ready. -/
theorem reconcileCreate_requeue_witness :
    (reconcileCreate exConsts (exEnv [exPod "p1" "10.0.0.1" false])
        (exModel [⟨"p1", .ModelPending⟩])).result
        = { Requeue := false, RequeueAfter := 1000000000 } ∧
    ((∃ p ∈ [exPod "p1" "10.0.0.1" false],
        Requeues exConsts (exModel [⟨"p1", .ModelPending⟩]).Status.RegistryStatuses p) →
      (reconcileCreate exConsts (exEnv [exPod "p1" "10.0.0.1" false])
        (exModel [⟨"p1", .ModelPending⟩])).result
        = { Requeue := false, RequeueAfter := 1000000000 }) ∧
    ((¬ ∃ p ∈ [exPod "p1" "10.0.0.1" false],
        Requeues exConsts (exModel [⟨"p1", .ModelPending⟩]).Status.RegistryStatuses p) →
      (reconcileCreate exConsts (exEnv [exPod "p1" "10.0.0.1" false])
        (exModel [⟨"p1", .ModelPending⟩])).result = { Requeue := false, RequeueAfter := 0 }) :=
  ⟨by decide, reconcileCreate_requeue exConsts (exEnv [exPod "p1" "10.0.0.1" false])
    (exModel [⟨"p1", .ModelPending⟩]) exPlugin [exPod "p1" "10.0.0.1" false]
    rfl rfl (by decide) (by decide)⟩

/-- C3, counterexample: an eligible target without address whose entry is
Pending does not make the pass ask for a requeue: the pass returns without
error, leaves the status list unchanged, and returns idle. -/
theorem reconcileCreate_no_requeue_without_address :
    injected exConsts (exPod "p1" "" false) = true ∧
    (exPod "p1" "" false).Status.PodIP = "" ∧
    phaseOf (exModel [⟨"p1", .ModelPending⟩]).Status.RegistryStatuses "p1"
      = some .ModelPending ∧
    (reconcileCreate exConsts (exEnv [exPod "p1" "" false])
      (exModel [⟨"p1", .ModelPending⟩])).err = none ∧
    (reconcileCreate exConsts (exEnv [exPod "p1" "" false])
      (exModel [⟨"p1", .ModelPending⟩])).model.Status.RegistryStatuses
      = [⟨"p1", .ModelPending⟩] ∧
    (reconcileCreate exConsts (exEnv [exPod "p1" "" false])
      (exModel [⟨"p1", .ModelPending⟩])).result = { Requeue := false, RequeueAfter := 0 } := by
  decide

/-! ## C4: garbage collection -/

/-- C4, the code at the failing input: the only status entry names a pod that
is gone; the lookup returns not-found and leaves the pod object empty; the pass
filters on the name of that object, persists the status list and returns, and
the entry of the vanished pod is still in the persisted list. -/
theorem reconcileCreate_keeps_vanished_entry :
    lookupNotFound ((exEnv []).GetPod [.ListPods "ns"] "ns" "p1") = true ∧
    (reconcileCreate exConsts (exEnv []) (exModel [⟨"p1", .ModelInstalled⟩])).trace
      = [.ListPods "ns", .GetPod "ns" "p1",
         .StatusUpdate (exModel [⟨"p1", .ModelInstalled⟩])] ∧
    (reconcileCreate exConsts (exEnv []) (exModel [⟨"p1", .ModelInstalled⟩])).model.Status.RegistryStatuses
      = [⟨"p1", .ModelInstalled⟩] ∧
    (reconcileCreate exConsts (exEnv []) (exModel [⟨"p1", .ModelInstalled⟩])).err = none := by
  decide

/-! ## C5: writes per pass -/

@[simp] theorem modelWrites_ensuredTrace (model : Model) :
    modelWrites (ensuredTrace model) =
      if HasFinalizer model configFinalizer then [] else [AddFinalizer model configFinalizer] := by
  unfold ensuredTrace
  split <;> rfl

/-- The Model updates of a convergence pass are those of its finalizer step. -/
theorem reconcileCreate_modelWrites (c : Consts) (env : Env) (model : Model) (plugin : Plugin)
    (hp : model.Spec.Plugin = some plugin) :
    modelWrites (reconcileCreate c env model).trace = modelWrites (ensuredTrace model) := by
  rcases reconcileCreate_cases c env model plugin hp with
    ⟨-, e, -, ho⟩ | ⟨-, ⟨e, -, ho⟩ | ⟨pods, -, hs | ⟨rq, -, hg | ⟨-, ho⟩⟩⟩⟩
  · rw [ho]
  · rw [ho]
    simp
  · obtain ⟨rq1, pod, -, hstep⟩ := scanPods_done hs
    obtain ⟨-, h1 | ⟨i, s, -, -, -, -, ho⟩ | ⟨i, s, -, -, -, h3⟩⟩ := reconcilePod_done hstep
    · rw [h1.2, updateStatusAndReturn_trace]
      simp
    · rw [ho, updateStatusAndReturn_trace]
      simp
    · rcases h3 with ⟨e, -, ho⟩ | ⟨-, e, -, -, ho⟩ | ⟨-, -, ho⟩
      · rw [ho]
        simp
      · rw [ho]
        simp
      · rw [ho, updateStatusAndReturn_trace]
        simp
  · obtain ⟨pre, s, post, -, -, -, ho⟩ := forgetPods_done hg
    rw [ho, updateStatusAndReturn_trace]
    simp
  · rw [ho]
    simp

/-- C5 (amended): a convergence pass issues at most one status write, and at
most one Model update, which is the update that adds the finalizer and is
issued only when the finalizer is absent on entry; so the pass issues at most
two store writes, and at most one when the finalizer is already present. -/
theorem reconcileCreate_write_count (c : Consts) (env : Env) (model : Model) :
    (statusWrites (reconcileCreate c env model).trace).length ≤ 1 ∧
    (modelWrites (reconcileCreate c env model).trace = [] ∨
      (HasFinalizer model configFinalizer = false ∧
        modelWrites (reconcileCreate c env model).trace = [AddFinalizer model configFinalizer])) ∧
    (modelWrites (reconcileCreate c env model).trace).length +
      (statusWrites (reconcileCreate c env model).trace).length
      ≤ (if HasFinalizer model configFinalizer then 1 else 2) := by
  have hs : (statusWrites (reconcileCreate c env model).trace).length ≤ 1 := by
    rcases reconcileCreate_statusWrites c env model with h | h <;> simp [h]
  have hm : modelWrites (reconcileCreate c env model).trace = [] ∨
      (HasFinalizer model configFinalizer = false ∧
        modelWrites (reconcileCreate c env model).trace = [AddFinalizer model configFinalizer]) := by
    cases hp : model.Spec.Plugin with
    | none =>
      left
      simp [reconcileCreate, hp]
    | some plugin =>
      rw [reconcileCreate_modelWrites c env model plugin hp, modelWrites_ensuredTrace]
      by_cases hf : HasFinalizer model configFinalizer = true
      · left
        simp [hf]
      · right
        simp [hf]
  refine ⟨hs, hm, ?_⟩
  rcases hm with h | ⟨hf, h⟩
  · rw [h]
    split <;> simp <;> omega
  · rw [h]
    simp only [hf, Bool.false_eq_true, if_false, List.length_singleton]
    omega

/-- C5, counterexample: on a Model with a Plugin spec and without the finalizer,
with one eligible pod listed, one pass issues two store writes: the Model update
that adds the finalizer, then the status update that records the pod as Pending. -/
theorem reconcileCreate_two_writes :
    (reconcileCreate exConsts (exEnv [exPod "p1" "10.0.0.1" true]) exModelNew).trace
      = [.Update (AddFinalizer exModelNew configFinalizer),
         .ListPods "ns",
         .StatusUpdate (setStatuses (AddFinalizer exModelNew configFinalizer)
           [⟨"p1", .ModelPending⟩])] ∧
    (modelWrites (reconcileCreate exConsts (exEnv [exPod "p1" "10.0.0.1" true]) exModelNew).trace).length
      + (statusWrites (reconcileCreate exConsts (exEnv [exPod "p1" "10.0.0.1" true])
          exModelNew).trace).length = 2 := by
  decide

/-! ## C6: push answered with already-exists -/

theorem scanPods_append (c : Consts) (env : Env) (model : Model) (plugin : Plugin)
    (tr : List Call) (rq : Bool) (pre rest : List Pod) :
    scanPods c env model plugin tr rq (pre ++ rest) =
      match scanPods c env model plugin tr rq pre with
      | .next rq1 _ => scanPods c env model plugin tr rq1 rest
      | .done o => .done o := by
  induction pre generalizing rq with
  | nil => simp [scanPods]
  | cons p pre ih =>
    simp only [List.cons_append, scanPods]
    split
    · exact ih _
    · rfl

/-- A pass returns what the scan returns when the scan stops. -/
theorem reconcileCreate_of_scan_done {c : Consts} {env : Env} {model : Model} {plugin : Plugin}
    {pods : List Pod} {o : Outcome}
    (hp : model.Spec.Plugin = some plugin)
    (hupd : HasFinalizer model configFinalizer = false → env.Update [] (ensured model) = none)
    (hlist : env.ListPods (ensuredTrace model) model.Namespace = .ok pods)
    (hscan : scanPods c env (ensured model) plugin
      (ensuredTrace model ++ [.ListPods model.Namespace]) false pods = .done o) :
    reconcileCreate c env model = o := by
  rcases reconcileCreate_cases c env model plugin hp with
    ⟨hf, e, he, -⟩ | ⟨-, ⟨e, he, -⟩ | ⟨pods1, hl, hs | ⟨rq, hs, -⟩⟩⟩
  · rw [hupd hf] at he
    cases he
  · rw [hlist] at he
    cases he
  · rw [hlist] at hl
    cases hl
    rw [hscan] at hs
    cases hs
    rfl
  · rw [hlist] at hl
    cases hl
    rw [hscan] at hs
    cases hs

theorem updateStatusAndReturn_withPush (env : Env)
    (push : List Call → String → String → PushModelRequest → Option Err)
    (model : Model) (tr : List Call) :
    updateStatusAndReturn (withPush env push) model tr = updateStatusAndReturn env model tr := rfl

/-- One pod step under accepted push answers does what it does under success. -/
theorem reconcilePod_withPush (c : Consts) (env : Env)
    (push : List Call → String → String → PushModelRequest → Option Err)
    (hpush : ∀ tr pod addr req, PushAccepted (push tr pod addr req))
    (model : Model) (plugin : Plugin) (tr : List Call) (rq : Bool) (pod : Pod) :
    reconcilePod c (withPush env push) model plugin tr rq pod =
      reconcilePod c (withPush env (fun _ _ _ _ => none)) model plugin tr rq pod := by
  unfold reconcilePod
  simp only [updateStatusAndReturn_withPush]
  dsimp only [withPush]
  rcases hpush (tr ++ [.ConnectAddress pod.Name (address pod)]) pod.Name (address pod)
      (pushRequest c model plugin) with h | ⟨e, h, hae⟩
  · simp only [h]
  · simp only [h, hae, Bool.not_true, Bool.false_eq_true, if_false]

theorem scanPods_withPush (c : Consts) (env : Env)
    (push : List Call → String → String → PushModelRequest → Option Err)
    (hpush : ∀ tr pod addr req, PushAccepted (push tr pod addr req))
    (model : Model) (plugin : Plugin) (tr : List Call) (rq : Bool) (pods : List Pod) :
    scanPods c (withPush env push) model plugin tr rq pods =
      scanPods c (withPush env (fun _ _ _ _ => none)) model plugin tr rq pods := by
  induction pods generalizing rq with
  | nil => rfl
  | cons p pods ih =>
    simp only [scanPods, reconcilePod_withPush c env push hpush]
    split
    · exact ih _
    · rfl

theorem forgetPods_withPush (env : Env)
    (push : List Call → String → String → PushModelRequest → Option Err)
    (model : Model) (rq : Bool) (tr : List Call) (sts : List RegistryStatus) :
    forgetPods (withPush env push) model rq tr sts = forgetPods env model rq tr sts := by
  induction sts generalizing tr with
  | nil => rfl
  | cons s sts ih =>
    simp only [forgetPods, updateStatusAndReturn_withPush, ih]
    rfl

theorem reconcileCreate_withPush (c : Consts) (env : Env)
    (push : List Call → String → String → PushModelRequest → Option Err)
    (hpush : ∀ tr pod addr req, PushAccepted (push tr pod addr req))
    (model : Model) :
    reconcileCreate c (withPush env push) model =
      reconcileCreate c (withPush env (fun _ _ _ _ => none)) model := by
  unfold reconcileCreate
  simp only [scanPods_withPush c env push hpush, forgetPods_withPush]
  rfl

/-- The step at an eligible pod whose entry is Installing, whose containers are
ready, whose connection succeeds and whose push is accepted. -/
theorem reconcilePod_installing_accepted {c : Consts} {env : Env} {model : Model}
    {plugin : Plugin} {tr : List Call} {rq : Bool} {pod : Pod} {i : Nat} {s : RegistryStatus}
    (hinj : injected c pod = true)
    (hfind : findStatus model.Status.RegistryStatuses pod.Name = some (i, s))
    (hph : s.Phase = .ModelInstalling) (hready : containersReady pod = true)
    (hconn : env.ConnectAddress tr pod.Name (address pod) = none)
    (hpush : PushAccepted (env.PushModel (tr ++ [.ConnectAddress pod.Name (address pod)])
      pod.Name (address pod) (pushRequest c model plugin))) :
    reconcilePod c env model plugin tr rq pod =
      .done (updateStatusAndReturn env
        (setStatuses model (model.Status.RegistryStatuses.set i
          { PodName := pod.Name, Phase := .ModelInstalled }))
        (tr ++ [.ConnectAddress pod.Name (address pod)] ++
          [.PushModel pod.Name (address pod) (pushRequest c model plugin)])) := by
  unfold reconcilePod
  simp only [hinj, if_true, hfind, hph, hready, Bool.not_true, Bool.false_eq_true, if_false, hconn]
  rcases hpush with h | ⟨e, h, hae⟩
  · simp only [h]
  · simp only [h, hae, Bool.not_true, Bool.false_eq_true, if_false]

/-- C6 (amended): a push answered with already-exists gives exactly the outcome
of a push answered with success.  When the pass reaches an eligible, ready
target whose entry is Installing (no earlier listed pod stops the scan) and the
connection succeeds, that outcome is: the entry at the same index, with the same
name, is Installed, one status write carrying that list is issued, one push was
issued, to that target, and the pass returns an empty result with the answer of
the status write as its error, so without error when the write succeeds. -/
theorem reconcileCreate_push_idempotent (c : Consts) (env : Env)
    (pushOk pushExists : List Call → String → String → PushModelRequest → Option Err)
    (model : Model) (plugin : Plugin) (pre : List Pod) (p : Pod) (post : List Pod)
    (i : Nat) (s : RegistryStatus) (rq : Bool)
    (hok : ∀ tr pod addr req, pushOk tr pod addr req = none)
    (hex : ∀ tr pod addr req, ∃ e, pushExists tr pod addr req = some e ∧ IsAlreadyExists e = true)
    (hp : model.Spec.Plugin = some plugin)
    (hupd : HasFinalizer model configFinalizer = false → env.Update [] (ensured model) = none)
    (hlist : env.ListPods (ensuredTrace model) model.Namespace = .ok (pre ++ p :: post))
    (hreach : scanPods c (withPush env pushOk) (ensured model) plugin
      (ensuredTrace model ++ [.ListPods model.Namespace]) false pre
        = .next rq (ensuredTrace model ++ [.ListPods model.Namespace]))
    (hinj : injected c p = true)
    (hfind : findStatus model.Status.RegistryStatuses p.Name = some (i, s))
    (hph : s.Phase = .ModelInstalling)
    (hready : p.Status.PodIP ≠ "" ∧ ¬ RegistryNotReady p)
    (hconn : env.ConnectAddress (ensuredTrace model ++ [.ListPods model.Namespace])
      p.Name (address p) = none) :
    reconcileCreate c (withPush env pushExists) model
      = reconcileCreate c (withPush env pushOk) model ∧
    (reconcileCreate c (withPush env pushExists) model).model.Status.RegistryStatuses
      = model.Status.RegistryStatuses.set i { PodName := s.PodName, Phase := .ModelInstalled } ∧
    s.PodName = p.Name ∧
    statusWrites (reconcileCreate c (withPush env pushExists) model).trace
      = [(reconcileCreate c (withPush env pushExists) model).model] ∧
    pushTargets (reconcileCreate c (withPush env pushExists) model).trace = [p.Name] ∧
    (reconcileCreate c (withPush env pushExists) model).result
      = { Requeue := false, RequeueAfter := 0 } ∧
    (reconcileCreate c (withPush env pushExists) model).err
      = env.StatusUpdate (reconcileCreate c (withPush env pushExists) model).trace.dropLast
          (reconcileCreate c (withPush env pushExists) model).model := by
  have hA : ∀ tr pod addr req, PushAccepted (pushOk tr pod addr req) :=
    fun tr pod addr req => Or.inl (hok tr pod addr req)
  have hB : ∀ tr pod addr req, PushAccepted (pushExists tr pod addr req) :=
    fun tr pod addr req => Or.inr (hex tr pod addr req)
  have heq : reconcileCreate c (withPush env pushExists) model
      = reconcileCreate c (withPush env pushOk) model := by
    rw [reconcileCreate_withPush c env pushExists hB, reconcileCreate_withPush c env pushOk hA]
  have hcr : containersReady p = true := by
    cases hc : containersReady p with
    | true => rfl
    | false => exact absurd ((containersReady_eq_false p).1 hc) hready.2
  have hname : s.PodName = p.Name := (findStatus_some hfind).2
  have hstep : reconcilePod c (withPush env pushOk) (ensured model) plugin
      (ensuredTrace model ++ [Call.ListPods model.Namespace]) rq p = _ :=
    reconcilePod_installing_accepted hinj (by rw [ensured_statuses]; exact hfind) hph hcr hconn
      (hA _ _ _ _)
  have hscan : scanPods c (withPush env pushOk) (ensured model) plugin
      (ensuredTrace model ++ [Call.ListPods model.Namespace]) false (pre ++ p :: post)
      = reconcilePod c (withPush env pushOk) (ensured model) plugin
          (ensuredTrace model ++ [Call.ListPods model.Namespace]) rq p := by
    rw [scanPods_append, hreach]
    simp only [scanPods, hstep]
  rw [hstep] at hscan
  have ho : reconcileCreate c (withPush env pushOk) model = _ :=
    reconcileCreate_of_scan_done hp hupd hlist hscan
  refine ⟨heq, ?_, hname, ?_, ?_, ?_, ?_⟩
  · rw [heq, ho, updateStatusAndReturn_model]
    simp [setStatuses, ensured_statuses, hname]
  · rw [heq, ho, updateStatusAndReturn_model, updateStatusAndReturn_trace]
    simp
  · rw [heq, ho, updateStatusAndReturn_trace]
    simp
  · rw [heq, ho, updateStatusAndReturn_result]
  · rw [heq, ho, updateStatusAndReturn_err, updateStatusAndReturn_trace,
      updateStatusAndReturn_model, List.dropLast_concat]
    rfl

/-- C6, witness: a Model with one Installing entry whose pod is ready. -/
theorem reconcileCreate_push_idempotent_witness :
    reconcileCreate exConsts
        (withPush (exEnv [exPod "p1" "10.0.0.1" true]) (fun _ _ _ _ => some .RemoteAlreadyExists))
        (exModel [⟨"p1", .ModelInstalling⟩])
      = reconcileCreate exConsts
        (withPush (exEnv [exPod "p1" "10.0.0.1" true]) (fun _ _ _ _ => none))
        (exModel [⟨"p1", .ModelInstalling⟩]) ∧
    (reconcileCreate exConsts
        (withPush (exEnv [exPod "p1" "10.0.0.1" true]) (fun _ _ _ _ => some .RemoteAlreadyExists))
        (exModel [⟨"p1", .ModelInstalling⟩])).model.Status.RegistryStatuses
      = (exModel [⟨"p1", .ModelInstalling⟩]).Status.RegistryStatuses.set 0
          { PodName := "p1", Phase := .ModelInstalled } ∧
    "p1" = (exPod "p1" "10.0.0.1" true).Name ∧
    statusWrites (reconcileCreate exConsts
        (withPush (exEnv [exPod "p1" "10.0.0.1" true]) (fun _ _ _ _ => some .RemoteAlreadyExists))
        (exModel [⟨"p1", .ModelInstalling⟩])).trace
      = [(reconcileCreate exConsts
        (withPush (exEnv [exPod "p1" "10.0.0.1" true]) (fun _ _ _ _ => some .RemoteAlreadyExists))
        (exModel [⟨"p1", .ModelInstalling⟩])).model] ∧
    pushTargets (reconcileCreate exConsts
        (withPush (exEnv [exPod "p1" "10.0.0.1" true]) (fun _ _ _ _ => some .RemoteAlreadyExists))
        (exModel [⟨"p1", .ModelInstalling⟩])).trace = [(exPod "p1" "10.0.0.1" true).Name] ∧
    (reconcileCreate exConsts
        (withPush (exEnv [exPod "p1" "10.0.0.1" true]) (fun _ _ _ _ => some .RemoteAlreadyExists))
        (exModel [⟨"p1", .ModelInstalling⟩])).result = { Requeue := false, RequeueAfter := 0 } ∧
    (reconcileCreate exConsts
        (withPush (exEnv [exPod "p1" "10.0.0.1" true]) (fun _ _ _ _ => some .RemoteAlreadyExists))
        (exModel [⟨"p1", .ModelInstalling⟩])).err
      = (exEnv [exPod "p1" "10.0.0.1" true]).StatusUpdate
          (reconcileCreate exConsts
            (withPush (exEnv [exPod "p1" "10.0.0.1" true])
              (fun _ _ _ _ => some .RemoteAlreadyExists))
            (exModel [⟨"p1", .ModelInstalling⟩])).trace.dropLast
          (reconcileCreate exConsts
            (withPush (exEnv [exPod "p1" "10.0.0.1" true])
              (fun _ _ _ _ => some .RemoteAlreadyExists))
            (exModel [⟨"p1", .ModelInstalling⟩])).model :=
  reconcileCreate_push_idempotent exConsts (exEnv [exPod "p1" "10.0.0.1" true])
    (fun _ _ _ _ => none) (fun _ _ _ _ => some .RemoteAlreadyExists)
    (exModel [⟨"p1", .ModelInstalling⟩]) exPlugin [] (exPod "p1" "10.0.0.1" true) []
    0 ⟨"p1", .ModelInstalling⟩ false
    (fun _ _ _ _ => rfl) (fun _ _ _ _ => ⟨_, rfl, rfl⟩) rfl
    (fun h => absurd h (by decide)) rfl rfl (by decide) (by decide) rfl
    ⟨by decide, by decide⟩ rfl

/-- C6, counterexample: the pass reaches an eligible, ready target whose entry
is Installing, the push is answered with already-exists, and the status update
fails with a conflict: the pass returns that error, not success. -/
theorem reconcileCreate_exists_then_conflict :
    injected exConsts (exPod "p1" "10.0.0.1" true) = true ∧
    (exPod "p1" "10.0.0.1" true).Status.PodIP ≠ "" ∧
    ¬ RegistryNotReady (exPod "p1" "10.0.0.1" true) ∧
    phaseOf (exModel [⟨"p1", .ModelInstalling⟩]).Status.RegistryStatuses "p1"
      = some .ModelInstalling ∧
    pushAnswers (exEnvExistsConflict [exPod "p1" "10.0.0.1" true]) []
      (reconcileCreate exConsts (exEnvExistsConflict [exPod "p1" "10.0.0.1" true])
        (exModel [⟨"p1", .ModelInstalling⟩])).trace = [some .RemoteAlreadyExists] ∧
    (reconcileCreate exConsts (exEnvExistsConflict [exPod "p1" "10.0.0.1" true])
      (exModel [⟨"p1", .ModelInstalling⟩])).err = some .StoreConflict := by
  decide

/-! ## C7: push failure -/

@[simp] theorem pushAnswers_nil (env : Env) (pre : List Call) : pushAnswers env pre [] = [] := rfl

@[simp] theorem pushAnswers_cons (env : Env) (pre : List Call) (call : Call) (rest : List Call) :
    pushAnswers env pre (call :: rest) =
      (match call with
        | .PushModel pod addr req => [env.PushModel pre pod addr req]
        | _ => []) ++ pushAnswers env (pre ++ [call]) rest := rfl

@[simp] theorem pushAnswers_append (env : Env) (pre a b : List Call) :
    pushAnswers env pre (a ++ b) = pushAnswers env pre a ++ pushAnswers env (pre ++ a) b := by
  induction a generalizing pre with
  | nil => simp
  | cons x a ih => simp [ih]

@[simp] theorem pushAnswers_lookups (env : Env) (pre : List Call) (ns : String)
    (sts : List RegistryStatus) : pushAnswers env pre (lookups ns sts) = [] := by
  induction sts generalizing pre with
  | nil => rfl
  | cons s sts ih =>
    simp only [lookups, List.map_cons, pushAnswers_cons, List.nil_append]
    exact ih _

@[simp] theorem pushAnswers_ensuredTrace (env : Env) (pre : List Call) (model : Model) :
    pushAnswers env pre (ensuredTrace model) = [] := by
  unfold ensuredTrace
  split <;> rfl

/-- C7: when a push of a convergence pass is answered with an error other than
already-exists, the pass returns that error with an empty result (no requeue
delay), issues no status write, and leaves the status list of the Model as it
was on entry. -/
theorem reconcileCreate_push_failure (c : Consts) (env : Env) (model : Model) (e : Err)
    (hfail : some e ∈ pushAnswers env [] (reconcileCreate c env model).trace)
    (hother : IsAlreadyExists e = false) :
    (reconcileCreate c env model).err = some e ∧
    (reconcileCreate c env model).result = { Requeue := false, RequeueAfter := 0 } ∧
    statusWrites (reconcileCreate c env model).trace = [] ∧
    (reconcileCreate c env model).model.Status.RegistryStatuses
      = model.Status.RegistryStatuses := by
  cases hp : model.Spec.Plugin with
  | none =>
    have ho : reconcileCreate c env model =
        { result := {}, err := none, model := model, trace := [] } := by
      simp [reconcileCreate, hp]
    rw [ho] at hfail
    simp at hfail
  | some plugin =>
    rcases reconcileCreate_cases c env model plugin hp with
      ⟨-, e1, -, ho⟩ | ⟨-, ⟨e1, -, ho⟩ | ⟨pods, -, hs | ⟨rq, -, hg | ⟨-, ho⟩⟩⟩⟩
    · rw [ho] at hfail
      simp at hfail
    · rw [ho] at hfail
      simp at hfail
    · obtain ⟨rq1, pod, -, hstep⟩ := scanPods_done hs
      obtain ⟨-, h1 | ⟨i, s, -, -, -, -, ho⟩ | ⟨i, s, -, -, -, h3⟩⟩ := reconcilePod_done hstep
      · rw [h1.2, updateStatusAndReturn_trace] at hfail
        simp at hfail
      · rw [ho, updateStatusAndReturn_trace] at hfail
        simp at hfail
      · rcases h3 with ⟨e1, -, ho⟩ | ⟨-, e1, he1, -, ho⟩ | ⟨-, hacc, ho⟩
        · rw [ho] at hfail
          simp at hfail
        · rw [ho] at hfail ⊢
          simp only [pushAnswers_append, pushAnswers_ensuredTrace, pushAnswers_cons,
            pushAnswers_nil, List.nil_append, List.append_nil, List.mem_singleton] at hfail
          rw [he1] at hfail
          cases hfail
          refine ⟨rfl, rfl, by simp, ensured_statuses model⟩
        · rw [ho, updateStatusAndReturn_trace] at hfail
          simp only [pushAnswers_append, pushAnswers_ensuredTrace, pushAnswers_cons,
            pushAnswers_nil, List.nil_append, List.append_nil, List.mem_singleton] at hfail
          rcases hacc with hn | ⟨e1, he1, hae⟩
          · rw [hn] at hfail
            cases hfail
          · rw [he1] at hfail
            cases hfail
            rw [hae] at hother
            cases hother
    · obtain ⟨pre, s, post, -, -, -, ho⟩ := forgetPods_done hg
      rw [ho, updateStatusAndReturn_trace] at hfail
      simp at hfail
    · rw [ho] at hfail
      simp at hfail

/-- C7, witness: the only listed pod is ready and Installing, and its push
fails with an error that is not already-exists. -/
theorem reconcileCreate_push_failure_witness :
    (reconcileCreate exConsts (exEnvPushFails [exPod "p1" "10.0.0.1" true] (.Other "unavailable"))
      (exModel [⟨"p1", .ModelInstalling⟩])).err = some (.Other "unavailable") ∧
    (reconcileCreate exConsts (exEnvPushFails [exPod "p1" "10.0.0.1" true] (.Other "unavailable"))
      (exModel [⟨"p1", .ModelInstalling⟩])).result = { Requeue := false, RequeueAfter := 0 } ∧
    statusWrites (reconcileCreate exConsts
      (exEnvPushFails [exPod "p1" "10.0.0.1" true] (.Other "unavailable"))
      (exModel [⟨"p1", .ModelInstalling⟩])).trace = [] ∧
    (reconcileCreate exConsts (exEnvPushFails [exPod "p1" "10.0.0.1" true] (.Other "unavailable"))
      (exModel [⟨"p1", .ModelInstalling⟩])).model.Status.RegistryStatuses
      = (exModel [⟨"p1", .ModelInstalling⟩]).Status.RegistryStatuses :=
  reconcileCreate_push_failure exConsts
    (exEnvPushFails [exPod "p1" "10.0.0.1" true] (.Other "unavailable"))
    (exModel [⟨"p1", .ModelInstalling⟩]) (.Other "unavailable") (by decide) (by decide)

/-! ## C8: idempotence at the fixed point -/

/-- C8: on a Model with a Plugin spec and the finalizer, when the listing
succeeds, every listed eligible target has an Installed entry and the lookup of
every status entry succeeds, a convergence pass only reads (the listing and one
lookup per entry): it issues no remote call and no store write, leaves the
Model as it was, and returns idle without error. -/
theorem reconcileCreate_fixed_point (c : Consts) (env : Env) (model : Model) (plugin : Plugin)
    (pods : List Pod)
    (hp : model.Spec.Plugin = some plugin)
    (hfin : HasFinalizer model configFinalizer = true)
    (hlist : env.ListPods [] model.Namespace = .ok pods)
    (hinst : ∀ p ∈ pods, injected c p = true →
      phaseOf model.Status.RegistryStatuses p.Name = some .ModelInstalled)
    (hlook : ∀ tr, ∀ s ∈ model.Status.RegistryStatuses,
      (env.GetPod tr model.Namespace s.PodName).2 = none) :
    (reconcileCreate c env model).result = { Requeue := false, RequeueAfter := 0 } ∧
    (reconcileCreate c env model).err = none ∧
    (reconcileCreate c env model).model = model ∧
    (reconcileCreate c env model).trace
      = .ListPods model.Namespace :: lookups model.Namespace model.Status.RegistryStatuses ∧
    remoteCalls (reconcileCreate c env model).trace = [] ∧
    statusWrites (reconcileCreate c env model).trace = [] ∧
    modelWrites (reconcileCreate c env model).trace = [] := by
  have hm : ensured model = model := by simp [ensured, hfin]
  have ht : ensuredTrace model = [] := by simp [ensuredTrace, hfin]
  have hgoal : reconcileCreate c env model =
      { result := {}, err := none, model := model,
        trace := .ListPods model.Namespace :: lookups model.Namespace model.Status.RegistryStatuses } := by
    rcases reconcileCreate_cases c env model plugin hp with
      ⟨hf, -⟩ | ⟨-, ⟨e1, he, -⟩ | ⟨pods1, hl, hs | ⟨rq, hs, hg | ⟨-, ho⟩⟩⟩⟩
    · rw [hfin] at hf
      cases hf
    · rw [ht, hlist] at he
      cases he
    · exfalso
      rw [ht, hlist] at hl
      cases hl
      obtain ⟨rq1, q, hq, hstep⟩ := scanPods_done hs
      obtain ⟨hinj, h1 | ⟨i, s, hfind, hph, -⟩ | ⟨i, s, hfind, hph, -⟩⟩ := reconcilePod_done hstep
      · have := hinst q hq hinj
        rw [hm] at h1
        simp [phaseOf, h1.1] at this
      · have := hinst q hq hinj
        rw [hm] at hfind
        simp [phaseOf, hfind, hph] at this
      · have := hinst q hq hinj
        rw [hm] at hfind
        simp [phaseOf, hfind, hph] at this
    · exfalso
      obtain ⟨pre, s, post, hsplit, -, hhit, -⟩ := forgetPods_done hg
      have hmem : s ∈ model.Status.RegistryStatuses := by
        rw [hsplit]
        simp
      have := hlook (ensuredTrace model ++ [Call.ListPods model.Namespace] ++
        lookups (ensured model).Namespace pre) s hmem
      rw [hm] at hhit this
      unfold lookupNotFound at hhit
      simp only [List.append_assoc, List.singleton_append] at hhit this
      rw [this] at hhit
      cases hhit
    · rw [ht, hlist] at hl
      cases hl
      have hrq := scanPods_next hs
      have hfalse : rq = false := by
        cases hq : rq with
        | false => rfl
        | true =>
          rcases hrq.1 hq with h | ⟨q, hq1, hinj, -, hI | ⟨hP, -⟩⟩
          · simp at h
          · have := hinst q hq1 hinj
            rw [hm] at hI
            rw [hI] at this
            cases this
          · have := hinst q hq1 hinj
            rw [hm] at hP
            rw [hP] at this
            cases this
      rw [ho, hm, ht, hfalse]
      simp
  rw [hgoal]
  simp

/-- C8, witness: two listed pods, both Installed. -/
theorem reconcileCreate_fixed_point_witness :
    (reconcileCreate exConsts (exEnv [exPod "p1" "10.0.0.1" true, exPod "p2" "10.0.0.2" true])
      (exModel [⟨"p1", .ModelInstalled⟩, ⟨"p2", .ModelInstalled⟩])).result
      = { Requeue := false, RequeueAfter := 0 } ∧
    (reconcileCreate exConsts (exEnv [exPod "p1" "10.0.0.1" true, exPod "p2" "10.0.0.2" true])
      (exModel [⟨"p1", .ModelInstalled⟩, ⟨"p2", .ModelInstalled⟩])).err = none ∧
    (reconcileCreate exConsts (exEnv [exPod "p1" "10.0.0.1" true, exPod "p2" "10.0.0.2" true])
      (exModel [⟨"p1", .ModelInstalled⟩, ⟨"p2", .ModelInstalled⟩])).model
      = exModel [⟨"p1", .ModelInstalled⟩, ⟨"p2", .ModelInstalled⟩] ∧
    (reconcileCreate exConsts (exEnv [exPod "p1" "10.0.0.1" true, exPod "p2" "10.0.0.2" true])
      (exModel [⟨"p1", .ModelInstalled⟩, ⟨"p2", .ModelInstalled⟩])).trace
      = .ListPods (exModel [⟨"p1", .ModelInstalled⟩, ⟨"p2", .ModelInstalled⟩]).Namespace ::
        lookups (exModel [⟨"p1", .ModelInstalled⟩, ⟨"p2", .ModelInstalled⟩]).Namespace
          (exModel [⟨"p1", .ModelInstalled⟩, ⟨"p2", .ModelInstalled⟩]).Status.RegistryStatuses ∧
    remoteCalls (reconcileCreate exConsts
      (exEnv [exPod "p1" "10.0.0.1" true, exPod "p2" "10.0.0.2" true])
      (exModel [⟨"p1", .ModelInstalled⟩, ⟨"p2", .ModelInstalled⟩])).trace = [] ∧
    statusWrites (reconcileCreate exConsts
      (exEnv [exPod "p1" "10.0.0.1" true, exPod "p2" "10.0.0.2" true])
      (exModel [⟨"p1", .ModelInstalled⟩, ⟨"p2", .ModelInstalled⟩])).trace = [] ∧
    modelWrites (reconcileCreate exConsts
      (exEnv [exPod "p1" "10.0.0.1" true, exPod "p2" "10.0.0.2" true])
      (exModel [⟨"p1", .ModelInstalled⟩, ⟨"p2", .ModelInstalled⟩])).trace = [] :=
  reconcileCreate_fixed_point exConsts
    (exEnv [exPod "p1" "10.0.0.1" true, exPod "p2" "10.0.0.2" true])
    (exModel [⟨"p1", .ModelInstalled⟩, ⟨"p2", .ModelInstalled⟩]) exPlugin
    [exPod "p1" "10.0.0.1" true, exPod "p2" "10.0.0.2" true]
    rfl (by decide) rfl (by decide)
    (by
      intro tr s hs
      simp only [exModel, List.mem_cons, List.mem_singleton, List.not_mem_nil, or_false] at hs
      rcases hs with rfl | rfl <;> rfl)

/-! ## C9: deletion without eligible target -/

theorem hasFinalizer_removeFinalizer (model : Model) (name : String) :
    HasFinalizer (RemoveFinalizer model name) name = false := by
  simp [HasFinalizer, RemoveFinalizer, List.contains_eq_any_beq]

theorem deletePods_none_eligible (c : Consts) (env : Env) (model : Model) (plugin : Plugin)
    (tr : List Call) (pods : List Pod) (h : ∀ p ∈ pods, injected c p = false) :
    deletePods c env model plugin tr pods = .next false tr := by
  induction pods with
  | nil => rfl
  | cons p pods ih =>
    have hp : injected c p = false := h p (List.mem_cons_self _ _)
    simp only [deletePods, hp, Bool.false_eq_true, if_false]
    exact ih (fun q hq => h q (List.mem_cons_of_mem _ hq))

/-- C9 (amended): on a Model with a Plugin spec and the finalizer, when the
listing succeeds and holds no eligible target and the store update succeeds,
one deletion pass removes the finalizer from the Model, persists the Model with
one update, and returns idle without error. -/
theorem reconcileDelete_no_target (c : Consts) (env : Env) (model : Model) (plugin : Plugin)
    (pods : List Pod)
    (hp : model.Spec.Plugin = some plugin)
    (hfin : HasFinalizer model configFinalizer = true)
    (hlist : env.ListPods [] model.Namespace = .ok pods)
    (hnone : ∀ p ∈ pods, injected c p = false)
    (hupd : env.Update [.ListPods model.Namespace] (RemoveFinalizer model configFinalizer) = none) :
    (reconcileDelete c env model).model = RemoveFinalizer model configFinalizer ∧
    HasFinalizer (reconcileDelete c env model).model configFinalizer = false ∧
    (reconcileDelete c env model).trace
      = [.ListPods model.Namespace, .Update (RemoveFinalizer model configFinalizer)] ∧
    (reconcileDelete c env model).err = none ∧
    (reconcileDelete c env model).result = { Requeue := false, RequeueAfter := 0 } := by
  have ho : reconcileDelete c env model =
      { result := {}, err := none, model := RemoveFinalizer model configFinalizer,
        trace := [.ListPods model.Namespace, .Update (RemoveFinalizer model configFinalizer)] } := by
    unfold reconcileDelete
    simp only [hp, hfin, Bool.not_true, Bool.false_eq_true, if_false, hlist,
      deletePods_none_eligible c env model plugin _ pods hnone, hupd]
    rfl
  rw [ho]
  exact ⟨rfl, hasFinalizer_removeFinalizer model configFinalizer, rfl, rfl, rfl⟩

/-- C9, witness: a Model marked for deletion with a Plugin spec and the
finalizer, and a listing that holds one pod without the annotation. -/
theorem reconcileDelete_no_target_witness :
    (reconcileDelete exConsts (exEnv [{ Name := "other" }])
        { exModel [] with DeletionTimestamp := some 1 }).model
      = RemoveFinalizer { exModel [] with DeletionTimestamp := some 1 } configFinalizer ∧
    HasFinalizer (reconcileDelete exConsts (exEnv [{ Name := "other" }])
        { exModel [] with DeletionTimestamp := some 1 }).model configFinalizer = false ∧
    (reconcileDelete exConsts (exEnv [{ Name := "other" }])
        { exModel [] with DeletionTimestamp := some 1 }).trace
      = [.ListPods ({ exModel [] with DeletionTimestamp := some 1 } : Model).Namespace,
         .Update (RemoveFinalizer { exModel [] with DeletionTimestamp := some 1 } configFinalizer)] ∧
    (reconcileDelete exConsts (exEnv [{ Name := "other" }])
        { exModel [] with DeletionTimestamp := some 1 }).err = none ∧
    (reconcileDelete exConsts (exEnv [{ Name := "other" }])
        { exModel [] with DeletionTimestamp := some 1 }).result
      = { Requeue := false, RequeueAfter := 0 } :=
  reconcileDelete_no_target exConsts (exEnv [{ Name := "other" }])
    { exModel [] with DeletionTimestamp := some 1 } exPlugin [{ Name := "other" }]
    rfl (by decide) rfl (by decide) rfl

/-- C9, counterexample: a Model with the deletion marker and the finalizer but
without a Plugin spec keeps its finalizer: the deletion pass returns at once,
lists nothing and writes nothing. -/
theorem reconcileDelete_keeps_finalizer_without_plugin :
    exModelDeletedNoPlugin.DeletionTimestamp ≠ none ∧
    HasFinalizer exModelDeletedNoPlugin configFinalizer = true ∧
    (reconcileDelete exConsts (exEnv []) exModelDeletedNoPlugin).model = exModelDeletedNoPlugin ∧
    HasFinalizer (reconcileDelete exConsts (exEnv []) exModelDeletedNoPlugin).model
      configFinalizer = true ∧
    (reconcileDelete exConsts (exEnv []) exModelDeletedNoPlugin).trace = [] := by
  decide

/-! ## C10: deletion gated on every uninstall -/

@[simp] theorem deleteCalls_nil : deleteCalls [] = [] := rfl

@[simp] theorem deleteCalls_cons (call : Call) (tr : List Call) :
    deleteCalls (call :: tr) =
      (match call with
        | .DeleteModel pod addr req => [(pod, addr, req)]
        | _ => []) ++ deleteCalls tr := by
  cases call <;> rfl

@[simp] theorem deleteCalls_append (a b : List Call) :
    deleteCalls (a ++ b) = deleteCalls a ++ deleteCalls b := by
  simp [deleteCalls]

@[simp] theorem deleteAnswers_nil (env : Env) (pre : List Call) :
    deleteAnswers env pre [] = [] := rfl

@[simp] theorem deleteAnswers_cons (env : Env) (pre : List Call) (call : Call)
    (rest : List Call) :
    deleteAnswers env pre (call :: rest) =
      (match call with
        | .DeleteModel pod addr req => [env.DeleteModel pre pod addr req]
        | _ => []) ++ deleteAnswers env (pre ++ [call]) rest := rfl

@[simp] theorem deleteAnswers_append (env : Env) (pre a b : List Call) :
    deleteAnswers env pre (a ++ b) = deleteAnswers env pre a ++ deleteAnswers env (pre ++ a) b := by
  induction a generalizing pre with
  | nil => simp
  | cons x a ih => simp [ih]

theorem deleteTargets_cons (c : Consts) (plugin : Plugin) (p : Pod) (pods : List Pod) :
    deleteTargets c plugin (p :: pods) =
      if injected c p then (p.Name, address p, deleteRequest plugin) :: deleteTargets c plugin pods
      else deleteTargets c plugin pods := by
  unfold deleteTargets
  by_cases h : injected c p = true <;> simp [List.filter_cons, h]

/-- The pod loop of the deletion pass when every connection succeeds: if it
goes through, every eligible pod got its delete call, in order, and every
answer was accepted; if it returns, the calls issued are the first calls due,
the last answer is the error returned, and the answers before it were accepted. -/
theorem deletePods_spec (c : Consts) (env : Env) (model : Model) (plugin : Plugin)
    (hconn : ∀ tr pod addr, env.ConnectAddress tr pod addr = none) (pods : List Pod) :
    ∀ tr,
    (∀ rq tr1, deletePods c env model plugin tr pods = .next rq tr1 →
      ∃ ext, tr1 = tr ++ ext ∧ deleteCalls ext = deleteTargets c plugin pods ∧
        modelWrites ext = [] ∧ ∀ a ∈ deleteAnswers env tr ext, DeleteAccepted a) ∧
    (∀ o, deletePods c env model plugin tr pods = .done o →
      o.model = model ∧ o.result = { Requeue := false, RequeueAfter := 0 } ∧
      ∃ ext e oks k, o.trace = tr ++ ext ∧
        deleteCalls ext = (deleteTargets c plugin pods).take k ∧
        modelWrites ext = [] ∧ deleteAnswers env tr ext = oks ++ [some e] ∧
        (∀ a ∈ oks, DeleteAccepted a) ∧ IsNotFound e = false ∧ o.err = some e) := by
  induction pods with
  | nil =>
    intro tr
    constructor
    · intro rq tr1 h
      simp only [deletePods, Scan.next.injEq] at h
      exact ⟨[], by simp [h.2], rfl, rfl, by simp⟩
    · intro o h
      simp [deletePods] at h
  | cons p pods ih =>
    intro tr
    by_cases hinj : injected c p = true
    · have hstep : deletePods c env model plugin tr (p :: pods) =
          match env.DeleteModel (tr ++ [.ConnectAddress p.Name (address p)]) p.Name (address p)
              (deleteRequest plugin) with
          | some err =>
            if !IsNotFound err then
              .done { result := {}, err := some err, model := model,
                      trace := tr ++ [.ConnectAddress p.Name (address p)] ++
                        [.DeleteModel p.Name (address p) (deleteRequest plugin)] }
            else deletePods c env model plugin (tr ++ [.ConnectAddress p.Name (address p)] ++
                        [.DeleteModel p.Name (address p) (deleteRequest plugin)]) pods
          | none => deletePods c env model plugin (tr ++ [.ConnectAddress p.Name (address p)] ++
                        [.DeleteModel p.Name (address p) (deleteRequest plugin)]) pods := by
        simp only [deletePods, hinj, if_true, hconn]
      rw [hstep, deleteTargets_cons, if_pos hinj]
      have hacc : ∀ (ans : Option Err),
          env.DeleteModel (tr ++ [.ConnectAddress p.Name (address p)]) p.Name (address p)
            (deleteRequest plugin) = ans → DeleteAccepted ans →
          (∀ rq tr1, deletePods c env model plugin (tr ++ [.ConnectAddress p.Name (address p)] ++
                [.DeleteModel p.Name (address p) (deleteRequest plugin)]) pods = .next rq tr1 →
            ∃ ext, tr1 = tr ++ ext ∧
              deleteCalls ext = (p.Name, address p, deleteRequest plugin) ::
                deleteTargets c plugin pods ∧
              modelWrites ext = [] ∧ ∀ a ∈ deleteAnswers env tr ext, DeleteAccepted a) ∧
          (∀ o, deletePods c env model plugin (tr ++ [.ConnectAddress p.Name (address p)] ++
                [.DeleteModel p.Name (address p) (deleteRequest plugin)]) pods = .done o →
            o.model = model ∧ o.result = { Requeue := false, RequeueAfter := 0 } ∧
            ∃ ext e oks k, o.trace = tr ++ ext ∧
              deleteCalls ext = ((p.Name, address p, deleteRequest plugin) ::
                deleteTargets c plugin pods).take k ∧
              modelWrites ext = [] ∧ deleteAnswers env tr ext = oks ++ [some e] ∧
              (∀ a ∈ oks, DeleteAccepted a) ∧ IsNotFound e = false ∧ o.err = some e) := by
        intro ans hans hok
        obtain ⟨ihn, ihd⟩ := ih (tr ++ [.ConnectAddress p.Name (address p)] ++
                [.DeleteModel p.Name (address p) (deleteRequest plugin)])
        constructor
        · intro rq tr1 h
          obtain ⟨ext, h1, h2, h3, h4⟩ := ihn rq tr1 h
          refine ⟨[.ConnectAddress p.Name (address p),
            .DeleteModel p.Name (address p) (deleteRequest plugin)] ++ ext, ?_, ?_, ?_, ?_⟩
          · simp [h1]
          · simp [h2]
          · simp [h3]
          · intro a ha
            simp only [List.cons_append, List.nil_append, deleteAnswers_cons, List.append_assoc,
              List.singleton_append, List.mem_cons] at ha
            rcases ha with ha | ha
            · rw [ha, hans]
              exact hok
            · exact h4 a (by simpa using ha)
        · intro o h
          obtain ⟨hm, hr, ext, e, oks, k, h1, h2, h3, h4, h5, h6, h7⟩ := ihd o h
          refine ⟨hm, hr, [.ConnectAddress p.Name (address p),
            .DeleteModel p.Name (address p) (deleteRequest plugin)] ++ ext, e,
            ans :: oks, k + 1, ?_, ?_, ?_, ?_, ?_, h6, h7⟩
          · simp [h1]
          · simp [h2]
          · simp [h3]
          · simp only [List.cons_append, List.nil_append, deleteAnswers_cons, List.append_assoc,
              List.singleton_append, hans]
            have h4a : deleteAnswers env (tr ++ [Call.ConnectAddress p.Name (address p),
                Call.DeleteModel p.Name (address p) (deleteRequest plugin)]) ext
                = oks ++ [some e] := by
              simpa using h4
            rw [h4a]
          · intro a ha
            simp only [List.mem_cons] at ha
            rcases ha with ha | ha
            · rw [ha]
              exact hok
            · exact h5 a ha
      cases hans : env.DeleteModel (tr ++ [.ConnectAddress p.Name (address p)]) p.Name (address p)
          (deleteRequest plugin) with
      | none =>
        simp only []
        exact hacc none hans (Or.inl rfl)
      | some err =>
        by_cases hnf : IsNotFound err = true
        · simp only [hnf, Bool.not_true, Bool.false_eq_true, if_false]
          exact hacc (some err) hans (Or.inr ⟨err, rfl, hnf⟩)
        · have hnf1 : IsNotFound err = false := by simpa using hnf
          simp only [hnf1, Bool.not_false, if_true]
          constructor
          · intro rq tr1 h
            simp at h
          · intro o h
            simp only [Scan.done.injEq] at h
            subst h
            refine ⟨rfl, rfl, [.ConnectAddress p.Name (address p),
              .DeleteModel p.Name (address p) (deleteRequest plugin)], err, [], 1, ?_, ?_, ?_, ?_,
              ?_, hnf1, rfl⟩
            · simp
            · simp
            · simp
            · simp [hans]
            · simp
    · have hinj1 : injected c p = false := by simpa using hinj
      have hstep : deletePods c env model plugin tr (p :: pods) =
          deletePods c env model plugin tr pods := by
        simp only [deletePods, hinj1, Bool.false_eq_true, if_false]
      rw [hstep, deleteTargets_cons]
      simp only [hinj1, Bool.false_eq_true, if_false]
      exact ih tr

/-- C10: on a Model with a Plugin spec and the finalizer, when the listing and
every connection succeed, the deletion pass issues its delete calls to the
eligible targets in list order; it removes the finalizer and issues the Model
update exactly when every delete answer was success or not-found, and then every
eligible target got its call; and when a delete answer is another error, the
pass returns that error, that call is the last delete call and every answer
before it was accepted, the Model is not written, and the finalizer stays. -/
theorem reconcileDelete_gated (c : Consts) (env : Env) (model : Model) (plugin : Plugin)
    (pods : List Pod)
    (hp : model.Spec.Plugin = some plugin)
    (hfin : HasFinalizer model configFinalizer = true)
    (hlist : env.ListPods [] model.Namespace = .ok pods)
    (hconn : ∀ tr pod addr, env.ConnectAddress tr pod addr = none) :
    (∃ k, deleteCalls (reconcileDelete c env model).trace
      = (deleteTargets c plugin pods).take k) ∧
    ((∀ a ∈ deleteAnswers env [] (reconcileDelete c env model).trace, DeleteAccepted a) ↔
      ((reconcileDelete c env model).model = RemoveFinalizer model configFinalizer ∧
        modelWrites (reconcileDelete c env model).trace
          = [RemoveFinalizer model configFinalizer])) ∧
    ((∀ a ∈ deleteAnswers env [] (reconcileDelete c env model).trace, DeleteAccepted a) →
      deleteCalls (reconcileDelete c env model).trace = deleteTargets c plugin pods ∧
      HasFinalizer (reconcileDelete c env model).model configFinalizer = false) ∧
    (∀ e, some e ∈ deleteAnswers env [] (reconcileDelete c env model).trace →
      IsNotFound e = false →
      (reconcileDelete c env model).err = some e ∧
      (∃ oks, deleteAnswers env [] (reconcileDelete c env model).trace = oks ++ [some e] ∧
        ∀ a ∈ oks, DeleteAccepted a) ∧
      modelWrites (reconcileDelete c env model).trace = [] ∧
      (reconcileDelete c env model).model = model ∧
      HasFinalizer (reconcileDelete c env model).model configFinalizer = true) := by
  obtain ⟨hnext, hdone⟩ := deletePods_spec c env model plugin hconn pods [.ListPods model.Namespace]
  cases hd : deletePods c env model plugin [.ListPods model.Namespace] pods with
  | next rq tr2 =>
    obtain ⟨ext, h1, h2, h3, h4⟩ := hnext rq tr2 hd
    have ho : (reconcileDelete c env model).model = RemoveFinalizer model configFinalizer ∧
        (reconcileDelete c env model).trace
          = tr2 ++ [.Update (RemoveFinalizer model configFinalizer)] := by
      unfold reconcileDelete
      simp only [hp, hfin, Bool.not_true, Bool.false_eq_true, if_false, hlist, hd]
      split <;> exact ⟨rfl, rfl⟩
    have hans : deleteAnswers env [] (reconcileDelete c env model).trace
        = deleteAnswers env [.ListPods model.Namespace] ext := by
      rw [ho.2, h1]
      simp
    have hall : ∀ a ∈ deleteAnswers env [] (reconcileDelete c env model).trace,
        DeleteAccepted a := by
      rw [hans]
      exact h4
    have hcalls : deleteCalls (reconcileDelete c env model).trace = deleteTargets c plugin pods := by
      rw [ho.2, h1]
      simp [h2]
    have hmw : modelWrites (reconcileDelete c env model).trace
        = [RemoveFinalizer model configFinalizer] := by
      rw [ho.2, h1]
      simp [h3]
    refine ⟨⟨(deleteTargets c plugin pods).length, by rw [hcalls, List.take_length]⟩, ?_, ?_, ?_⟩
    · exact ⟨fun _ => ⟨ho.1, hmw⟩, fun _ => hall⟩
    · intro _
      refine ⟨hcalls, ?_⟩
      rw [ho.1]
      exact hasFinalizer_removeFinalizer model configFinalizer
    · intro e he hnf
      rcases hall _ he with h | ⟨e1, h, hnf1⟩
      · cases h
      · cases h
        rw [hnf1] at hnf
        cases hnf
  | done o =>
    obtain ⟨hm, -, ext, e, oks, k, h1, h2, h3, h4, h5, h6, h7⟩ := hdone o hd
    have ho : reconcileDelete c env model = o := by
      unfold reconcileDelete
      simp only [hp, hfin, Bool.not_true, Bool.false_eq_true, if_false, hlist, hd]
    have hans : deleteAnswers env [] o.trace = oks ++ [some e] := by
      rw [h1]
      simpa using h4
    have hmw : modelWrites o.trace = [] := by
      rw [h1]
      simp [h3]
    have hnot : ¬ ∀ a ∈ deleteAnswers env [] o.trace, DeleteAccepted a := by
      intro hall
      rcases hall (some e) (by rw [hans]; simp) with h | ⟨e1, h, hnf1⟩
      · cases h
      · cases h
        rw [hnf1] at h6
        cases h6
    rw [ho]
    refine ⟨⟨k, by rw [h1]; simpa using h2⟩, ?_, ?_, ?_⟩
    · constructor
      · intro hall
        exact absurd hall hnot
      · rintro ⟨-, hw⟩
        rw [hmw] at hw
        cases hw
    · intro hall
      exact absurd hall hnot
    · intro e1 he1 hnf1
      have he : e1 = e := by
        rw [hans] at he1
        simp only [List.mem_append, List.mem_singleton, Option.some.injEq] at he1
        rcases he1 with he1 | he1
        · rcases h5 _ he1 with h | ⟨e2, h, hnf2⟩
          · cases h
          · cases h
            rw [hnf2] at hnf1
            cases hnf1
        · exact he1
      subst he
      refine ⟨h7, ⟨oks, hans, h5⟩, hmw, hm, ?_⟩
      rw [hm]
      exact hfin

/-- C10, witness: three eligible pods are listed and the delete for the second
one fails. -/
theorem reconcileDelete_gated_witness :
    (∃ k, deleteCalls (reconcileDelete exConsts exEnvDelete (exModel [])).trace
      = (deleteTargets exConsts exPlugin exPods3).take k) ∧
    ((∀ a ∈ deleteAnswers exEnvDelete [] (reconcileDelete exConsts exEnvDelete (exModel [])).trace,
        DeleteAccepted a) ↔
      ((reconcileDelete exConsts exEnvDelete (exModel [])).model
          = RemoveFinalizer (exModel []) configFinalizer ∧
        modelWrites (reconcileDelete exConsts exEnvDelete (exModel [])).trace
          = [RemoveFinalizer (exModel []) configFinalizer])) ∧
    ((∀ a ∈ deleteAnswers exEnvDelete [] (reconcileDelete exConsts exEnvDelete (exModel [])).trace,
        DeleteAccepted a) →
      deleteCalls (reconcileDelete exConsts exEnvDelete (exModel [])).trace
        = deleteTargets exConsts exPlugin exPods3 ∧
      HasFinalizer (reconcileDelete exConsts exEnvDelete (exModel [])).model configFinalizer
        = false) ∧
    (∀ e, some e ∈ deleteAnswers exEnvDelete []
        (reconcileDelete exConsts exEnvDelete (exModel [])).trace →
      IsNotFound e = false →
      (reconcileDelete exConsts exEnvDelete (exModel [])).err = some e ∧
      (∃ oks, deleteAnswers exEnvDelete [] (reconcileDelete exConsts exEnvDelete (exModel [])).trace
          = oks ++ [some e] ∧ ∀ a ∈ oks, DeleteAccepted a) ∧
      modelWrites (reconcileDelete exConsts exEnvDelete (exModel [])).trace = [] ∧
      (reconcileDelete exConsts exEnvDelete (exModel [])).model = exModel [] ∧
      HasFinalizer (reconcileDelete exConsts exEnvDelete (exModel [])).model configFinalizer
        = true) :=
  reconcileDelete_gated exConsts exEnvDelete (exModel []) exPlugin exPods3
    rfl (by decide) rfl (fun _ _ _ => rfl)

/-! ## C11: finalizer before side effects -/

theorem hasFinalizer_ensured (model : Model) :
    HasFinalizer (ensured model) configFinalizer = true := by
  unfold ensured
  split
  · assumption
  · simp [HasFinalizer, AddFinalizer]

/-- Shape of a convergence pass on a Model with a Plugin spec: its calls start
with the calls of the finalizer step and hold no other Model update, and the
Model it returns is the Model after the finalizer step with some status list. -/
theorem reconcileCreate_shape (c : Consts) (env : Env) (model : Model) (plugin : Plugin)
    (hp : model.Spec.Plugin = some plugin) :
    ∃ rest sts, (reconcileCreate c env model).trace = ensuredTrace model ++ rest ∧
      modelWrites rest = [] ∧
      (reconcileCreate c env model).model = setStatuses (ensured model) sts := by
  rcases reconcileCreate_cases c env model plugin hp with
    ⟨-, e, -, ho⟩ | ⟨-, ⟨e, -, ho⟩ | ⟨pods, -, hs | ⟨rq, -, hg | ⟨-, ho⟩⟩⟩⟩
  · rw [ho]
    exact ⟨[], (ensured model).Status.RegistryStatuses, by simp, rfl, rfl⟩
  · rw [ho]
    exact ⟨[.ListPods model.Namespace], (ensured model).Status.RegistryStatuses, rfl, rfl, rfl⟩
  · obtain ⟨rq1, pod, -, hstep⟩ := scanPods_done hs
    obtain ⟨-, h1 | ⟨i, s, -, -, -, -, ho⟩ | ⟨i, s, -, -, -, h3⟩⟩ := reconcilePod_done hstep
    · rw [h1.2, updateStatusAndReturn_trace, updateStatusAndReturn_model]
      apply Exists.intro
      apply Exists.intro
      refine ⟨?h1, ?h2, ?h3⟩
      case h3 => rfl
      case h1 => simp only [List.append_assoc]; rfl
      case h2 => simp
    · rw [ho, updateStatusAndReturn_trace, updateStatusAndReturn_model]
      apply Exists.intro
      apply Exists.intro
      refine ⟨?h1, ?h2, ?h3⟩
      case h3 => rfl
      case h1 => simp only [List.append_assoc]; rfl
      case h2 => simp
    · rcases h3 with ⟨e, -, ho⟩ | ⟨-, e, -, -, ho⟩ | ⟨-, -, ho⟩
      · rw [ho]
        apply Exists.intro
        refine ⟨(ensured model).Status.RegistryStatuses, ?h1, ?h2, rfl⟩
        case h1 => simp only [List.append_assoc]; rfl
        case h2 => simp
      · rw [ho]
        apply Exists.intro
        refine ⟨(ensured model).Status.RegistryStatuses, ?h1, ?h2, rfl⟩
        case h1 => simp only [List.append_assoc]; rfl
        case h2 => simp
      · rw [ho, updateStatusAndReturn_trace, updateStatusAndReturn_model]
        apply Exists.intro
        apply Exists.intro
        refine ⟨?h1, ?h2, ?h3⟩
        case h3 => rfl
        case h1 => simp only [List.append_assoc]; rfl
        case h2 => simp
  · obtain ⟨pre, s, post, -, -, -, ho⟩ := forgetPods_done hg
    rw [ho, updateStatusAndReturn_trace, updateStatusAndReturn_model]
    apply Exists.intro
    apply Exists.intro
    refine ⟨?h1, ?h2, ?h3⟩
    case h3 => rfl
    case h1 => simp only [List.append_assoc]; rfl
    case h2 => simp
  · rw [ho]
    apply Exists.intro
    refine ⟨(ensured model).Status.RegistryStatuses, ?h1, ?h2, rfl⟩
    case h1 => simp only [List.append_assoc]; rfl
    case h2 => simp

/-- C11: in a convergence pass on a Model with a Plugin spec and without the
finalizer, the first call is the Model update that adds the finalizer, no other
Model update follows it, and when that update fails the pass returns its error
having issued no other call; and every convergence pass on a Model with a Plugin
spec that returns without error returns a Model that carries the finalizer,
after a successful finalizer update when the finalizer was absent. -/
theorem reconcileCreate_finalizer_first (c : Consts) (env : Env) (model : Model)
    (plugin : Plugin) (hp : model.Spec.Plugin = some plugin) :
    (HasFinalizer model configFinalizer = false →
      (∃ rest, (reconcileCreate c env model).trace
          = .Update (AddFinalizer model configFinalizer) :: rest ∧ modelWrites rest = []) ∧
      (∀ e, env.Update [] (AddFinalizer model configFinalizer) = some e →
        (reconcileCreate c env model).err = some e ∧
        (reconcileCreate c env model).trace = [.Update (AddFinalizer model configFinalizer)])) ∧
    ((reconcileCreate c env model).err = none →
      HasFinalizer (reconcileCreate c env model).model configFinalizer = true ∧
      (HasFinalizer model configFinalizer = false →
        env.Update [] (AddFinalizer model configFinalizer) = none)) := by
  obtain ⟨rest, sts, htr, hmw, hm⟩ := reconcileCreate_shape c env model plugin hp
  have hfin : HasFinalizer (reconcileCreate c env model).model configFinalizer = true := by
    rw [hm]
    exact hasFinalizer_ensured model
  refine ⟨?_, ?_⟩
  · intro hf
    have he : ensured model = AddFinalizer model configFinalizer := by simp [ensured, hf]
    have ht : ensuredTrace model = [.Update (AddFinalizer model configFinalizer)] := by
      simp [ensuredTrace, hf]
    refine ⟨⟨rest, by rw [htr, ht]; rfl, hmw⟩, ?_⟩
    intro e hupd
    rcases reconcileCreate_cases c env model plugin hp with
      ⟨-, e1, he1, ho⟩ | ⟨hok, -⟩
    · rw [he, hupd] at he1
      cases he1
      rw [ho, ht]
      exact ⟨rfl, rfl⟩
    · have := hok hf
      rw [he, hupd] at this
      cases this
  · intro herr
    refine ⟨hfin, ?_⟩
    intro hf
    have he : ensured model = AddFinalizer model configFinalizer := by simp [ensured, hf]
    rcases reconcileCreate_cases c env model plugin hp with
      ⟨-, e1, -, ho⟩ | ⟨hok, -⟩
    · rw [ho] at herr
      cases herr
    · rw [← he]
      exact hok hf

/-- C11, witness: a new Model with a Plugin spec and one eligible pod. -/
theorem reconcileCreate_finalizer_first_witness :
    (HasFinalizer exModelNew configFinalizer = false →
      (∃ rest, (reconcileCreate exConsts (exEnv [exPod "p1" "10.0.0.1" true]) exModelNew).trace
          = .Update (AddFinalizer exModelNew configFinalizer) :: rest ∧ modelWrites rest = []) ∧
      (∀ e, (exEnv [exPod "p1" "10.0.0.1" true]).Update []
          (AddFinalizer exModelNew configFinalizer) = some e →
        (reconcileCreate exConsts (exEnv [exPod "p1" "10.0.0.1" true]) exModelNew).err = some e ∧
        (reconcileCreate exConsts (exEnv [exPod "p1" "10.0.0.1" true]) exModelNew).trace
          = [.Update (AddFinalizer exModelNew configFinalizer)])) ∧
    ((reconcileCreate exConsts (exEnv [exPod "p1" "10.0.0.1" true]) exModelNew).err = none →
      HasFinalizer (reconcileCreate exConsts (exEnv [exPod "p1" "10.0.0.1" true])
        exModelNew).model configFinalizer = true ∧
      (HasFinalizer exModelNew configFinalizer = false →
        (exEnv [exPod "p1" "10.0.0.1" true]).Update []
          (AddFinalizer exModelNew configFinalizer) = none)) :=
  reconcileCreate_finalizer_first exConsts (exEnv [exPod "p1" "10.0.0.1" true]) exModelNew
    exPlugin rfl

/-! ## C12: dispatch -/

/-- C12: when the fetch of the Model fails with not-found, `Reconcile` returns
the empty result without error and issues no call; when it fails with another
error, that error is returned and no call is issued; when it succeeds,
`Reconcile` returns exactly what the convergence pass returns on the fetched
Model if its deletion marker is absent, and exactly what the deletion pass
returns if it is present. -/
theorem Reconcile_dispatch (c : Consts) (store : ModelStore) (env : Env) (request : Request) :
    (∀ e, (store.GetModel request.Namespace request.Name).2 = some e →
      k8sIsNotFound e = true →
      (Reconcile c store env request).result = { Requeue := false, RequeueAfter := 0 } ∧
      (Reconcile c store env request).err = none ∧
      (Reconcile c store env request).trace = []) ∧
    (∀ e, (store.GetModel request.Namespace request.Name).2 = some e →
      k8sIsNotFound e = false →
      (Reconcile c store env request).result = { Requeue := false, RequeueAfter := 0 } ∧
      (Reconcile c store env request).err = some e ∧
      (Reconcile c store env request).trace = []) ∧
    ((store.GetModel request.Namespace request.Name).2 = none →
      ((store.GetModel request.Namespace request.Name).1.DeletionTimestamp = none →
        Reconcile c store env request
          = reconcileCreate c env (store.GetModel request.Namespace request.Name).1) ∧
      ((store.GetModel request.Namespace request.Name).1.DeletionTimestamp ≠ none →
        Reconcile c store env request
          = reconcileDelete c env (store.GetModel request.Namespace request.Name).1)) := by
  refine ⟨?_, ?_, ?_⟩
  · intro e he hnf
    simp [Reconcile, he, hnf]
  · intro e he hnf
    simp [Reconcile, he, hnf]
  · intro hok
    constructor
    · intro hd
      simp [Reconcile, hok, hd]
    · intro hd
      cases hdt : (store.GetModel request.Namespace request.Name).1.DeletionTimestamp with
      | none => exact absurd hdt hd
      | some t => simp [Reconcile, hok, hdt]

/-- C12, witness: the store holds a Model without deletion marker. -/
theorem Reconcile_dispatch_witness :
    (∀ e, ((exStore [exModel []]).GetModel "ns" "m").2 = some e →
      k8sIsNotFound e = true →
      (Reconcile exConsts (exStore [exModel []]) (exEnv []) ⟨"ns", "m"⟩).result
        = { Requeue := false, RequeueAfter := 0 } ∧
      (Reconcile exConsts (exStore [exModel []]) (exEnv []) ⟨"ns", "m"⟩).err = none ∧
      (Reconcile exConsts (exStore [exModel []]) (exEnv []) ⟨"ns", "m"⟩).trace = []) ∧
    (∀ e, ((exStore [exModel []]).GetModel "ns" "m").2 = some e →
      k8sIsNotFound e = false →
      (Reconcile exConsts (exStore [exModel []]) (exEnv []) ⟨"ns", "m"⟩).result
        = { Requeue := false, RequeueAfter := 0 } ∧
      (Reconcile exConsts (exStore [exModel []]) (exEnv []) ⟨"ns", "m"⟩).err = some e ∧
      (Reconcile exConsts (exStore [exModel []]) (exEnv []) ⟨"ns", "m"⟩).trace = []) ∧
    (((exStore [exModel []]).GetModel "ns" "m").2 = none →
      (((exStore [exModel []]).GetModel "ns" "m").1.DeletionTimestamp = none →
        Reconcile exConsts (exStore [exModel []]) (exEnv []) ⟨"ns", "m"⟩
          = reconcileCreate exConsts (exEnv []) ((exStore [exModel []]).GetModel "ns" "m").1) ∧
      (((exStore [exModel []]).GetModel "ns" "m").1.DeletionTimestamp ≠ none →
        Reconcile exConsts (exStore [exModel []]) (exEnv []) ⟨"ns", "m"⟩
          = reconcileDelete exConsts (exEnv []) ((exStore [exModel []]).GetModel "ns" "m").1)) :=
  Reconcile_dispatch exConsts (exStore [exModel []]) (exEnv []) ⟨"ns", "m"⟩

/-! ## C15: phase monotonicity -/

theorem phaseOf_append_of_some (l : List RegistryStatus) (e : RegistryStatus) (n : String)
    (a : ModelPhase) (h : phaseOf l n = some a) : phaseOf (l ++ [e]) n = some a := by
  induction l with
  | nil => simp [phaseOf, findStatus] at h
  | cons x l ih =>
    rw [phaseOf_cons] at h
    simp only [List.cons_append, phaseOf_cons]
    split
    · rename_i hx
      simpa [hx] using h
    · rename_i hx
      simp only [hx, if_false] at h
      exact ih h

theorem phaseOf_set_self (l : List RegistryStatus) (n : String) (i : Nat) (s : RegistryStatus)
    (ph : ModelPhase) (h : findStatus l n = some (i, s)) :
    phaseOf (l.set i { PodName := n, Phase := ph }) n = some ph := by
  induction l generalizing i with
  | nil => simp [findStatus] at h
  | cons x l ih =>
    simp only [findStatus] at h
    split at h
    · simp only [Option.some.injEq, Prod.mk.injEq] at h
      obtain ⟨rfl, -⟩ := h
      simp [phaseOf_cons]
    · rename_i hx
      split at h
      · rename_i j t hj
        simp only [Option.some.injEq, Prod.mk.injEq] at h
        obtain ⟨rfl, rfl⟩ := h
        have hne : ¬ x.PodName = n := by simpa using hx
        simp [phaseOf_cons, hne, ih j hj]
      · simp at h

/-- A pod step that returns moves the phase recorded for a name by at most one
step forward. -/
theorem reconcilePod_done_phase {c : Consts} {env : Env} {model : Model} {plugin : Plugin}
    {tr : List Call} {rq : Bool} {pod : Pod} {o : Outcome} {n : String} {a b : ModelPhase}
    (h : reconcilePod c env model plugin tr rq pod = .done o)
    (ha : phaseOf model.Status.RegistryStatuses n = some a)
    (hb : phaseOf o.model.Status.RegistryStatuses n = some b) : PhaseStep a b := by
  by_cases hn : pod.Name = n
  · subst hn
    obtain ⟨-, h1 | ⟨i, s, hfind, hph, -, -, ho⟩ | ⟨i, s, hfind, hph, -, h3⟩⟩ := reconcilePod_done h
    · simp [phaseOf, h1.1] at ha
    · rw [ho, updateStatusAndReturn_model] at hb
      have hset := phaseOf_set_self _ _ i s .ModelInstalling hfind
      simp only [setStatuses] at hb
      rw [hset] at hb
      have hbefore : phaseOf model.Status.RegistryStatuses pod.Name = some s.Phase := by
        simp [phaseOf, hfind]
      rw [ha, hph] at hbefore
      cases hb
      cases hbefore
      exact Or.inr (Or.inl ⟨rfl, rfl⟩)
    · have hbefore : phaseOf model.Status.RegistryStatuses pod.Name = some s.Phase := by
        simp [phaseOf, hfind]
      rw [ha, hph] at hbefore
      cases hbefore
      rcases h3 with ⟨e, -, ho⟩ | ⟨-, e, -, -, ho⟩ | ⟨-, -, ho⟩
      · rw [ho] at hb
        simp only at hb
        rw [ha] at hb
        cases hb
        exact Or.inl rfl
      · rw [ho] at hb
        simp only at hb
        rw [ha] at hb
        cases hb
        exact Or.inl rfl
      · rw [ho, updateStatusAndReturn_model] at hb
        have hset := phaseOf_set_self _ _ i s .ModelInstalled hfind
        simp only [setStatuses] at hb
        rw [hset] at hb
        cases hb
        exact Or.inr (Or.inr ⟨rfl, rfl⟩)
  · obtain ⟨h1, -⟩ := reconcilePod_done_other (n := n) h hn
    rw [h1, ha] at hb
    cases hb
    exact Or.inl rfl

/-- C15: for every convergence pass and every target name that has a status
entry before and after the pass, the phase after is the phase before or the
phase one step later (Pending to Installing, or Installing to Installed); so
its position in the order Pending, Installing, Installed never decreases. -/
theorem reconcileCreate_phase_monotone (c : Consts) (env : Env) (model : Model)
    (n : String) (a b : ModelPhase)
    (ha : phaseOf model.Status.RegistryStatuses n = some a)
    (hb : phaseOf (reconcileCreate c env model).model.Status.RegistryStatuses n = some b) :
    PhaseStep a b ∧ phaseRank a ≤ phaseRank b ∧ phaseRank b ≤ phaseRank a + 1 := by
  have hstep : PhaseStep a b := by
    cases hp : model.Spec.Plugin with
    | none =>
      have ho : reconcileCreate c env model =
          { result := {}, err := none, model := model, trace := [] } := by
        simp [reconcileCreate, hp]
      rw [ho] at hb
      simp only at hb
      rw [ha] at hb
      cases hb
      exact Or.inl rfl
    | some plugin =>
      rcases reconcileCreate_cases c env model plugin hp with
        ⟨-, e, -, ho⟩ | ⟨-, ⟨e, -, ho⟩ | ⟨pods, -, hs | ⟨rq, -, hg | ⟨-, ho⟩⟩⟩⟩
      · rw [ho] at hb
        simp only [ensured_statuses] at hb
        rw [ha] at hb
        cases hb
        exact Or.inl rfl
      · rw [ho] at hb
        simp only [ensured_statuses] at hb
        rw [ha] at hb
        cases hb
        exact Or.inl rfl
      · obtain ⟨rq1, pod, -, hstep⟩ := scanPods_done hs
        exact reconcilePod_done_phase hstep (by rw [ensured_statuses]; exact ha) hb
      · obtain ⟨pre, s, post, -, -, -, ho⟩ := forgetPods_done hg
        rw [ho, updateStatusAndReturn_model] at hb
        simp only [setStatuses, ensured_statuses, phaseOf_filter] at hb
        split at hb
        · cases hb
        · rw [ha] at hb
          cases hb
          exact Or.inl rfl
      · rw [ho] at hb
        simp only [ensured_statuses] at hb
        rw [ha] at hb
        cases hb
        exact Or.inl rfl
  refine ⟨hstep, ?_⟩
  rcases hstep with h | ⟨h1, h2⟩ | ⟨h1, h2⟩
  · subst h
    exact ⟨Nat.le_refl _, Nat.le_succ _⟩
  · subst h1
    subst h2
    exact ⟨by decide, by decide⟩
  · subst h1
    subst h2
    exact ⟨by decide, by decide⟩

/-- C15, witness: a Pending entry whose pod is ready is moved to Installing. -/
theorem reconcileCreate_phase_monotone_witness :
    phaseOf (exModel [⟨"p1", .ModelPending⟩]).Status.RegistryStatuses "p1"
      = some .ModelPending ∧
    phaseOf (reconcileCreate exConsts (exEnv [exPod "p1" "10.0.0.1" true])
      (exModel [⟨"p1", .ModelPending⟩])).model.Status.RegistryStatuses "p1"
      = some .ModelInstalling ∧
    (PhaseStep .ModelPending .ModelInstalling ∧
      phaseRank .ModelPending ≤ phaseRank .ModelInstalling ∧
      phaseRank .ModelInstalling ≤ phaseRank .ModelPending + 1) :=
  ⟨by decide, by decide,
    reconcileCreate_phase_monotone exConsts (exEnv [exPod "p1" "10.0.0.1" true])
      (exModel [⟨"p1", .ModelPending⟩]) "p1" .ModelPending .ModelInstalling
      (by decide) (by decide)⟩

/-! ## C16: store failures -/

/-- Store failures that do abort a convergence pass: a failed finalizer update,
a failed listing and a failed status update are returned as the error of the
pass, and nothing is issued after them. -/
theorem reconcileCreate_store_failures (c : Consts) (env : Env) (model : Model)
    (plugin : Plugin) (hp : model.Spec.Plugin = some plugin) :
    (∀ e, HasFinalizer model configFinalizer = false →
      env.Update [] (AddFinalizer model configFinalizer) = some e →
      (reconcileCreate c env model).err = some e ∧
      (reconcileCreate c env model).trace = [.Update (AddFinalizer model configFinalizer)]) ∧
    (∀ e, (HasFinalizer model configFinalizer = false →
        env.Update [] (AddFinalizer model configFinalizer) = none) →
      env.ListPods (ensuredTrace model) model.Namespace = .error e →
      (reconcileCreate c env model).err = some e ∧
      (reconcileCreate c env model).trace = ensuredTrace model ++ [.ListPods model.Namespace]) ∧
    (∀ m, m ∈ statusWrites (reconcileCreate c env model).trace →
      (reconcileCreate c env model).err
        = env.StatusUpdate (reconcileCreate c env model).trace.dropLast m ∧
      (reconcileCreate c env model).trace.getLast? = some (.StatusUpdate m)) := by
  refine ⟨?_, ?_, ?_⟩
  · intro e hf hupd
    have he : ensured model = AddFinalizer model configFinalizer := by simp [ensured, hf]
    have ht : ensuredTrace model = [.Update (AddFinalizer model configFinalizer)] := by
      simp [ensuredTrace, hf]
    rcases reconcileCreate_cases c env model plugin hp with ⟨-, e1, he1, ho⟩ | ⟨hok, -⟩
    · rw [he, hupd] at he1
      cases he1
      rw [ho, ht]
      exact ⟨rfl, rfl⟩
    · have := hok hf
      rw [he, hupd] at this
      cases this
  · intro e hupd hl
    rcases reconcileCreate_cases c env model plugin hp with
      ⟨hf, e1, he1, -⟩ | ⟨-, ⟨e1, he1, ho⟩ | ⟨pods, hl1, -⟩⟩
    · have he : ensured model = AddFinalizer model configFinalizer := by simp [ensured, hf]
      rw [he, hupd hf] at he1
      cases he1
    · rw [hl] at he1
      cases he1
      rw [ho]
      exact ⟨rfl, rfl⟩
    · rw [hl] at hl1
      cases hl1
  · intro m hm
    have hnone : ∀ tr : List Call, statusWrites tr = [] → m ∈ statusWrites tr → False := by
      intro tr h1 h2
      rw [h1] at h2
      cases h2
    have hdone : ∀ (m1 : Model) (tr : List Call), statusWrites tr = [] →
        reconcileCreate c env model = updateStatusAndReturn env m1 tr →
        (reconcileCreate c env model).err
          = env.StatusUpdate (reconcileCreate c env model).trace.dropLast m ∧
        (reconcileCreate c env model).trace.getLast? = some (.StatusUpdate m) := by
      intro m1 tr htr ho
      rw [ho, updateStatusAndReturn_trace] at hm
      simp only [statusWrites_append, htr, List.nil_append, statusWrites_cons,
        statusWrites_nil, List.append_nil, List.mem_singleton] at hm
      subst hm
      rw [ho, updateStatusAndReturn_trace, updateStatusAndReturn_err, List.dropLast_concat]
      exact ⟨rfl, by simp⟩
    rcases reconcileCreate_cases c env model plugin hp with
      ⟨-, e, -, ho⟩ | ⟨-, ⟨e, -, ho⟩ | ⟨pods, -, hs | ⟨rq, -, hg | ⟨-, ho⟩⟩⟩⟩
    · rw [ho] at hm
      exact (hnone _ (by simp) hm).elim
    · rw [ho] at hm
      exact (hnone _ (by simp) hm).elim
    · obtain ⟨rq1, pod, -, hstep⟩ := scanPods_done hs
      obtain ⟨-, h1 | ⟨i, s, -, -, -, -, ho⟩ | ⟨i, s, -, -, -, h3⟩⟩ := reconcilePod_done hstep
      · exact hdone _ _ (by simp) h1.2
      · exact hdone _ _ (by simp) ho
      · rcases h3 with ⟨e, -, ho⟩ | ⟨-, e, -, -, ho⟩ | ⟨-, -, ho⟩
        · rw [ho] at hm
          exact (hnone _ (by simp) hm).elim
        · rw [ho] at hm
          exact (hnone _ (by simp) hm).elim
        · exact hdone _ _ (by simp) ho
    · obtain ⟨pre, s, post, -, -, -, ho⟩ := forgetPods_done hg
      exact hdone _ _ (by simp) ho
    · rw [ho] at hm
      exact (hnone _ (by simp) hm).elim

/-- C16, the code at the failing input: the lookup of the pod of the only
status entry fails with an error that is not not-found; the pass drops the
error, goes on, and returns idle without error. -/
theorem reconcileCreate_swallows_lookup_error :
    (exEnvLookupFails [exPod "p1" "10.0.0.1" true] (.Other "timeout")).GetPod
      [.ListPods "ns"] "ns" "p1" = ({}, some (.Other "timeout")) ∧
    k8sIsNotFound (.Other "timeout") = false ∧
    (reconcileCreate exConsts (exEnvLookupFails [exPod "p1" "10.0.0.1" true] (.Other "timeout"))
      (exModel [⟨"p1", .ModelInstalled⟩])).trace = [.ListPods "ns", .GetPod "ns" "p1"] ∧
    (reconcileCreate exConsts (exEnvLookupFails [exPod "p1" "10.0.0.1" true] (.Other "timeout"))
      (exModel [⟨"p1", .ModelInstalled⟩])).err = none ∧
    (reconcileCreate exConsts (exEnvLookupFails [exPod "p1" "10.0.0.1" true] (.Other "timeout"))
      (exModel [⟨"p1", .ModelInstalled⟩])).result = { Requeue := false, RequeueAfter := 0 } := by
  decide

/-! ## C17: mapper -/

/-- C17: `Map` returns the empty list when the changed object is a pod that
does not carry the eligibility annotation value; otherwise, when the listing of
the Models of the namespace of the object succeeds, it returns one request per
listed Model, in list order, each with the namespace and name of that Model. -/
theorem Map_requests (c : Consts) (store : ModelStore) (ns : String) :
    (∀ pod, injected c pod = false → Map c store ⟨ns, .Pod pod⟩ = []) ∧
    (∀ object models,
      (∀ pod, object = RuntimeObject.Pod pod → injected c pod = true) →
      store.ListModels ns = .ok models →
      Map c store ⟨ns, object⟩
        = models.map (fun model => { Namespace := model.Namespace, Name := model.Name }) ∧
      (Map c store ⟨ns, object⟩).length = models.length) := by
  constructor
  · intro pod hinj
    simp [Map, hinj]
  · intro object models hobj hlist
    have hmap : Map c store ⟨ns, object⟩
        = models.map (fun model => { Namespace := model.Namespace, Name := model.Name }) := by
      cases object with
      | Pod pod =>
        have := hobj pod rfl
        simp [Map, this, hlist]
      | Model model => simp [Map, hlist]
    exact ⟨hmap, by rw [hmap, List.length_map]⟩

/-- C17, witness: a change of an eligible pod in a namespace with two Models. -/
theorem Map_requests_witness :
    Map exConsts (exStore [exModel [], { exModel [] with Name := "m2" }])
        ⟨"ns", .Pod (exPod "p1" "10.0.0.1" true)⟩
      = [⟨"ns", "m"⟩, ⟨"ns", "m2"⟩] ∧
    ((∀ pod, injected exConsts pod = false →
        Map exConsts (exStore [exModel [], { exModel [] with Name := "m2" }]) ⟨"ns", .Pod pod⟩
          = []) ∧
    (∀ object models,
      (∀ pod, object = RuntimeObject.Pod pod → injected exConsts pod = true) →
      (exStore [exModel [], { exModel [] with Name := "m2" }]).ListModels "ns" = .ok models →
      Map exConsts (exStore [exModel [], { exModel [] with Name := "m2" }]) ⟨"ns", object⟩
        = models.map (fun model => { Namespace := model.Namespace, Name := model.Name }) ∧
      (Map exConsts (exStore [exModel [], { exModel [] with Name := "m2" }])
        ⟨"ns", object⟩).length = models.length)) :=
  ⟨by decide, Map_requests exConsts (exStore [exModel [], { exModel [] with Name := "m2" }]) "ns"⟩

/-! ## C19: uniqueness of status entries -/

theorem podNames_set (l : List RegistryStatus) (i : Nat) (s : RegistryStatus) (ph : ModelPhase)
    (h : l[i]? = some s) :
    podNames (l.set i { PodName := s.PodName, Phase := ph }) = podNames l := by
  induction l generalizing i with
  | nil => simp at h
  | cons x l ih =>
    cases i with
    | zero =>
      simp only [List.getElem?_cons_zero, Option.some.injEq] at h
      subst h
      simp [podNames]
    | succ j =>
      simp only [List.getElem?_cons_succ] at h
      have := ih j h
      simp only [podNames] at this ⊢
      simp [this]

theorem podNames_filter_nodup (l : List RegistryStatus) (n : String)
    (h : (podNames l).Nodup) : (podNames (l.filter (fun t => t.PodName != n))).Nodup := by
  unfold podNames at h ⊢
  exact h.sublist ((List.filter_sublist l).map _)

/-- C19: when the target names of the status list are pairwise distinct before
a convergence pass, they are pairwise distinct after it; and when the pass
appended an entry, the entry is Pending and its name had no entry before. -/
theorem reconcileCreate_names_nodup (c : Consts) (env : Env) (model : Model)
    (hnodup : (podNames model.Status.RegistryStatuses).Nodup) :
    (podNames (reconcileCreate c env model).model.Status.RegistryStatuses).Nodup ∧
    ∀ e, (reconcileCreate c env model).model.Status.RegistryStatuses
        = model.Status.RegistryStatuses ++ [e] →
      e.PodName ∉ podNames model.Status.RegistryStatuses ∧ e.Phase = .ModelPending := by
  have hlen : ∀ (l : List RegistryStatus) (e : RegistryStatus), l ≠ l ++ [e] := by
    intro l e h
    have := congrArg List.length h
    simp at this
  cases hp : model.Spec.Plugin with
  | none =>
    have ho : reconcileCreate c env model =
        { result := {}, err := none, model := model, trace := [] } := by
      simp [reconcileCreate, hp]
    rw [ho]
    exact ⟨hnodup, fun e he => (hlen _ _ he).elim⟩
  | some plugin =>
    rcases reconcileCreate_cases c env model plugin hp with
      ⟨-, e, -, ho⟩ | ⟨-, ⟨e, -, ho⟩ | ⟨pods, -, hs | ⟨rq, -, hg | ⟨-, ho⟩⟩⟩⟩
    · rw [ho]
      simp only [ensured_statuses]
      exact ⟨hnodup, fun e he => (hlen _ _ he).elim⟩
    · rw [ho]
      simp only [ensured_statuses]
      exact ⟨hnodup, fun e he => (hlen _ _ he).elim⟩
    · obtain ⟨rq1, pod, -, hstep⟩ := scanPods_done hs
      obtain ⟨-, h1 | ⟨i, s, hfind, -, -, -, ho⟩ | ⟨i, s, hfind, -, -, h3⟩⟩ := reconcilePod_done hstep
      · obtain ⟨hfind, ho⟩ := h1
        rw [ensured_statuses] at hfind
        have hnot := findStatus_none hfind
        rw [ho, updateStatusAndReturn_model]
        simp only [setStatuses, ensured_statuses]
        constructor
        · simp only [podNames, List.map_append, List.map_cons, List.map_nil]
          rw [List.nodup_append]
          refine ⟨hnodup, by simp, ?_⟩
          intro x hx hx2
          simp only [List.mem_singleton] at hx2
          subst hx2
          exact hnot hx
        · intro e he
          have := List.append_cancel_left he
          simp only [List.cons.injEq, and_true] at this
          subst this
          exact ⟨hnot, rfl⟩
      · rw [ensured_statuses] at hfind
        obtain ⟨hget, hname⟩ := findStatus_some hfind
        rw [ho, updateStatusAndReturn_model]
        simp only [setStatuses, ensured_statuses]
        rw [← hname, podNames_set _ _ _ _ hget]
        refine ⟨hnodup, ?_⟩
        intro e he
        have := congrArg List.length he
        simp at this
      · rw [ensured_statuses] at hfind
        obtain ⟨hget, hname⟩ := findStatus_some hfind
        rcases h3 with ⟨e, -, ho⟩ | ⟨-, e, -, -, ho⟩ | ⟨-, -, ho⟩
        · rw [ho]
          simp only [ensured_statuses]
          exact ⟨hnodup, fun e he => (hlen _ _ he).elim⟩
        · rw [ho]
          simp only [ensured_statuses]
          exact ⟨hnodup, fun e he => (hlen _ _ he).elim⟩
        · rw [ho, updateStatusAndReturn_model]
          simp only [setStatuses, ensured_statuses]
          rw [← hname, podNames_set _ _ _ _ hget]
          refine ⟨hnodup, ?_⟩
          intro e he
          have := congrArg List.length he
          simp at this
    · obtain ⟨pre, s, post, -, -, -, ho⟩ := forgetPods_done hg
      rw [ho, updateStatusAndReturn_model]
      simp only [setStatuses, ensured_statuses]
      refine ⟨podNames_filter_nodup _ _ hnodup, ?_⟩
      intro e he
      have h1 := congrArg List.length he
      have h2 := List.length_filter_le (fun t => t.PodName !=
        (env.GetPod (ensuredTrace model ++ [Call.ListPods model.Namespace] ++
          lookups (ensured model).Namespace pre) (ensured model).Namespace s.PodName).1.Name)
        model.Status.RegistryStatuses
      simp only [List.length_append, List.length_singleton] at h1
      omega
    · rw [ho]
      simp only [ensured_statuses]
      exact ⟨hnodup, fun e he => (hlen _ _ he).elim⟩

/-- C19, witness: one entry exists and a second eligible pod is listed. -/
theorem reconcileCreate_names_nodup_witness :
    (podNames (exModel [⟨"p1", .ModelInstalled⟩]).Status.RegistryStatuses).Nodup ∧
    (reconcileCreate exConsts (exEnv [exPod "p1" "10.0.0.1" true, exPod "p2" "10.0.0.2" true])
      (exModel [⟨"p1", .ModelInstalled⟩])).model.Status.RegistryStatuses
      = [⟨"p1", .ModelInstalled⟩, ⟨"p2", .ModelPending⟩] ∧
    ((podNames (reconcileCreate exConsts
        (exEnv [exPod "p1" "10.0.0.1" true, exPod "p2" "10.0.0.2" true])
        (exModel [⟨"p1", .ModelInstalled⟩])).model.Status.RegistryStatuses).Nodup ∧
    ∀ e, (reconcileCreate exConsts
        (exEnv [exPod "p1" "10.0.0.1" true, exPod "p2" "10.0.0.2" true])
        (exModel [⟨"p1", .ModelInstalled⟩])).model.Status.RegistryStatuses
        = (exModel [⟨"p1", .ModelInstalled⟩]).Status.RegistryStatuses ++ [e] →
      e.PodName ∉ podNames (exModel [⟨"p1", .ModelInstalled⟩]).Status.RegistryStatuses ∧
      e.Phase = .ModelPending) :=
  ⟨by decide, by decide,
    reconcileCreate_names_nodup exConsts
      (exEnv [exPod "p1" "10.0.0.1" true, exPod "p2" "10.0.0.2" true])
      (exModel [⟨"p1", .ModelInstalled⟩]) (by decide)⟩

/-! ## C20: readiness defaults to ready -/

theorem containersReady_of_noRegistryStatus (pod : Pod) (h : NoRegistryStatus pod) :
    containersReady pod = true := by
  cases hc : containersReady pod with
  | true => rfl
  | false =>
    obtain ⟨cs, hcs, hname, -⟩ := (containersReady_eq_false pod).1 hc
    exact absurd hname (h cs hcs)

/-- The step at an eligible pod with an address whose entry is Pending and
whose containers are ready. -/
theorem reconcilePod_pending_ready {c : Consts} {env : Env} {model : Model}
    {plugin : Plugin} {tr : List Call} {rq : Bool} {pod : Pod} {i : Nat} {s : RegistryStatus}
    (hinj : injected c pod = true)
    (hfind : findStatus model.Status.RegistryStatuses pod.Name = some (i, s))
    (hph : s.Phase = .ModelPending) (hip : pod.Status.PodIP ≠ "")
    (hready : containersReady pod = true) :
    reconcilePod c env model plugin tr rq pod =
      .done (updateStatusAndReturn env
        (setStatuses model (model.Status.RegistryStatuses.set i
          { PodName := pod.Name, Phase := .ModelInstalling })) tr) := by
  have hip1 : (pod.Status.PodIP != "") = true := by simpa using hip
  unfold reconcilePod
  simp only [hinj, if_true, hfind, hph, hip1, hready, Bool.not_true, Bool.false_eq_true, if_false]

/-- The step at an eligible pod whose entry is Installing, whose containers are
ready and whose connection succeeds returns after one push to that pod. -/
theorem reconcilePod_installing_pushes {c : Consts} {env : Env} {model : Model}
    {plugin : Plugin} {tr : List Call} {rq : Bool} {pod : Pod} {i : Nat} {s : RegistryStatus}
    (hinj : injected c pod = true)
    (hfind : findStatus model.Status.RegistryStatuses pod.Name = some (i, s))
    (hph : s.Phase = .ModelInstalling) (hready : containersReady pod = true)
    (hconn : env.ConnectAddress tr pod.Name (address pod) = none) :
    ∃ o, reconcilePod c env model plugin tr rq pod = .done o ∧
      pushTargets o.trace = pushTargets tr ++ [pod.Name] := by
  unfold reconcilePod
  simp only [hinj, if_true, hfind, hph, hready, Bool.not_true, Bool.false_eq_true, if_false, hconn]
  cases env.PushModel (tr ++ [.ConnectAddress pod.Name (address pod)]) pod.Name (address pod)
      (pushRequest c model plugin) with
  | none =>
    refine ⟨_, rfl, ?_⟩
    rw [updateStatusAndReturn_trace]
    simp
  | some e =>
    by_cases hae : IsAlreadyExists e = true
    · simp only [hae, Bool.not_true, Bool.false_eq_true, if_false]
      refine ⟨_, rfl, ?_⟩
      rw [updateStatusAndReturn_trace]
      simp
    · have hae1 : IsAlreadyExists e = false := by simpa using hae
      simp only [hae1, Bool.not_false, if_true]
      refine ⟨_, rfl, ?_⟩
      simp

/-- C20: when a convergence pass reaches an eligible target that has an
address and no container status named `model-registry` (no earlier listed pod
stops the scan), the target counts as ready: a Pending entry for it is set to
Installing and persisted, and an Installing entry leads, once the connection
succeeds, to one push to that target.  A pod counts as not ready exactly when
some container status named `model-registry` reports not ready. -/
theorem reconcileCreate_ready_by_default (c : Consts) (env : Env) (model : Model)
    (plugin : Plugin) (pre : List Pod) (p : Pod) (post : List Pod) (i : Nat)
    (s : RegistryStatus) (rq : Bool)
    (hp : model.Spec.Plugin = some plugin)
    (hupd : HasFinalizer model configFinalizer = false → env.Update [] (ensured model) = none)
    (hlist : env.ListPods (ensuredTrace model) model.Namespace = .ok (pre ++ p :: post))
    (hreach : scanPods c env (ensured model) plugin
      (ensuredTrace model ++ [.ListPods model.Namespace]) false pre
        = .next rq (ensuredTrace model ++ [.ListPods model.Namespace]))
    (hinj : injected c p = true)
    (hip : p.Status.PodIP ≠ "")
    (hnone : NoRegistryStatus p)
    (hfind : findStatus model.Status.RegistryStatuses p.Name = some (i, s)) :
    containersReady p = true ∧
    (s.Phase = .ModelPending →
      (reconcileCreate c env model).model.Status.RegistryStatuses
        = model.Status.RegistryStatuses.set i { PodName := p.Name, Phase := .ModelInstalling } ∧
      statusWrites (reconcileCreate c env model).trace = [(reconcileCreate c env model).model]) ∧
    (s.Phase = .ModelInstalling →
      env.ConnectAddress (ensuredTrace model ++ [.ListPods model.Namespace]) p.Name (address p)
        = none →
      pushTargets (reconcileCreate c env model).trace = [p.Name]) ∧
    (∀ q : Pod, containersReady q = false ↔ RegistryNotReady q) := by
  have hready := containersReady_of_noRegistryStatus p hnone
  have hfind1 : findStatus (ensured model).Status.RegistryStatuses p.Name = some (i, s) := by
    rw [ensured_statuses]
    exact hfind
  have hscan : scanPods c env (ensured model) plugin
      (ensuredTrace model ++ [Call.ListPods model.Namespace]) false (pre ++ p :: post)
      = match reconcilePod c env (ensured model) plugin
          (ensuredTrace model ++ [Call.ListPods model.Namespace]) rq p with
        | .next rq1 _ => scanPods c env (ensured model) plugin
            (ensuredTrace model ++ [Call.ListPods model.Namespace]) rq1 post
        | .done o => .done o := by
    rw [scanPods_append, hreach]
    simp only [scanPods]
  refine ⟨hready, ?_, ?_, containersReady_eq_false⟩
  · intro hph
    have hstep : reconcilePod c env (ensured model) plugin
        (ensuredTrace model ++ [Call.ListPods model.Namespace]) rq p = _ :=
      reconcilePod_pending_ready hinj hfind1 hph hip hready
    rw [hstep] at hscan
    have ho : reconcileCreate c env model = _ := reconcileCreate_of_scan_done hp hupd hlist hscan
    rw [ho, updateStatusAndReturn_model, updateStatusAndReturn_trace]
    constructor
    · simp [setStatuses, ensured_statuses]
    · simp
  · intro hph hconn
    have hex : ∃ o, reconcilePod c env (ensured model) plugin
        (ensuredTrace model ++ [Call.ListPods model.Namespace]) rq p = .done o ∧
        pushTargets o.trace
          = pushTargets (ensuredTrace model ++ [Call.ListPods model.Namespace]) ++ [p.Name] :=
      reconcilePod_installing_pushes hinj hfind1 hph hready hconn
    obtain ⟨o, hstep, hpush⟩ := hex
    rw [hstep] at hscan
    have ho : reconcileCreate c env model = _ := reconcileCreate_of_scan_done hp hupd hlist hscan
    rw [ho, hpush]
    simp

/-- C20, witness: the only listed pod has an address and no container status,
and its entry is Pending. -/
theorem reconcileCreate_ready_by_default_witness :
    (reconcileCreate exConsts (exEnv [exPodBare "p1" "10.0.0.1"])
      (exModel [⟨"p1", .ModelPending⟩])).model.Status.RegistryStatuses
      = [⟨"p1", .ModelInstalling⟩] ∧
    pushTargets (reconcileCreate exConsts (exEnv [exPodBare "p1" "10.0.0.1"])
      (exModel [⟨"p1", .ModelInstalling⟩])).trace = ["p1"] ∧
    (containersReady (exPodBare "p1" "10.0.0.1") = true ∧
    ((⟨"p1", .ModelPending⟩ : RegistryStatus).Phase = .ModelPending →
      (reconcileCreate exConsts (exEnv [exPodBare "p1" "10.0.0.1"])
        (exModel [⟨"p1", .ModelPending⟩])).model.Status.RegistryStatuses
        = (exModel [⟨"p1", .ModelPending⟩]).Status.RegistryStatuses.set 0
            { PodName := (exPodBare "p1" "10.0.0.1").Name, Phase := .ModelInstalling } ∧
      statusWrites (reconcileCreate exConsts (exEnv [exPodBare "p1" "10.0.0.1"])
        (exModel [⟨"p1", .ModelPending⟩])).trace
        = [(reconcileCreate exConsts (exEnv [exPodBare "p1" "10.0.0.1"])
            (exModel [⟨"p1", .ModelPending⟩])).model]) ∧
    ((⟨"p1", .ModelPending⟩ : RegistryStatus).Phase = .ModelInstalling →
      (exEnv [exPodBare "p1" "10.0.0.1"]).ConnectAddress
        (ensuredTrace (exModel [⟨"p1", .ModelPending⟩]) ++
          [.ListPods (exModel [⟨"p1", .ModelPending⟩]).Namespace])
        (exPodBare "p1" "10.0.0.1").Name (address (exPodBare "p1" "10.0.0.1")) = none →
      pushTargets (reconcileCreate exConsts (exEnv [exPodBare "p1" "10.0.0.1"])
        (exModel [⟨"p1", .ModelPending⟩])).trace = [(exPodBare "p1" "10.0.0.1").Name]) ∧
    (∀ q : Pod, containersReady q = false ↔ RegistryNotReady q)) :=
  ⟨by decide, by decide,
    reconcileCreate_ready_by_default exConsts (exEnv [exPodBare "p1" "10.0.0.1"])
      (exModel [⟨"p1", .ModelPending⟩]) exPlugin [] (exPodBare "p1" "10.0.0.1") [] 0
      ⟨"p1", .ModelPending⟩ false rfl (fun h => absurd h (by decide)) rfl rfl
      (by decide) (by decide) (by decide) (by decide)⟩

/-! ## C18: eligibility filter -/

theorem reconcilePod_not_injected (c : Consts) (env : Env) (model : Model) (plugin : Plugin)
    (tr : List Call) (rq : Bool) (pod : Pod) (h : injected c pod = false) :
    reconcilePod c env model plugin tr rq pod = .next rq tr := by
  unfold reconcilePod
  simp only [h, Bool.false_eq_true, if_false]

theorem scanPods_filter (c : Consts) (env : Env) (model : Model) (plugin : Plugin)
    (tr : List Call) (rq : Bool) (pods : List Pod) :
    scanPods c env model plugin tr rq (pods.filter (fun p => injected c p))
      = scanPods c env model plugin tr rq pods := by
  induction pods generalizing rq with
  | nil => rfl
  | cons p pods ih =>
    by_cases hp : injected c p = true
    · simp only [List.filter_cons, hp, if_true, scanPods]
      split
      · exact ih _
      · rfl
    · have hp1 : injected c p = false := by simpa using hp
      simp only [List.filter_cons, hp1, Bool.false_eq_true, if_false, scanPods,
        reconcilePod_not_injected c env model plugin tr rq p hp1]
      exact ih _

theorem deletePods_filter (c : Consts) (env : Env) (model : Model) (plugin : Plugin)
    (tr : List Call) (pods : List Pod) :
    deletePods c env model plugin tr (pods.filter (fun p => injected c p))
      = deletePods c env model plugin tr pods := by
  induction pods generalizing tr with
  | nil => rfl
  | cons p pods ih =>
    by_cases hp : injected c p = true
    · simp only [List.filter_cons, hp, if_true, deletePods]
      split
      · rfl
      · split
        · split
          · rfl
          · exact ih _
        · exact ih _
    · have hp1 : injected c p = false := by simpa using hp
      simp only [List.filter_cons, hp1, Bool.false_eq_true, if_false, deletePods]
      exact ih _

theorem reconcilePod_filteredListing (c : Consts) (env : Env) (model : Model) (plugin : Plugin)
    (tr : List Call) (rq : Bool) (pod : Pod) :
    reconcilePod c (filteredListing c env) model plugin tr rq pod
      = reconcilePod c env model plugin tr rq pod := rfl

theorem scanPods_filteredListing (c : Consts) (env : Env) (model : Model) (plugin : Plugin)
    (tr : List Call) (rq : Bool) (pods : List Pod) :
    scanPods c (filteredListing c env) model plugin tr rq pods
      = scanPods c env model plugin tr rq pods := by
  induction pods generalizing rq with
  | nil => rfl
  | cons p pods ih =>
    simp only [scanPods, reconcilePod_filteredListing]
    split
    · exact ih _
    · rfl

theorem forgetPods_filteredListing (c : Consts) (env : Env) (model : Model) (rq : Bool)
    (tr : List Call) (sts : List RegistryStatus) :
    forgetPods (filteredListing c env) model rq tr sts = forgetPods env model rq tr sts := by
  induction sts generalizing tr with
  | nil => rfl
  | cons s sts ih =>
    simp only [forgetPods, ih]
    rfl

theorem deletePods_filteredListing (c : Consts) (env : Env) (model : Model) (plugin : Plugin)
    (tr : List Call) (pods : List Pod) :
    deletePods c (filteredListing c env) model plugin tr pods
      = deletePods c env model plugin tr pods := by
  induction pods generalizing tr with
  | nil => rfl
  | cons p pods ih =>
    simp only [deletePods, ih]
    rfl

theorem filteredListing_update (c : Consts) (env : Env) :
    (filteredListing c env).Update = env.Update := rfl

theorem filteredListing_listPods (c : Consts) (env : Env) (tr : List Call) (ns : String) :
    (filteredListing c env).ListPods tr ns =
      match env.ListPods tr ns with
      | .ok pods => .ok (pods.filter (fun p => injected c p))
      | .error err => .error err := rfl

/-- The convergence pass does not depend on the listed pods that lack the
eligibility annotation value. -/
theorem reconcileCreate_filteredListing (c : Consts) (env : Env) (model : Model) :
    reconcileCreate c (filteredListing c env) model = reconcileCreate c env model := by
  unfold reconcileCreate
  cases hp : model.Spec.Plugin with
  | none => rfl
  | some plugin =>
    simp only [scanPods_filteredListing, forgetPods_filteredListing, filteredListing_update,
      filteredListing_listPods]
    by_cases hf : HasFinalizer model configFinalizer = true
    · simp only [hf, Bool.not_true, Bool.false_eq_true, if_false]
      cases hl : env.ListPods [] model.Namespace with
      | error e => rfl
      | ok pods => simp only [scanPods_filter]
    · have hf1 : HasFinalizer model configFinalizer = false := by simpa using hf
      simp only [hf1, Bool.not_false, if_true]
      cases hu : env.Update [] (AddFinalizer model configFinalizer) with
      | some e => rfl
      | none =>
        simp only []
        cases hl : env.ListPods [.Update (AddFinalizer model configFinalizer)]
            (AddFinalizer model configFinalizer).Namespace with
        | error e => rfl
        | ok pods => simp only [scanPods_filter]

/-- The deletion pass does not depend on the listed pods that lack the
eligibility annotation value. -/
theorem reconcileDelete_filteredListing (c : Consts) (env : Env) (model : Model) :
    reconcileDelete c (filteredListing c env) model = reconcileDelete c env model := by
  unfold reconcileDelete
  cases hp : model.Spec.Plugin with
  | none => rfl
  | some plugin =>
    simp only [deletePods_filteredListing, filteredListing_update, filteredListing_listPods]
    by_cases hf : HasFinalizer model configFinalizer = true
    · simp only [hf, Bool.not_true, Bool.false_eq_true, if_false]
      cases hl : env.ListPods [] model.Namespace with
      | error e => rfl
      | ok pods => simp only [deletePods_filter]
    · have hf1 : HasFinalizer model configFinalizer = false := by simpa using hf
      simp only [hf1, Bool.not_false, if_true]

theorem deletePods_calls (c : Consts) (env : Env) (model : Model) (plugin : Plugin)
    (pods : List Pod) :
    ∀ tr, ∀ d ∈ deleteCalls (deletePods c env model plugin tr pods).calls,
      d ∈ deleteCalls tr ∨ ∃ p ∈ pods, injected c p = true ∧ p.Name = d.1 := by
  induction pods with
  | nil =>
    intro tr d hd
    exact Or.inl hd
  | cons p pods ih =>
    intro tr d hd
    by_cases hinj : injected c p = true
    · have hrec : ∀ d ∈ deleteCalls (deletePods c env model plugin
          (tr ++ [.ConnectAddress p.Name (address p)] ++
            [.DeleteModel p.Name (address p) (deleteRequest plugin)]) pods).calls,
          d ∈ deleteCalls tr ∨ ∃ q ∈ p :: pods, injected c q = true ∧ q.Name = d.1 := by
        intro d1 hd1
        rcases ih _ d1 hd1 with h | ⟨q, hq, hqi, hqn⟩
        · simp only [deleteCalls_append, deleteCalls_cons, deleteCalls_nil, List.append_nil,
            List.nil_append, List.mem_append, List.mem_singleton] at h
          rcases h with h | h
          · exact Or.inl h
          · exact Or.inr ⟨p, List.mem_cons_self _ _, hinj, by rw [h]⟩
        · exact Or.inr ⟨q, List.mem_cons_of_mem _ hq, hqi, hqn⟩
      simp only [deletePods, hinj, if_true] at hd
      split at hd
      · simp only [Scan.calls, deleteCalls_append, deleteCalls_cons, deleteCalls_nil,
          List.append_nil] at hd
        exact Or.inl hd
      · split at hd
        · split at hd
          · simp only [Scan.calls, deleteCalls_append, deleteCalls_cons, deleteCalls_nil,
              List.append_nil, List.nil_append, List.mem_append, List.mem_singleton] at hd
            rcases hd with hd | hd
            · exact Or.inl hd
            · exact Or.inr ⟨p, List.mem_cons_self _ _, hinj, by rw [hd]⟩
          · exact hrec d hd
        · exact hrec d hd
    · have hinj1 : injected c p = false := by simpa using hinj
      simp only [deletePods, hinj1, Bool.false_eq_true, if_false] at hd
      rcases ih tr d hd with h | ⟨q, hq, hqi, hqn⟩
      · exact Or.inl h
      · exact Or.inr ⟨q, List.mem_cons_of_mem _ hq, hqi, hqn⟩

/-- C18: the outcome of a convergence pass and of a deletion pass (result,
error, Model, and calls) is the outcome under the listing without the pods that
lack the eligibility annotation value; and every push, every delete and every
appended status entry of a pass is for the name of a listed pod that carries
the annotation value. -/
theorem passes_ignore_ineligible (c : Consts) (env : Env) (model : Model) :
    reconcileCreate c (filteredListing c env) model = reconcileCreate c env model ∧
    reconcileDelete c (filteredListing c env) model = reconcileDelete c env model ∧
    (∀ pods, env.ListPods (ensuredTrace model) model.Namespace = .ok pods →
      (∀ n ∈ pushTargets (reconcileCreate c env model).trace,
        ∃ p ∈ pods, injected c p = true ∧ p.Name = n) ∧
      (∀ e, (reconcileCreate c env model).model.Status.RegistryStatuses
          = model.Status.RegistryStatuses ++ [e] →
        ∃ p ∈ pods, injected c p = true ∧ p.Name = e.PodName)) ∧
    (∀ pods, env.ListPods [] model.Namespace = .ok pods →
      ∀ d ∈ deleteCalls (reconcileDelete c env model).trace,
        ∃ p ∈ pods, injected c p = true ∧ p.Name = d.1) := by
  refine ⟨reconcileCreate_filteredListing c env model,
    reconcileDelete_filteredListing c env model, ?_, ?_⟩
  · intro pods hlist
    have hlen : ∀ (l : List RegistryStatus) (e : RegistryStatus), l ≠ l ++ [e] := by
      intro l e h
      have := congrArg List.length h
      simp at this
    cases hp : model.Spec.Plugin with
    | none =>
      have ho : reconcileCreate c env model =
          { result := {}, err := none, model := model, trace := [] } := by
        simp [reconcileCreate, hp]
      rw [ho]
      exact ⟨by simp, fun e he => (hlen _ _ he).elim⟩
    | some plugin =>
      rcases reconcileCreate_cases c env model plugin hp with
        ⟨-, e, -, ho⟩ | ⟨-, ⟨e, -, ho⟩ | ⟨pods1, hl, hs | ⟨rq, -, hg | ⟨-, ho⟩⟩⟩⟩
      · rw [ho]
        simp only [ensured_statuses]
        exact ⟨by simp, fun e he => (hlen _ _ he).elim⟩
      · rw [ho]
        simp only [ensured_statuses]
        exact ⟨by simp, fun e he => (hlen _ _ he).elim⟩
      · rw [hlist] at hl
        cases hl
        obtain ⟨rq1, q, hq, hstep⟩ := scanPods_done hs
        obtain ⟨hinj, h1 | ⟨i, s, hfind, -, -, -, ho⟩ | ⟨i, s, hfind, -, -, h3⟩⟩ :=
          reconcilePod_done hstep
        · rw [h1.2, updateStatusAndReturn_trace, updateStatusAndReturn_model]
          simp only [setStatuses, ensured_statuses]
          refine ⟨by simp, ?_⟩
          intro e he
          have := List.append_cancel_left he
          simp only [List.cons.injEq, and_true] at this
          subst this
          exact ⟨q, hq, hinj, rfl⟩
        · rw [ho, updateStatusAndReturn_trace, updateStatusAndReturn_model]
          simp only [setStatuses, ensured_statuses]
          refine ⟨by simp, ?_⟩
          intro e he
          have := congrArg List.length he
          simp at this
        · rcases h3 with ⟨e, -, ho⟩ | ⟨-, e, -, -, ho⟩ | ⟨-, -, ho⟩
          · rw [ho]
            simp only [ensured_statuses]
            exact ⟨by simp, fun e he => (hlen _ _ he).elim⟩
          · rw [ho]
            simp only [ensured_statuses]
            refine ⟨?_, fun e he => (hlen _ _ he).elim⟩
            intro n hn
            simp only [pushTargets_append, pushTargets_ensuredTrace, pushTargets_cons,
              pushTargets_nil, List.append_nil, List.nil_append, List.mem_singleton] at hn
            exact ⟨q, hq, hinj, hn.symm⟩
          · rw [ho, updateStatusAndReturn_trace, updateStatusAndReturn_model]
            simp only [setStatuses, ensured_statuses]
            refine ⟨?_, ?_⟩
            · intro n hn
              simp only [pushTargets_append, pushTargets_ensuredTrace, pushTargets_cons,
                pushTargets_nil, List.append_nil, List.nil_append, List.mem_singleton] at hn
              exact ⟨q, hq, hinj, hn.symm⟩
            · intro e he
              have := congrArg List.length he
              simp at this
      · obtain ⟨pre, s, post, -, -, -, ho⟩ := forgetPods_done hg
        rw [ho, updateStatusAndReturn_trace, updateStatusAndReturn_model]
        simp only [setStatuses, ensured_statuses]
        refine ⟨by simp, ?_⟩
        intro e he
        have h1 := congrArg List.length he
        have h2 := List.length_filter_le (fun t => t.PodName !=
          (env.GetPod (ensuredTrace model ++ [Call.ListPods model.Namespace] ++
            lookups (ensured model).Namespace pre) (ensured model).Namespace s.PodName).1.Name)
          model.Status.RegistryStatuses
        simp only [List.length_append, List.length_singleton] at h1
        omega
      · rw [ho]
        simp only [ensured_statuses]
        exact ⟨by simp, fun e he => (hlen _ _ he).elim⟩
  · intro pods hlist d hd
    cases hp : model.Spec.Plugin with
    | none =>
      simp [reconcileDelete, hp] at hd
    | some plugin =>
      by_cases hf : HasFinalizer model configFinalizer = true
      · have hcalls := deletePods_calls c env model plugin pods [.ListPods model.Namespace] d
        unfold reconcileDelete at hd
        simp only [hp, hf, Bool.not_true, Bool.false_eq_true, if_false, hlist] at hd
        cases hdp : deletePods c env model plugin [.ListPods model.Namespace] pods with
        | done o =>
          rw [hdp] at hd hcalls
          rcases hcalls hd with h | h
          · simp at h
          · exact h
        | next rq tr2 =>
          rw [hdp] at hd hcalls
          have hd2 : d ∈ deleteCalls tr2 := by
            simp only [] at hd
            split at hd <;> simpa using hd
          rcases hcalls hd2 with h | h
          · simp at h
          · exact h
      · have hf1 : HasFinalizer model configFinalizer = false := by simpa using hf
        simp [reconcileDelete, hp, hf1] at hd

/-- C18, witness: the listing holds a pod without the annotation before an
eligible pod; the pass creates the entry of the eligible pod, as it does when
the first pod is left out of the listing. -/
theorem passes_ignore_ineligible_witness :
    (reconcileCreate exConsts (exEnv [exPodPlain "p0" "10.0.0.9", exPod "p1" "10.0.0.1" true])
      (exModel [])).model.Status.RegistryStatuses = [⟨"p1", .ModelPending⟩] ∧
    (reconcileCreate exConsts
        (filteredListing exConsts (exEnv [exPodPlain "p0" "10.0.0.9", exPod "p1" "10.0.0.1" true]))
        (exModel [])
      = reconcileCreate exConsts
        (exEnv [exPodPlain "p0" "10.0.0.9", exPod "p1" "10.0.0.1" true]) (exModel []) ∧
    reconcileDelete exConsts
        (filteredListing exConsts (exEnv [exPodPlain "p0" "10.0.0.9", exPod "p1" "10.0.0.1" true]))
        (exModel [])
      = reconcileDelete exConsts
        (exEnv [exPodPlain "p0" "10.0.0.9", exPod "p1" "10.0.0.1" true]) (exModel []) ∧
    (∀ pods, (exEnv [exPodPlain "p0" "10.0.0.9", exPod "p1" "10.0.0.1" true]).ListPods
        (ensuredTrace (exModel [])) (exModel []).Namespace = .ok pods →
      (∀ n ∈ pushTargets (reconcileCreate exConsts
          (exEnv [exPodPlain "p0" "10.0.0.9", exPod "p1" "10.0.0.1" true]) (exModel [])).trace,
        ∃ p ∈ pods, injected exConsts p = true ∧ p.Name = n) ∧
      (∀ e, (reconcileCreate exConsts
          (exEnv [exPodPlain "p0" "10.0.0.9", exPod "p1" "10.0.0.1" true])
          (exModel [])).model.Status.RegistryStatuses
          = (exModel []).Status.RegistryStatuses ++ [e] →
        ∃ p ∈ pods, injected exConsts p = true ∧ p.Name = e.PodName)) ∧
    (∀ pods, (exEnv [exPodPlain "p0" "10.0.0.9", exPod "p1" "10.0.0.1" true]).ListPods []
        (exModel []).Namespace = .ok pods →
      ∀ d ∈ deleteCalls (reconcileDelete exConsts
          (exEnv [exPodPlain "p0" "10.0.0.9", exPod "p1" "10.0.0.1" true]) (exModel [])).trace,
        ∃ p ∈ pods, injected exConsts p = true ∧ p.Name = d.1)) :=
  ⟨by decide, passes_ignore_ineligible exConsts
    (exEnv [exPodPlain "p0" "10.0.0.9", exPod "p1" "10.0.0.1" true]) (exModel [])⟩

/-! ## C13: convergence -/

/-- The stored Model after one more pass: the pass works on the Model the store
holds and leaves what the store accepted of its writes. -/
theorem run_succ (c : Consts) (env : Env) (k : Nat) (model : Model) :
    run c env (k + 1) model
      = stored env [] (reconcileCreate c env (run c env k model)).trace (run c env k model) := by
  induction k generalizing model with
  | zero => rfl
  | succ k ih =>
    rw [run, ih]
    rfl

theorem stored_append (env : Env) (a b : List Call) : ∀ (pre : List Call) (st : Model),
    stored env pre (a ++ b) st = stored env (pre ++ a) b (stored env pre a st) := by
  induction a with
  | nil =>
    intro pre st
    simp [stored]
  | cons call a ih =>
    intro pre st
    have hassoc : ∀ x : Call, pre ++ [x] ++ a = pre ++ x :: a := by
      intro x
      simp
    cases call <;>
      (rw [List.cons_append]
       simp only [stored]
       rw [ih, hassoc])

/-- Calls that are no write leave the stored Model as it is. -/
theorem stored_readonly (env : Env) (tr : List Call) : ∀ (pre : List Call) (st : Model),
    modelWrites tr = [] → statusWrites tr = [] → stored env pre tr st = st := by
  induction tr with
  | nil =>
    intro pre st _ _
    rfl
  | cons call tr ih =>
    intro pre st hm hs
    cases call <;> simp at hm hs <;> simp only [stored] <;> exact ih _ _ hm hs

/-- Calls that are no Model update leave the finalizers and the spec of the
stored Model, and its namespace, as they are. -/
theorem stored_no_model_write (env : Env) (tr : List Call) : ∀ (pre : List Call) (st : Model),
    modelWrites tr = [] →
    (stored env pre tr st).Finalizers = st.Finalizers ∧
    (stored env pre tr st).Spec = st.Spec ∧
    (stored env pre tr st).Namespace = st.Namespace := by
  induction tr with
  | nil =>
    intro pre st _
    exact ⟨rfl, rfl, rfl⟩
  | cons call tr ih =>
    intro pre st hm
    cases call with
    | Update m => simp at hm
    | StatusUpdate m =>
      simp at hm
      simp only [stored]
      cases env.StatusUpdate pre m with
      | none => exact ih _ _ hm
      | some e => exact ih _ _ hm
    | ListPods ns =>
      simp at hm
      simp only [stored]
      exact ih _ _ hm
    | GetPod ns name =>
      simp at hm
      simp only [stored]
      exact ih _ _ hm
    | ConnectAddress pod addr =>
      simp at hm
      simp only [stored]
      exact ih _ _ hm
    | PushModel pod addr req =>
      simp at hm
      simp only [stored]
      exact ih _ _ hm
    | DeleteModel pod addr req =>
      simp at hm
      simp only [stored]
      exact ih _ _ hm

/-- The store holds the Model with the finalizer after the finalizer step, when
the store accepts the update that step issues. -/
theorem stored_ensuredTrace (env : Env) (m : Model)
    (hupd : HasFinalizer m configFinalizer = false → env.Update [] (ensured m) = none) :
    stored env [] (ensuredTrace m) m = ensured m := by
  cases hf : HasFinalizer m configFinalizer with
  | true => simp [ensuredTrace, ensured, hf, stored]
  | false =>
    have h := hupd hf
    simp only [ensured, hf, Bool.false_eq_true, if_false] at h
    simp only [ensuredTrace, ensured, hf, Bool.false_eq_true, if_false, stored, h]
    rfl

/-- A pass whose calls after the finalizer step are no write leaves in the store
the Model with the finalizer. -/
theorem stored_read_pass (env : Env) (m : Model) (tr mid : List Call)
    (htr : tr = ensuredTrace m ++ mid)
    (hupd : HasFinalizer m configFinalizer = false → env.Update [] (ensured m) = none)
    (hm : modelWrites mid = []) (hs : statusWrites mid = []) :
    stored env [] tr m = ensured m := by
  rw [htr, stored_append, stored_ensuredTrace env m hupd, stored_readonly env mid _ _ hm hs]

/-- A pass that ends in a status write the store accepts, with no other write
after the finalizer step, leaves in the store the Model it wrote. -/
theorem stored_write_pass (env : Env) (m : Model) (tr mid : List Call)
    (sts : List RegistryStatus)
    (htr : tr = ensuredTrace m ++ mid)
    (hupd : HasFinalizer m configFinalizer = false → env.Update [] (ensured m) = none)
    (hm : modelWrites mid = []) (hs : statusWrites mid = [])
    (hacc : env.StatusUpdate tr (setStatuses (ensured m) sts) = none) :
    stored env [] (tr ++ [.StatusUpdate (setStatuses (ensured m) sts)]) m
      = setStatuses (ensured m) sts := by
  rw [stored_append, stored_read_pass env m tr mid htr hupd hm hs]
  simp only [List.nil_append, stored, hacc]
  rfl

/-- A pass that returns through an accepted status write: the Model it wrote is
the Model it returns, its one status write, and the Model the store holds after
the pass. -/
theorem pass_persists (c : Consts) (env : Env) (m : Model) (tr mid : List Call)
    (sts : List RegistryStatus)
    (ho : reconcileCreate c env m = updateStatusAndReturn env (setStatuses (ensured m) sts) tr)
    (htr : tr = ensuredTrace m ++ mid)
    (hupd : HasFinalizer m configFinalizer = false → env.Update [] (ensured m) = none)
    (hm : modelWrites mid = []) (hs : statusWrites mid = [])
    (hacc : env.StatusUpdate tr (setStatuses (ensured m) sts) = none) :
    stored env [] (reconcileCreate c env m).trace m = setStatuses (ensured m) sts ∧
    statusWrites (reconcileCreate c env m).trace = [setStatuses (ensured m) sts] := by
  rw [ho, updateStatusAndReturn_trace]
  refine ⟨stored_write_pass env m tr mid sts htr hupd hm hs hacc, ?_⟩
  rw [htr]
  simp [hs]

theorem run_add (c : Consts) (env : Env) (a b : Nat) (model : Model) :
    run c env (a + b) model = run c env b (run c env a model) := by
  induction a generalizing model with
  | zero => simp [run]
  | succ a ih =>
    rw [Nat.succ_add, run, ih]
    rfl

theorem findStatus_of_not_mem (l : List RegistryStatus) (n : String) (h : n ∉ podNames l) :
    findStatus l n = none := by
  induction l with
  | nil => rfl
  | cons a l ih =>
    simp only [podNames, List.map_cons, List.mem_cons, not_or] at h
    have ha : ¬ a.PodName = n := fun heq => h.1 heq.symm
    simp only [findStatus, beq_iff_eq, ha, if_false]
    rw [ih (by simpa [podNames] using h.2)]

theorem findStatus_cons_ne (a : RegistryStatus) (l : List RegistryStatus) (n : String)
    (ha : ¬ a.PodName = n) :
    findStatus (a :: l) n = (findStatus l n).map (fun r => (r.1 + 1, r.2)) := by
  simp only [findStatus, beq_iff_eq, ha, if_false]
  cases findStatus l n with
  | none => rfl
  | some r => rfl

theorem findStatus_append_right (l l1 : List RegistryStatus) (n : String)
    (h : n ∉ podNames l) :
    findStatus (l ++ l1) n = (findStatus l1 n).map (fun r => (r.1 + l.length, r.2)) := by
  induction l with
  | nil =>
    simp only [List.nil_append, List.length_nil, Nat.add_zero]
    cases findStatus l1 n with
    | none => rfl
    | some r => rfl
  | cons a l ih =>
    simp only [podNames, List.map_cons, List.mem_cons, not_or] at h
    have ha : ¬ a.PodName = n := fun heq => h.1 heq.symm
    have ih1 := ih (by simpa [podNames] using h.2)
    rw [List.cons_append, findStatus_cons_ne _ _ _ ha, ih1]
    cases findStatus l1 n with
    | none => rfl
    | some r =>
      simp only [Option.map_some', List.length_cons]
      rfl

theorem set_length_append (l : List RegistryStatus) (x y : RegistryStatus) :
    (l ++ [x]).set l.length y = l ++ [y] := by
  induction l with
  | nil => rfl
  | cons a l ih => simp [ih]

theorem phaseOf_append_left (l l1 : List RegistryStatus) (n : String) (a : ModelPhase)
    (h : phaseOf l n = some a) : phaseOf (l ++ l1) n = some a := by
  induction l with
  | nil => simp [phaseOf, findStatus] at h
  | cons x l ih =>
    rw [phaseOf_cons] at h
    simp only [List.cons_append, phaseOf_cons]
    split
    · rename_i hx
      simpa [hx] using h
    · rename_i hx
      simp only [hx, if_false] at h
      exact ih h

theorem phaseOf_installedOf (pods : List Pod) (p : Pod) (h : p ∈ pods) :
    phaseOf (installedOf pods) p.Name = some .ModelInstalled := by
  induction pods with
  | nil => cases h
  | cons q pods ih =>
    simp only [installedOf, List.map_cons, phaseOf_cons]
    split
    · rfl
    · rename_i hq
      rcases List.mem_cons.1 h with h1 | h1
      · exact absurd (by rw [h1]) hq
      · exact ih h1

theorem podNames_installedOf (pods : List Pod) :
    podNames (installedOf pods) = pods.map (fun p => p.Name) := by
  simp [podNames, installedOf]

/-- A pod whose entry is Installed does not stop the scan and leaves the
requeue flag as it is. -/
theorem reconcilePod_installed (c : Consts) (env : Env) (model : Model) (plugin : Plugin)
    (tr : List Call) (rq : Bool) (pod : Pod)
    (h : phaseOf model.Status.RegistryStatuses pod.Name = some .ModelInstalled) :
    reconcilePod c env model plugin tr rq pod = .next rq tr := by
  unfold phaseOf at h
  cases hf : findStatus model.Status.RegistryStatuses pod.Name with
  | none => simp [hf] at h
  | some r =>
    obtain ⟨i, s⟩ := r
    simp only [hf, Option.map_some', Option.some.injEq] at h
    unfold reconcilePod
    by_cases hinj : injected c pod = true
    · simp only [hinj, if_true, hf, h]
    · simp only [hinj, Bool.false_eq_true, if_false]

theorem scanPods_installed (c : Consts) (env : Env) (model : Model) (plugin : Plugin)
    (tr : List Call) (rq : Bool) (pods : List Pod)
    (h : ∀ q ∈ pods, phaseOf model.Status.RegistryStatuses q.Name = some .ModelInstalled) :
    scanPods c env model plugin tr rq pods = .next rq tr := by
  induction pods with
  | nil => rfl
  | cons q pods ih =>
    simp only [scanPods, reconcilePod_installed c env model plugin tr rq q
      (h q (List.mem_cons_self _ _))]
    exact ih (fun x hx => h x (List.mem_cons_of_mem _ hx))

theorem forgetPods_all_found (env : Env) (model : Model) (rq : Bool) (sts : List RegistryStatus)
    (h : ∀ tr, ∀ s ∈ sts, (env.GetPod tr model.Namespace s.PodName).2 = none) :
    ∀ tr, forgetPods env model rq tr sts = .next rq (tr ++ lookups model.Namespace sts) := by
  induction sts with
  | nil =>
    intro tr
    simp [forgetPods, lookups]
  | cons s sts ih =>
    intro tr
    simp only [forgetPods, h tr s (List.mem_cons_self _ _)]
    rw [ih (fun tr1 x hx => h tr1 x (List.mem_cons_of_mem _ hx))]
    simp [lookups]

/-- A convergence pass that reads only: the finalizer step succeeds, the listing
succeeds, every listed pod has an Installed entry, and every lookup succeeds. -/
theorem reconcileCreate_idle (c : Consts) (env : Env) (model : Model) (plugin : Plugin)
    (pods : List Pod)
    (hp : model.Spec.Plugin = some plugin)
    (hupd : HasFinalizer model configFinalizer = false → env.Update [] (ensured model) = none)
    (hlist : env.ListPods (ensuredTrace model) model.Namespace = .ok pods)
    (hinst : ∀ q ∈ pods, phaseOf model.Status.RegistryStatuses q.Name = some .ModelInstalled)
    (hlook : ∀ tr, ∀ s ∈ model.Status.RegistryStatuses,
      (env.GetPod tr model.Namespace s.PodName).2 = none) :
    reconcileCreate c env model =
      { result := {}, err := none, model := ensured model,
        trace := ensuredTrace model ++ [.ListPods model.Namespace] ++
          lookups model.Namespace model.Status.RegistryStatuses } := by
  have hscan := scanPods_installed c env (ensured model) plugin
    (ensuredTrace model ++ [.ListPods model.Namespace]) false pods
    (by rw [ensured_statuses]; exact hinst)
  have hforget := forgetPods_all_found env (ensured model) false model.Status.RegistryStatuses
    (by rw [ensured_namespace]; exact hlook) (ensuredTrace model ++ [.ListPods model.Namespace])
  rcases reconcileCreate_cases c env model plugin hp with
    ⟨hf, e, he, -⟩ | ⟨-, ⟨e, he, -⟩ | ⟨pods1, hl, hs | ⟨rq, hs, hg | ⟨-, ho⟩⟩⟩⟩
  · rw [hupd hf] at he
    cases he
  · rw [hlist] at he
    cases he
  · rw [hlist] at hl
    cases hl
    rw [hscan] at hs
    cases hs
  · rw [hlist] at hl
    cases hl
    rw [hscan] at hs
    cases hs
    rw [hforget] at hg
    cases hg
  · rw [hlist] at hl
    cases hl
    rw [hscan] at hs
    cases hs
    rw [ho]
    rfl

/-- The step at an eligible pod that has no entry. -/
theorem reconcilePod_create {c : Consts} {env : Env} {model : Model} {plugin : Plugin}
    {tr : List Call} {rq : Bool} {pod : Pod}
    (hinj : injected c pod = true)
    (hfind : findStatus model.Status.RegistryStatuses pod.Name = none) :
    reconcilePod c env model plugin tr rq pod =
      .done (updateStatusAndReturn env
        (setStatuses model (model.Status.RegistryStatuses ++
          [{ PodName := pod.Name, Phase := .ModelPending }])) tr) := by
  unfold reconcilePod
  simp only [hinj, if_true, hfind]

theorem setStatuses_ensured_plugin (model : Model) (sts : List RegistryStatus) :
    (setStatuses (ensured model) sts).Spec.Plugin = model.Spec.Plugin := by
  rw [← ensured_plugin model]
  rfl

theorem setStatuses_ensured_namespace (model : Model) (sts : List RegistryStatus) :
    (setStatuses (ensured model) sts).Namespace = model.Namespace := by
  rw [← ensured_namespace model]
  rfl

theorem hasFinalizer_setStatuses_ensured (model : Model) (sts : List RegistryStatus) :
    HasFinalizer (setStatuses (ensured model) sts) configFinalizer = true :=
  hasFinalizer_ensured model

theorem ensured_of_hasFinalizer (model : Model)
    (hf : HasFinalizer model configFinalizer = true) : ensured model = model := by
  simp [ensured, hf]

/-- One pass on the way to convergence: the pods `done` are Installed, `p` is
the next listed pod and is eligible; the pass creates the entry of `p`, or,
when `p` is ready, moves it from Pending to Installing, or pushes to it and
moves it from Installing to Installed.  In each case the pass issues one status
write, and the store then holds the Model that write carries. -/
theorem pass_progress (c : Consts) (env : Env) (ns : String) (pods : List Pod) (plugin : Plugin)
    (henv : AllSucceed env ns pods) (hnodup : (pods.map (fun p => p.Name)).Nodup)
    (m : Model) (hp : m.Spec.Plugin = some plugin) (hns : m.Namespace = ns)
    (done : List Pod) (p : Pod) (rest : List Pod) (hsplit : pods = done ++ p :: rest)
    (hinj : injected c p = true) :
    (m.Status.RegistryStatuses = installedOf done →
      stored env [] (reconcileCreate c env m).trace m = setStatuses (ensured m)
        (installedOf done ++ [{ PodName := p.Name, Phase := .ModelPending }]) ∧
      statusWrites (reconcileCreate c env m).trace = [setStatuses (ensured m)
        (installedOf done ++ [{ PodName := p.Name, Phase := .ModelPending }])]) ∧
    (m.Status.RegistryStatuses
        = installedOf done ++ [{ PodName := p.Name, Phase := .ModelPending }] →
      p.Status.PodIP ≠ "" → ¬ RegistryNotReady p →
      stored env [] (reconcileCreate c env m).trace m = setStatuses (ensured m)
        (installedOf done ++ [{ PodName := p.Name, Phase := .ModelInstalling }]) ∧
      statusWrites (reconcileCreate c env m).trace = [setStatuses (ensured m)
        (installedOf done ++ [{ PodName := p.Name, Phase := .ModelInstalling }])]) ∧
    (m.Status.RegistryStatuses
        = installedOf done ++ [{ PodName := p.Name, Phase := .ModelInstalling }] →
      ¬ RegistryNotReady p →
      (stored env [] (reconcileCreate c env m).trace m
          = setStatuses (ensured m) (installedOf (done ++ [p])) ∧
        statusWrites (reconcileCreate c env m).trace
          = [setStatuses (ensured m) (installedOf (done ++ [p]))]) ∧
      pushTargets (reconcileCreate c env m).trace = [p.Name]) := by
  obtain ⟨hU, hS, hL, hG, hC, hP⟩ := henv
  have hcr : ¬ RegistryNotReady p → containersReady p = true := by
    intro hnr
    cases hc : containersReady p with
    | true => rfl
    | false => exact absurd ((containersReady_eq_false p).1 hc) hnr
  have hpn : p.Name ∉ podNames (installedOf done) := by
    rw [podNames_installedOf]
    rw [hsplit, List.map_append, List.map_cons, List.nodup_append] at hnodup
    intro hmem
    exact hnodup.2.2 hmem (List.mem_cons_self _ _)
  have hupd : HasFinalizer m configFinalizer = false → env.Update [] (ensured m) = none :=
    fun _ => hU _ _
  have hlist : env.ListPods (ensuredTrace m) m.Namespace = .ok (done ++ p :: rest) := by
    rw [hns, hL, hsplit]
  have hscan : ∀ tail : List RegistryStatus,
      m.Status.RegistryStatuses = installedOf done ++ tail →
      scanPods c env (ensured m) plugin (ensuredTrace m ++ [Call.ListPods m.Namespace]) false
        (done ++ p :: rest)
      = match reconcilePod c env (ensured m) plugin
            (ensuredTrace m ++ [Call.ListPods m.Namespace]) false p with
        | .next rq1 _ => scanPods c env (ensured m) plugin
            (ensuredTrace m ++ [Call.ListPods m.Namespace]) rq1 rest
        | .done o => .done o := by
    intro tail hsts
    have hpre : ∀ q ∈ done,
        phaseOf (ensured m).Status.RegistryStatuses q.Name = some .ModelInstalled := by
      intro q hq
      rw [ensured_statuses, hsts]
      exact phaseOf_append_left _ _ _ _ (phaseOf_installedOf done q hq)
    rw [scanPods_append, scanPods_installed c env (ensured m) plugin _ false done hpre]
    simp only [scanPods]
  refine ⟨?_, ?_, ?_⟩
  · intro hsts
    have hfind : findStatus (ensured m).Status.RegistryStatuses p.Name = none := by
      rw [ensured_statuses, hsts]
      exact findStatus_of_not_mem _ _ hpn
    have hsc := hscan [] (by simpa using hsts)
    rw [reconcilePod_create hinj hfind] at hsc
    have ho : reconcileCreate c env m = _ := reconcileCreate_of_scan_done hp hupd hlist hsc
    rw [ensured_statuses, hsts] at ho
    exact pass_persists c env m _ [Call.ListPods m.Namespace] _ ho rfl hupd (by simp) (by simp)
      (hS _ _)
  · intro hsts hip hnr
    have hfind : findStatus (ensured m).Status.RegistryStatuses p.Name
        = some ((installedOf done).length, { PodName := p.Name, Phase := .ModelPending }) := by
      rw [ensured_statuses, hsts, findStatus_append_right _ _ _ hpn]
      simp [findStatus]
    have hsc := hscan _ hsts
    rw [reconcilePod_pending_ready hinj hfind rfl hip (hcr hnr)] at hsc
    have ho : reconcileCreate c env m = _ := reconcileCreate_of_scan_done hp hupd hlist hsc
    rw [ensured_statuses, hsts, set_length_append] at ho
    exact pass_persists c env m _ [Call.ListPods m.Namespace] _ ho rfl hupd (by simp) (by simp)
      (hS _ _)
  · intro hsts hnr
    have hfind : findStatus (ensured m).Status.RegistryStatuses p.Name
        = some ((installedOf done).length, { PodName := p.Name, Phase := .ModelInstalling }) := by
      rw [ensured_statuses, hsts, findStatus_append_right _ _ _ hpn]
      simp [findStatus]
    have hsc := hscan _ hsts
    rw [reconcilePod_installing_accepted hinj hfind rfl (hcr hnr) (hC _ _ _)
      (Or.inl (hP _ _ _ _))] at hsc
    have ho : reconcileCreate c env m = _ := reconcileCreate_of_scan_done hp hupd hlist hsc
    rw [ensured_statuses, hsts, set_length_append] at ho
    have hinst : installedOf done ++ [{ PodName := p.Name, Phase := .ModelInstalled }]
        = installedOf (done ++ [p]) := by
      simp [installedOf]
    rw [hinst] at ho
    refine ⟨pass_persists c env m _
      [Call.ListPods m.Namespace, Call.ConnectAddress p.Name (address p),
        Call.PushModel p.Name (address p) (pushRequest c (ensured m) plugin)] _ ho (by simp) hupd
      (by simp) (by simp) (hS _ _), ?_⟩
    rw [ho, updateStatusAndReturn_trace]
    simp

/-- Three passes install the next listed pod: each of them issues one status
write, and the store then holds the Model that write carries. -/
theorem three_passes (c : Consts) (env : Env) (ns : String) (pods : List Pod) (plugin : Plugin)
    (henv : AllSucceed env ns pods) (hfleet : ReadyFleet c pods)
    (m : Model) (hp : m.Spec.Plugin = some plugin) (hns : m.Namespace = ns)
    (done : List Pod) (p : Pod) (rest : List Pod) (hsplit : pods = done ++ p :: rest)
    (hsts : m.Status.RegistryStatuses = installedOf done) :
    (run c env 3 m).Spec.Plugin = some plugin ∧ (run c env 3 m).Namespace = ns ∧
    (run c env 3 m).Status.RegistryStatuses = installedOf (done ++ [p]) ∧
    ∀ k, k < 3 →
      statusWrites (reconcileCreate c env (run c env k m)).trace = [run c env (k + 1) m] := by
  have hpmem : p ∈ pods := by
    rw [hsplit]
    simp
  obtain ⟨hinj, hip, hnr⟩ := hfleet.2 p hpmem
  have h1 := (pass_progress c env ns pods plugin henv hfleet.1 m hp hns done p rest hsplit
    hinj).1 hsts
  have hr1 : run c env 1 m = setStatuses (ensured m)
      (installedOf done ++ [{ PodName := p.Name, Phase := .ModelPending }]) := h1.1
  have hp1 : (run c env 1 m).Spec.Plugin = some plugin := by
    rw [hr1, setStatuses_ensured_plugin, hp]
  have hns1 : (run c env 1 m).Namespace = ns := by
    rw [hr1, setStatuses_ensured_namespace, hns]
  have hs1 : (run c env 1 m).Status.RegistryStatuses
      = installedOf done ++ [{ PodName := p.Name, Phase := .ModelPending }] := by
    rw [hr1]
    rfl
  have h2 := (pass_progress c env ns pods plugin henv hfleet.1 _ hp1 hns1 done p rest
    hsplit hinj).2.1 hs1 hip hnr
  have hr2 : run c env 2 m = setStatuses (ensured (run c env 1 m))
      (installedOf done ++ [{ PodName := p.Name, Phase := .ModelInstalling }]) := by
    rw [run_succ]
    exact h2.1
  have hp2 : (run c env 2 m).Spec.Plugin = some plugin := by
    rw [hr2, setStatuses_ensured_plugin, hp1]
  have hns2 : (run c env 2 m).Namespace = ns := by
    rw [hr2, setStatuses_ensured_namespace, hns1]
  have hs2 : (run c env 2 m).Status.RegistryStatuses
      = installedOf done ++ [{ PodName := p.Name, Phase := .ModelInstalling }] := by
    rw [hr2]
    rfl
  have h3 := ((pass_progress c env ns pods plugin henv hfleet.1 _ hp2 hns2 done p rest
    hsplit hinj).2.2 hs2 hnr).1
  have hr3 : run c env 3 m
      = setStatuses (ensured (run c env 2 m)) (installedOf (done ++ [p])) := by
    rw [run_succ]
    exact h3.1
  refine ⟨?_, ?_, ?_, ?_⟩
  · rw [hr3, setStatuses_ensured_plugin, hp2]
  · rw [hr3, setStatuses_ensured_namespace, hns2]
  · rw [hr3]
    rfl
  · intro k hk
    match k, hk with
    | 0, _ =>
      rw [hr1]
      exact h1.2
    | 1, _ =>
      rw [hr2]
      exact h2.2
    | 2, _ =>
      rw [hr3]
      exact h3.2

/-- From the pods `done` Installed, three passes per remaining pod install
every listed pod, each pass through one status write the store accepts. -/
theorem run_installs (c : Consts) (env : Env) (ns : String) (pods : List Pod) (plugin : Plugin)
    (henv : AllSucceed env ns pods) (hfleet : ReadyFleet c pods) (rest : List Pod) :
    ∀ (done : List Pod) (m : Model), m.Spec.Plugin = some plugin → m.Namespace = ns →
      pods = done ++ rest → m.Status.RegistryStatuses = installedOf done →
      (run c env (3 * rest.length) m).Spec.Plugin = some plugin ∧
      (run c env (3 * rest.length) m).Namespace = ns ∧
      (run c env (3 * rest.length) m).Status.RegistryStatuses = installedOf pods ∧
      ∀ k, k < 3 * rest.length →
        statusWrites (reconcileCreate c env (run c env k m)).trace = [run c env (k + 1) m] := by
  induction rest with
  | nil =>
    intro done m hp hns hsplit hsts
    simp only [List.append_nil] at hsplit
    subst hsplit
    refine ⟨hp, hns, hsts, ?_⟩
    intro k hk
    simp at hk
  | cons p rest ih =>
    intro done m hp hns hsplit hsts
    obtain ⟨hp3, hns3, hs3, hw3⟩ :=
      three_passes c env ns pods plugin henv hfleet m hp hns done p rest hsplit hsts
    have hlen : 3 * (p :: rest).length = 3 + 3 * rest.length := by
      simp only [List.length_cons]
      omega
    obtain ⟨hpr, hnsr, hsr, hwr⟩ := ih (done ++ [p]) _ hp3 hns3 (by simp [hsplit]) hs3
    rw [hlen, run_add]
    refine ⟨hpr, hnsr, hsr, ?_⟩
    intro k hk
    by_cases hk3 : k < 3
    · exact hw3 k hk3
    · obtain ⟨j, rfl⟩ := Nat.exists_eq_add_of_le (Nat.le_of_not_lt hk3)
      have hj : j < 3 * rest.length := by omega
      have := hwr j hj
      rw [Nat.add_assoc, run_add, run_add c env 3 (j + 1)]
      exact this

/-- Once every listed pod is Installed, a pass only reads. -/
theorem pass_stable (c : Consts) (env : Env) (ns : String) (pods : List Pod) (plugin : Plugin)
    (henv : AllSucceed env ns pods)
    (m : Model) (hp : m.Spec.Plugin = some plugin) (hns : m.Namespace = ns)
    (hsts : m.Status.RegistryStatuses = installedOf pods) :
    reconcileCreate c env m =
      { result := {}, err := none, model := ensured m,
        trace := ensuredTrace m ++ [.ListPods m.Namespace] ++
          lookups m.Namespace m.Status.RegistryStatuses } := by
  obtain ⟨hU, hS, hL, hG, hC, hP⟩ := henv
  apply reconcileCreate_idle c env m plugin pods hp (fun _ => hU _ _)
  · rw [hns]
    exact hL _
  · intro q hq
    rw [hsts]
    exact phaseOf_installedOf pods q hq
  · intro tr s hs
    rw [hsts] at hs
    simp only [installedOf, List.mem_map] at hs
    obtain ⟨q, hq, rfl⟩ := hs
    rw [hns]
    exact hG tr q hq

/-- Once every listed pod is Installed, the store holds after a pass the Model
it held before, with the finalizer. -/
theorem stored_stable (c : Consts) (env : Env) (ns : String) (pods : List Pod) (plugin : Plugin)
    (henv : AllSucceed env ns pods)
    (m : Model) (hp : m.Spec.Plugin = some plugin) (hns : m.Namespace = ns)
    (hsts : m.Status.RegistryStatuses = installedOf pods) :
    stored env [] (reconcileCreate c env m).trace m = ensured m := by
  rw [pass_stable c env ns pods plugin henv m hp hns hsts]
  exact stored_read_pass env m _
    ([Call.ListPods m.Namespace] ++ lookups m.Namespace m.Status.RegistryStatuses)
    (by simp) (fun _ => henv.1 _ _) (by simp) (by simp)

theorem run_stable (c : Consts) (env : Env) (ns : String) (pods : List Pod) (plugin : Plugin)
    (henv : AllSucceed env ns pods) (m : Model) (j : Nat) :
    m.Spec.Plugin = some plugin → m.Namespace = ns →
    m.Status.RegistryStatuses = installedOf pods →
    (run c env j m).Spec.Plugin = some plugin ∧ (run c env j m).Namespace = ns ∧
    (run c env j m).Status.RegistryStatuses = installedOf pods := by
  induction j generalizing m with
  | zero =>
    intro hp hns hsts
    exact ⟨hp, hns, hsts⟩
  | succ j ih =>
    intro hp hns hsts
    have ho := stored_stable c env ns pods plugin henv m hp hns hsts
    simp only [run]
    rw [ho]
    apply ih
    · rw [ensured_plugin, hp]
    · rw [ensured_namespace, hns]
    · rw [ensured_statuses, hsts]

/-- After at least one pass whose finalizer update the store accepts, the store
holds a Model that carries the finalizer. -/
theorem run_hasFinalizer (c : Consts) (env : Env) (plugin : Plugin)
    (hU : ∀ tr m, env.Update tr m = none) (k : Nat) :
    ∀ m : Model, m.Spec.Plugin = some plugin →
      (HasFinalizer m configFinalizer = true ∨ 0 < k) →
      (run c env k m).Spec.Plugin = some plugin ∧
      HasFinalizer (run c env k m) configFinalizer = true := by
  induction k with
  | zero =>
    intro m hp hf
    rcases hf with hf | hf
    · exact ⟨hp, hf⟩
    · exact absurd hf (Nat.lt_irrefl 0)
  | succ k ih =>
    intro m hp _
    obtain ⟨rest, sts, htr, hmw, -⟩ := reconcileCreate_shape c env m plugin hp
    have hst : stored env [] (reconcileCreate c env m).trace m
        = stored env (ensuredTrace m) rest (ensured m) := by
      rw [htr, stored_append, stored_ensuredTrace env m (fun _ => hU _ _)]
      rfl
    obtain ⟨hfin, hspec, -⟩ := stored_no_model_write env rest (ensuredTrace m) (ensured m) hmw
    simp only [run]
    apply ih
    · rw [hst, hspec, ensured_plugin, hp]
    · left
      rw [hst]
      have := hasFinalizer_ensured m
      simp only [HasFinalizer] at this ⊢
      rw [hfin]
      exact this

/-- When the store refuses every status write, the passes make no progress: each
of them returns a Model with the entry of the first pod, and the store still
holds the empty status list. -/
theorem run_status_refused :
    (reconcileCreate exConsts (exEnvStatusRefused exPods2)
      (run exConsts (exEnvStatusRefused exPods2) 5 exModelNew)).model.Status.RegistryStatuses
      = [⟨"p1", .ModelPending⟩] ∧
    (run exConsts (exEnvStatusRefused exPods2) 6 exModelNew).Status.RegistryStatuses = [] := by
  decide

/-- C13 (amended): for a Model with a Plugin spec and an empty status list, and a
listing of N eligible, ready pods with distinct names, when every store
operation and every remote call succeeds and the listing stays the same, with
every pass working on the Model the store holds: each of the first 3 * N passes
issues one status write, which the store takes over; after them the stored
status list holds one Installed entry per pod, in list order, so every pod has
an Installed entry; every later pass leaves the status list as it is, issues no
status write and no remote call, and returns idle without error; after at least
one pass the stored Model carries the finalizer, and a later pass on a stored
Model that carries the finalizer issues no Model update either and leaves the
stored Model as it is.  The one later pass that writes is the first pass when
N = 0 and the Model lacks the finalizer: it issues the update that adds the
finalizer, which the store takes over. -/
theorem reconcileCreate_converges (c : Consts) (env : Env) (model : Model) (plugin : Plugin)
    (pods : List Pod)
    (hp : model.Spec.Plugin = some plugin)
    (h0 : model.Status.RegistryStatuses = [])
    (henv : AllSucceed env model.Namespace pods)
    (hfleet : ReadyFleet c pods) :
    (run c env (3 * pods.length) model).Status.RegistryStatuses = installedOf pods ∧
    (∀ p ∈ pods, phaseOf (run c env (3 * pods.length) model).Status.RegistryStatuses p.Name
      = some .ModelInstalled) ∧
    (∀ k, k < 3 * pods.length →
      statusWrites (reconcileCreate c env (run c env k model)).trace
        = [run c env (k + 1) model]) ∧
    (∀ k, 3 * pods.length ≤ k →
      (reconcileCreate c env (run c env k model)).model.Status.RegistryStatuses
        = (run c env k model).Status.RegistryStatuses ∧
      (run c env (k + 1) model).Status.RegistryStatuses
        = (run c env k model).Status.RegistryStatuses ∧
      statusWrites (reconcileCreate c env (run c env k model)).trace = [] ∧
      remoteCalls (reconcileCreate c env (run c env k model)).trace = [] ∧
      (reconcileCreate c env (run c env k model)).result
        = { Requeue := false, RequeueAfter := 0 } ∧
      (reconcileCreate c env (run c env k model)).err = none ∧
      (0 < k → HasFinalizer (run c env k model) configFinalizer = true) ∧
      (HasFinalizer (run c env k model) configFinalizer = true →
        (reconcileCreate c env (run c env k model)).model = run c env k model ∧
        modelWrites (reconcileCreate c env (run c env k model)).trace = [] ∧
        run c env (k + 1) model = run c env k model)) ∧
    (pods = [] → HasFinalizer model configFinalizer = false →
      modelWrites (reconcileCreate c env model).trace = [AddFinalizer model configFinalizer] ∧
      run c env 1 model = AddFinalizer model configFinalizer) := by
  obtain ⟨hp3, hns3, hs3, hw3⟩ := run_installs c env model.Namespace pods plugin henv hfleet pods
    [] model hp rfl (by simp) (by simpa [installedOf] using h0)
  refine ⟨hs3, ?_, hw3, ?_, ?_⟩
  · intro p hpm
    rw [hs3]
    exact phaseOf_installedOf pods p hpm
  · intro k hk
    have hfin : 0 < k → HasFinalizer (run c env k model) configFinalizer = true :=
      fun hpos => (run_hasFinalizer c env plugin henv.1 k model hp (Or.inr hpos)).2
    obtain ⟨j, rfl⟩ := Nat.exists_eq_add_of_le hk
    have e1 : run c env (3 * pods.length + j) model
        = run c env j (run c env (3 * pods.length) model) := run_add c env _ _ model
    have e2 : run c env (3 * pods.length + j + 1) model
        = run c env (j + 1) (run c env (3 * pods.length) model) := by
      rw [Nat.add_assoc]
      exact run_add c env _ _ model
    have hsucc := run_succ c env j (run c env (3 * pods.length) model)
    rw [e1] at hfin
    rw [e2, e1]
    obtain ⟨hpj, hnsj, hsj⟩ := run_stable c env model.Namespace pods plugin henv
      (run c env (3 * pods.length) model) j hp3 hns3 hs3
    have hst := stored_stable c env model.Namespace pods plugin henv _ hpj hnsj hsj
    have ho := pass_stable c env model.Namespace pods plugin henv _ hpj hnsj hsj
    rw [hst] at hsucc
    rw [hsucc, ho]
    refine ⟨ensured_statuses _, ensured_statuses _, by simp, by simp, rfl, rfl, hfin, ?_⟩
    intro hf
    refine ⟨ensured_of_hasFinalizer _ hf, by simp [hf], ensured_of_hasFinalizer _ hf⟩
  · intro hnil hf
    subst hnil
    have hst := stored_stable c env model.Namespace [] plugin henv model hp rfl
      (by simpa [installedOf] using h0)
    have ho := pass_stable c env model.Namespace [] plugin henv model hp rfl
      (by simpa [installedOf] using h0)
    constructor
    · rw [ho]
      simp [hf]
    · show stored env [] (reconcileCreate c env model).trace model = _
      rw [hst]
      simp [ensured, hf]

/-- C13, witness: a new Model and two eligible, ready pods; after six passes
the store holds both pods as Installed. -/
theorem reconcileCreate_converges_witness :
    (run exConsts (exEnv exPods2) 6 exModelNew).Status.RegistryStatuses
      = [⟨"p1", .ModelInstalled⟩, ⟨"p2", .ModelInstalled⟩] ∧
    ((run exConsts (exEnv exPods2) (3 * exPods2.length) exModelNew).Status.RegistryStatuses
      = installedOf exPods2 ∧
    (∀ p ∈ exPods2,
      phaseOf (run exConsts (exEnv exPods2) (3 * exPods2.length)
        exModelNew).Status.RegistryStatuses p.Name = some .ModelInstalled) ∧
    (∀ k, k < 3 * exPods2.length →
      statusWrites (reconcileCreate exConsts (exEnv exPods2)
        (run exConsts (exEnv exPods2) k exModelNew)).trace
        = [run exConsts (exEnv exPods2) (k + 1) exModelNew]) ∧
    (∀ k, 3 * exPods2.length ≤ k →
      (reconcileCreate exConsts (exEnv exPods2)
        (run exConsts (exEnv exPods2) k exModelNew)).model.Status.RegistryStatuses
        = (run exConsts (exEnv exPods2) k exModelNew).Status.RegistryStatuses ∧
      (run exConsts (exEnv exPods2) (k + 1) exModelNew).Status.RegistryStatuses
        = (run exConsts (exEnv exPods2) k exModelNew).Status.RegistryStatuses ∧
      statusWrites (reconcileCreate exConsts (exEnv exPods2)
        (run exConsts (exEnv exPods2) k exModelNew)).trace = [] ∧
      remoteCalls (reconcileCreate exConsts (exEnv exPods2)
        (run exConsts (exEnv exPods2) k exModelNew)).trace = [] ∧
      (reconcileCreate exConsts (exEnv exPods2)
        (run exConsts (exEnv exPods2) k exModelNew)).result
        = { Requeue := false, RequeueAfter := 0 } ∧
      (reconcileCreate exConsts (exEnv exPods2)
        (run exConsts (exEnv exPods2) k exModelNew)).err = none ∧
      (0 < k → HasFinalizer (run exConsts (exEnv exPods2) k exModelNew) configFinalizer = true) ∧
      (HasFinalizer (run exConsts (exEnv exPods2) k exModelNew) configFinalizer = true →
        (reconcileCreate exConsts (exEnv exPods2)
          (run exConsts (exEnv exPods2) k exModelNew)).model
          = run exConsts (exEnv exPods2) k exModelNew ∧
        modelWrites (reconcileCreate exConsts (exEnv exPods2)
          (run exConsts (exEnv exPods2) k exModelNew)).trace = [] ∧
        run exConsts (exEnv exPods2) (k + 1) exModelNew
          = run exConsts (exEnv exPods2) k exModelNew)) ∧
    (exPods2 = [] → HasFinalizer exModelNew configFinalizer = false →
      modelWrites (reconcileCreate exConsts (exEnv exPods2) exModelNew).trace
        = [AddFinalizer exModelNew configFinalizer] ∧
      run exConsts (exEnv exPods2) 1 exModelNew = AddFinalizer exModelNew configFinalizer)) :=
  ⟨by decide,
    reconcileCreate_converges exConsts (exEnv exPods2) exModelNew exPlugin exPods2 rfl rfl
      ⟨fun _ _ => rfl, fun _ _ => rfl, fun _ => rfl,
        (by
          intro tr p hp
          simp only [exPods2, List.mem_cons, List.mem_singleton, List.not_mem_nil, or_false] at hp
          rcases hp with rfl | rfl <;> rfl),
        fun _ _ _ => rfl, fun _ _ _ _ => rfl⟩
      ⟨by decide, by
        intro p hp
        simp only [exPods2, List.mem_cons, List.mem_singleton, List.not_mem_nil, or_false] at hp
        rcases hp with rfl | rfl <;> exact ⟨by decide, by decide, by decide⟩⟩⟩

/-- C13, counterexample: a Model with a Plugin spec, an empty status list and no
finalizer, and no eligible pod (N = 0), every call succeeding.  The first pass is
a pass later than the 3 * 0 passes of the claim; it issues the update that adds
the finalizer, and the store holds another Model after it than before. -/
theorem reconcileCreate_first_pass_writes :
    exModelNew.Spec.Plugin = some exPlugin ∧
    exModelNew.Status.RegistryStatuses = [] ∧
    AllSucceed (exEnv []) exModelNew.Namespace [] ∧
    ReadyFleet exConsts [] ∧
    3 * ([] : List Pod).length ≤ 0 ∧
    modelWrites (reconcileCreate exConsts (exEnv [])
      (run exConsts (exEnv []) 0 exModelNew)).trace = [AddFinalizer exModelNew configFinalizer] ∧
    run exConsts (exEnv []) 1 exModelNew ≠ run exConsts (exEnv []) 0 exModelNew := by
  refine ⟨rfl, rfl, ?_, ?_, by decide, by decide, by decide⟩
  · exact ⟨fun _ _ => rfl, fun _ _ => rfl, fun _ => rfl, fun _ p hp => by simp at hp,
      fun _ _ _ => rfl, fun _ _ _ _ => rfl⟩
  · exact ⟨by decide, fun p hp => by simp at hp⟩

/-! ## C14: worked example -/

/-- The step at an eligible pod with an address whose entry is Pending and
whose `model-registry` container is not ready. -/
theorem reconcilePod_pending_not_ready {c : Consts} {env : Env} {model : Model}
    {plugin : Plugin} {tr : List Call} {rq : Bool} {pod : Pod} {i : Nat} {s : RegistryStatus}
    (hinj : injected c pod = true)
    (hfind : findStatus model.Status.RegistryStatuses pod.Name = some (i, s))
    (hph : s.Phase = .ModelPending) (hip : pod.Status.PodIP ≠ "")
    (hready : containersReady pod = false) :
    reconcilePod c env model plugin tr rq pod = .next true tr := by
  have hip1 : (pod.Status.PodIP != "") = true := by simpa using hip
  unfold reconcilePod
  simp only [hinj, if_true, hfind, hph, hip1, hready, Bool.not_false]

/-- A pass returns after the lookups when the scan stops at no pod and every
lookup succeeds: a requeue after one second when the scan asked for it, idle
otherwise. -/
theorem reconcileCreate_of_scan_next {c : Consts} {env : Env} {model : Model} {plugin : Plugin}
    {pods : List Pod} {rq : Bool}
    (hp : model.Spec.Plugin = some plugin)
    (hupd : HasFinalizer model configFinalizer = false → env.Update [] (ensured model) = none)
    (hlist : env.ListPods (ensuredTrace model) model.Namespace = .ok pods)
    (hscan : scanPods c env (ensured model) plugin
      (ensuredTrace model ++ [.ListPods model.Namespace]) false pods
        = .next rq (ensuredTrace model ++ [.ListPods model.Namespace]))
    (hlook : ∀ tr, ∀ s ∈ model.Status.RegistryStatuses,
      (env.GetPod tr model.Namespace s.PodName).2 = none) :
    reconcileCreate c env model =
      { result := if rq then { RequeueAfter := retryDuration } else {},
        err := none, model := ensured model,
        trace := ensuredTrace model ++ [.ListPods model.Namespace] ++
          lookups model.Namespace model.Status.RegistryStatuses } := by
  have hforget := forgetPods_all_found env (ensured model) rq model.Status.RegistryStatuses
    (by rw [ensured_namespace]; exact hlook) (ensuredTrace model ++ [.ListPods model.Namespace])
  rcases reconcileCreate_cases c env model plugin hp with
    ⟨hf, e, he, -⟩ | ⟨-, ⟨e, he, -⟩ | ⟨pods1, hl, hs | ⟨rq1, hs, hg | ⟨-, ho⟩⟩⟩⟩
  · rw [hupd hf] at he
    cases he
  · rw [hlist] at he
    cases he
  · rw [hlist] at hl
    cases hl
    rw [hscan] at hs
    cases hs
  · rw [hlist] at hl
    cases hl
    rw [hscan] at hs
    cases hs
    rw [hforget] at hg
    cases hg
  · rw [hlist] at hl
    cases hl
    rw [hscan] at hs
    cases hs
    rw [ho]

/-- C14 (amended): for a Model with a Plugin spec and an empty status list, and
the listing `p1`, `p2` of two eligible pods with distinct names, `p1` ready and
`p2` with an address and a `model-registry` container reported not ready, with
every store and remote call succeeding and every pass working on the Model the
store holds: pass 1 creates the entry of `p1` as Pending; pass 2 moves `p1` to
Installing; pass 3 pushes to `p1` and sets it Installed; pass 4 creates the
entry of `p2` as Pending; pass 5 changes nothing, issues no status write and no
remote call, and returns a requeue after one second.  Each of the passes 1 to 4
issues one status write, which the store takes over, and pass 5 leaves the
stored Model as it is. -/
theorem worked_example_trace (c : Consts) (env : Env) (model : Model) (plugin : Plugin)
    (p1 p2 : Pod)
    (hp : model.Spec.Plugin = some plugin)
    (h0 : model.Status.RegistryStatuses = [])
    (henv : AllSucceed env model.Namespace [p1, p2])
    (hne : p1.Name ≠ p2.Name)
    (hi1 : injected c p1 = true) (hi2 : injected c p2 = true)
    (hr1 : p1.Status.PodIP ≠ "" ∧ ¬ RegistryNotReady p1)
    (hr2 : p2.Status.PodIP ≠ "" ∧ RegistryNotReady p2) :
    (run c env 1 model).Status.RegistryStatuses = [⟨p1.Name, .ModelPending⟩] ∧
    (run c env 2 model).Status.RegistryStatuses = [⟨p1.Name, .ModelInstalling⟩] ∧
    (run c env 3 model).Status.RegistryStatuses = [⟨p1.Name, .ModelInstalled⟩] ∧
    pushTargets (reconcileCreate c env (run c env 2 model)).trace = [p1.Name] ∧
    (run c env 4 model).Status.RegistryStatuses
      = [⟨p1.Name, .ModelInstalled⟩, ⟨p2.Name, .ModelPending⟩] ∧
    (run c env 5 model).Status.RegistryStatuses = (run c env 4 model).Status.RegistryStatuses ∧
    statusWrites (reconcileCreate c env (run c env 4 model)).trace = [] ∧
    remoteCalls (reconcileCreate c env (run c env 4 model)).trace = [] ∧
    (reconcileCreate c env (run c env 4 model)).result
      = { Requeue := false, RequeueAfter := 1000000000 } ∧
    (reconcileCreate c env (run c env 4 model)).err = none ∧
    (∀ k, k < 4 →
      statusWrites (reconcileCreate c env (run c env k model)).trace
        = [run c env (k + 1) model]) ∧
    modelWrites (reconcileCreate c env (run c env 4 model)).trace = [] ∧
    run c env 5 model = run c env 4 model := by
  have hnodup : (([p1, p2] : List Pod).map (fun p => p.Name)).Nodup := by
    simp [hne]
  have hns : model.Namespace = model.Namespace := rfl
  -- pass 1
  have h1 := (pass_progress c env model.Namespace [p1, p2] plugin henv hnodup model hp hns
    [] p1 [p2] rfl hi1).1 (by simpa [installedOf] using h0)
  have hr1m : run c env 1 model = setStatuses (ensured model)
      (installedOf [] ++ [{ PodName := p1.Name, Phase := .ModelPending }]) := h1.1
  have hp1 : (run c env 1 model).Spec.Plugin = some plugin := by
    rw [hr1m, setStatuses_ensured_plugin, hp]
  have hns1 : (run c env 1 model).Namespace = model.Namespace := by
    rw [hr1m, setStatuses_ensured_namespace]
  have hs1 : (run c env 1 model).Status.RegistryStatuses
      = installedOf [] ++ [{ PodName := p1.Name, Phase := .ModelPending }] := by
    rw [hr1m]
    rfl
  -- pass 2
  have h2 := (pass_progress c env model.Namespace [p1, p2] plugin henv hnodup _ hp1 hns1
    [] p1 [p2] rfl hi1).2.1 hs1 hr1.1 hr1.2
  have hr2m : run c env 2 model = setStatuses (ensured (run c env 1 model))
      (installedOf [] ++ [{ PodName := p1.Name, Phase := .ModelInstalling }]) := by
    rw [run_succ]
    exact h2.1
  have hp2 : (run c env 2 model).Spec.Plugin = some plugin := by
    rw [hr2m, setStatuses_ensured_plugin, hp1]
  have hns2 : (run c env 2 model).Namespace = model.Namespace := by
    rw [hr2m, setStatuses_ensured_namespace, hns1]
  have hs2 : (run c env 2 model).Status.RegistryStatuses
      = installedOf [] ++ [{ PodName := p1.Name, Phase := .ModelInstalling }] := by
    rw [hr2m]
    rfl
  -- pass 3
  have h3 := (pass_progress c env model.Namespace [p1, p2] plugin henv hnodup _ hp2 hns2
    [] p1 [p2] rfl hi1).2.2 hs2 hr1.2
  have hr3m : run c env 3 model
      = setStatuses (ensured (run c env 2 model)) (installedOf ([] ++ [p1])) := by
    rw [run_succ]
    exact h3.1.1
  have hp3 : (run c env 3 model).Spec.Plugin = some plugin := by
    rw [hr3m, setStatuses_ensured_plugin, hp2]
  have hns3 : (run c env 3 model).Namespace = model.Namespace := by
    rw [hr3m, setStatuses_ensured_namespace, hns2]
  have hs3 : (run c env 3 model).Status.RegistryStatuses = installedOf [p1] := by
    rw [hr3m]
    rfl
  -- pass 4
  have h4 := (pass_progress c env model.Namespace [p1, p2] plugin henv hnodup _ hp3 hns3
    [p1] p2 [] rfl hi2).1 hs3
  have hr4m : run c env 4 model = setStatuses (ensured (run c env 3 model))
      (installedOf [p1] ++ [{ PodName := p2.Name, Phase := .ModelPending }]) := by
    rw [run_succ]
    exact h4.1
  have hp4 : (run c env 4 model).Spec.Plugin = some plugin := by
    rw [hr4m, setStatuses_ensured_plugin, hp3]
  have hns4 : (run c env 4 model).Namespace = model.Namespace := by
    rw [hr4m, setStatuses_ensured_namespace, hns3]
  have hs4 : (run c env 4 model).Status.RegistryStatuses
      = [⟨p1.Name, .ModelInstalled⟩, ⟨p2.Name, .ModelPending⟩] := by
    rw [hr4m]
    rfl
  have hf4 : HasFinalizer (run c env 4 model) configFinalizer = true := by
    rw [hr4m]
    exact hasFinalizer_setStatuses_ensured _ _
  -- pass 5
  obtain ⟨hU, hS, hL, hG, hC, hP⟩ := henv
  have hcr2 : containersReady p2 = false := (containersReady_eq_false p2).2 hr2.2
  have hscan : scanPods c env (ensured (run c env 4 model)) plugin
      (ensuredTrace (run c env 4 model) ++ [Call.ListPods (run c env 4 model).Namespace]) false
      [p1, p2]
      = .next true
        (ensuredTrace (run c env 4 model) ++ [Call.ListPods (run c env 4 model).Namespace]) := by
    have hph1 : phaseOf (ensured (run c env 4 model)).Status.RegistryStatuses p1.Name
        = some .ModelInstalled := by
      rw [ensured_statuses, hs4]
      simp [phaseOf_cons]
    have hfind2 : findStatus (ensured (run c env 4 model)).Status.RegistryStatuses p2.Name
        = some (1, { PodName := p2.Name, Phase := .ModelPending }) := by
      rw [ensured_statuses, hs4]
      simp [findStatus, hne]
    simp only [scanPods, reconcilePod_installed c env _ plugin _ false p1 hph1,
      reconcilePod_pending_not_ready hi2 hfind2 rfl hr2.1 hcr2]
  have ho5 := reconcileCreate_of_scan_next (c := c) hp4 (fun _ => hU _ _)
    (by rw [hns4]; exact hL _) hscan
    (by
      intro tr s hs
      rw [hs4] at hs
      rw [hns4]
      simp only [List.mem_cons, List.mem_singleton, List.not_mem_nil, or_false] at hs
      rcases hs with rfl | rfl
      · exact hG tr p1 (by simp)
      · exact hG tr p2 (by simp))
  have hr5m : run c env 5 model = run c env 4 model := by
    rw [run_succ, ho5]
    have hst := stored_read_pass env (run c env 4 model)
      (ensuredTrace (run c env 4 model) ++ [Call.ListPods (run c env 4 model).Namespace] ++
        lookups (run c env 4 model).Namespace (run c env 4 model).Status.RegistryStatuses)
      ([Call.ListPods (run c env 4 model).Namespace] ++
        lookups (run c env 4 model).Namespace (run c env 4 model).Status.RegistryStatuses)
      (by simp) (fun _ => hU _ _) (by simp) (by simp)
    rw [hst]
    exact ensured_of_hasFinalizer _ hf4
  refine ⟨?_, ?_, ?_, h3.2, hs4, ?_, ?_, ?_, ?_, ?_, ?_, ?_, hr5m⟩
  · rw [hs1]
    rfl
  · rw [hs2]
    rfl
  · rw [hs3]
    rfl
  · rw [hr5m]
  · rw [ho5]
    simp
  · rw [ho5]
    simp
  · rw [ho5]
    simp [retryDuration]
  · rw [ho5]
  · intro k hk
    match k, hk with
    | 0, _ =>
      rw [hr1m]
      exact h1.2
    | 1, _ =>
      rw [hr2m]
      exact h2.2
    | 2, _ =>
      rw [hr3m]
      exact h3.1.2
    | 3, _ =>
      rw [hr4m]
      exact h4.2
  · rw [ho5]
    simp [hf4]

/-- C14, witness: the worked example with a new Model. -/
theorem worked_example_trace_witness :
    (run exConsts (exEnv exPodsExample) 1 exModelNew).Status.RegistryStatuses
      = [⟨"p1", .ModelPending⟩] ∧
    (run exConsts (exEnv exPodsExample) 2 exModelNew).Status.RegistryStatuses
      = [⟨"p1", .ModelInstalling⟩] ∧
    (run exConsts (exEnv exPodsExample) 3 exModelNew).Status.RegistryStatuses
      = [⟨"p1", .ModelInstalled⟩] ∧
    pushTargets (reconcileCreate exConsts (exEnv exPodsExample)
      (run exConsts (exEnv exPodsExample) 2 exModelNew)).trace = ["p1"] ∧
    (run exConsts (exEnv exPodsExample) 4 exModelNew).Status.RegistryStatuses
      = [⟨"p1", .ModelInstalled⟩, ⟨"p2", .ModelPending⟩] ∧
    (run exConsts (exEnv exPodsExample) 5 exModelNew).Status.RegistryStatuses
      = (run exConsts (exEnv exPodsExample) 4 exModelNew).Status.RegistryStatuses ∧
    statusWrites (reconcileCreate exConsts (exEnv exPodsExample)
      (run exConsts (exEnv exPodsExample) 4 exModelNew)).trace = [] ∧
    remoteCalls (reconcileCreate exConsts (exEnv exPodsExample)
      (run exConsts (exEnv exPodsExample) 4 exModelNew)).trace = [] ∧
    (reconcileCreate exConsts (exEnv exPodsExample)
      (run exConsts (exEnv exPodsExample) 4 exModelNew)).result
      = { Requeue := false, RequeueAfter := 1000000000 } ∧
    (reconcileCreate exConsts (exEnv exPodsExample)
      (run exConsts (exEnv exPodsExample) 4 exModelNew)).err = none ∧
    (∀ k, k < 4 →
      statusWrites (reconcileCreate exConsts (exEnv exPodsExample)
        (run exConsts (exEnv exPodsExample) k exModelNew)).trace
        = [run exConsts (exEnv exPodsExample) (k + 1) exModelNew]) ∧
    modelWrites (reconcileCreate exConsts (exEnv exPodsExample)
      (run exConsts (exEnv exPodsExample) 4 exModelNew)).trace = [] ∧
    run exConsts (exEnv exPodsExample) 5 exModelNew
      = run exConsts (exEnv exPodsExample) 4 exModelNew :=
  worked_example_trace exConsts (exEnv exPodsExample) exModelNew exPlugin
    (exPod "p1" "10.0.0.1" true) (exPod "p2" "10.0.0.2" false) rfl rfl
    ⟨fun _ _ => rfl, fun _ _ => rfl, fun _ => rfl,
      (by
        intro tr p hp
        simp only [List.mem_cons, List.mem_singleton, List.not_mem_nil, or_false] at hp
        rcases hp with rfl | rfl <;> rfl),
      fun _ _ _ => rfl, fun _ _ _ _ => rfl⟩
    (by decide) (by decide) (by decide) ⟨by decide, by decide⟩ ⟨by decide, by decide⟩

/-- C14, counterexample: in the worked example, pass 2 does not create the
entry of `p2`: it moves `p1` to Installing, and `p2` has no entry in the stored
Model until pass 4. -/
theorem worked_example_second_pass :
    (run exConsts (exEnv exPodsExample) 1 exModelNew).Status.RegistryStatuses
      = [⟨"p1", .ModelPending⟩] ∧
    statusWrites (reconcileCreate exConsts (exEnv exPodsExample)
      (run exConsts (exEnv exPodsExample) 1 exModelNew)).trace
      = [run exConsts (exEnv exPodsExample) 2 exModelNew] ∧
    (run exConsts (exEnv exPodsExample) 2 exModelNew).Status.RegistryStatuses
      = [⟨"p1", .ModelInstalling⟩] ∧
    phaseOf (run exConsts (exEnv exPodsExample) 2 exModelNew).Status.RegistryStatuses "p2"
      = none ∧
    phaseOf (run exConsts (exEnv exPodsExample) 3 exModelNew).Status.RegistryStatuses "p2"
      = none ∧
    (run exConsts (exEnv exPodsExample) 2 exModelNew).Status.RegistryStatuses
      ≠ [⟨"p1", .ModelPending⟩, ⟨"p2", .ModelPending⟩] := by
  decide

end ModelReconciler
